import Mathlib

/-!
# Osborne collaboration server: room session core

A shallow embedding of `server/main.go` (registry of rooms, per-connection
protocol handlers, broadcast, liveness monitor, leave handling, purge,
retention sweeper) together with theorems about it.

Modelling conventions

* `time.Time` values are integers (nanoseconds, as `UnixNano`); every
  `time.Now()` of one handler run reads `Env.now`.
* A `*websocket.Conn` is a natural number (the identity of the transport).
  Every `WriteJSON` is appended to `World.out` as a `Send`; a `Send` records the
  session id for which the write was made (the loop variable `clientID` of
  `broadcastToRoom`, the one its error log line names), the transport written to,
  the message and whether the write failed. `Conn.Close()` appends the transport
  to `World.closed`.
* Go maps are association lists with the map operations `lookup`, `put`,
  `erase`; iteration follows the list. Key uniqueness, which a Go map has by
  construction, is the predicate `WF`.
* The SQLite store is three tables of rows; every gateway call is appended to
  `World.calls`; `Env.dbErr` decides which calls return a driver error (then the
  tables are unchanged), and an `INSERT` of an existing primary key is an error.
  A statement that writes while the cursor of a `SELECT` is still open cannot
  commit and returns an error (`cursorOpen`). `created_at` holds the instant of
  the insert; the listing query compares the text SQLite stored for it with the
  text the driver binds for the cutoff (`currentTimestamp`, `bindTime`).
* `json.Unmarshal` is not interpreted: an inbound text frame is given by the
  result of unmarshalling it into each of the message structs.
* The Go mutexes are not modelled: every function runs atomically.
-/

namespace Osborne

/-! ## Data model -/

abbrev Time := Int

def second : Int := 1000000000

def hour : Int := 3600 * second

abbrev MessageType := String

def TextUpdate : MessageType := "text-update"
def InitialContent : MessageType := "initial-content"
def JoinRoom : MessageType := "join-room"
def Ping : MessageType := "ping"
def Pong : MessageType := "pong"
def CommentAdd : MessageType := "comment-add"
def CommentUpdate : MessageType := "comment-update"
def CommentDelete : MessageType := "comment-delete"
def CommentsSync : MessageType := "comments-sync"
def UserJoined : MessageType := "user-joined"
def UserLeft : MessageType := "user-left"
def UserActivity : MessageType := "user-activity"
def UsersSync : MessageType := "users-sync"
def MediaUpload : MessageType := "media-upload"
def MediaDelete : MessageType := "media-delete"
def MediaSync : MessageType := "media-sync"

structure BaseMessage where
  Type_ : MessageType
  Code : String
deriving DecidableEq, Repr

structure Comment where
  ID : String
  LineNumber : Option Int
  LineRange : Option String
  Author : String
  AuthorID : String
  Content : String
  Timestamp : Time
deriving DecidableEq, Repr

structure User where
  ID : String
  Name : String
  Color : String
  LastSeen : Time
  IsTyping : Bool
  CurrentLine : Option Int
deriving DecidableEq, Repr

structure MediaFile where
  ID : String
  Name : String
  Type_ : String
  Size : Int
  URL : String
  UploadedAt : Time
  UploadedBy : String
deriving DecidableEq, Repr

structure TextUpdateMessage where
  base : BaseMessage
  Content : String
deriving DecidableEq, Repr

structure InitialContentMessage where
  base : BaseMessage
  Content : String
deriving DecidableEq, Repr

structure JoinRoomMessage where
  base : BaseMessage
  User : User
deriving DecidableEq, Repr

structure PongMessage where
  base : BaseMessage
deriving DecidableEq, Repr

structure CommentMessage where
  base : BaseMessage
  Comment : Comment
deriving DecidableEq, Repr

structure CommentsMessage where
  base : BaseMessage
  Comments : List Comment
deriving DecidableEq, Repr

structure UserMessage where
  base : BaseMessage
  User : User
deriving DecidableEq, Repr

structure UsersMessage where
  base : BaseMessage
  Users : List User
deriving DecidableEq, Repr

structure UserActivityMessage where
  base : BaseMessage
  UserID : String
  IsTyping : Bool
  CurrentLine : Option Int
deriving DecidableEq, Repr

structure MediaMessage where
  base : BaseMessage
  Media : MediaFile
deriving DecidableEq, Repr

structure MediaSyncMessage where
  base : BaseMessage
  MediaFiles : List MediaFile
deriving DecidableEq, Repr

/-- The values handed to `WriteJSON`, one constructor per Go struct type. -/
inductive Message where
  | initialContent (m : InitialContentMessage)
  | comments (m : CommentsMessage)
  | mediaSync (m : MediaSyncMessage)
  | users (m : UsersMessage)
  | user (m : UserMessage)
  | pong (m : PongMessage)
  | textUpdate (m : TextUpdateMessage)
  | comment (m : CommentMessage)
  | userActivity (m : UserActivityMessage)
  | media (m : MediaMessage)
deriving DecidableEq, Repr

structure Client where
  Conn : Nat
  User : User
  LastPing : Time
deriving DecidableEq, Repr

structure Room where
  Content : String
  Clients : List (String × Client)
  Comments : List Comment
  MediaFiles : List MediaFile
  CreatedAt : Time
deriving DecidableEq, Repr

/-! ## Go maps as association lists -/

/-- Map read `m[k]` with the comma-ok result. -/
def lookup {α : Type} : List (String × α) → String → Option α
  | [], _ => none
  | (k', v) :: rest, k => if k' = k then some v else lookup rest k

/-- Map removal `delete(m, k)`. -/
def erase {α : Type} : List (String × α) → String → List (String × α)
  | [], _ => []
  | (k', v) :: rest, k => if k' = k then erase rest k else (k', v) :: erase rest k

/-- Map assignment `m[k] = v`. -/
def put {α : Type} : List (String × α) → String → α → List (String × α)
  | [], k, v => [(k, v)]
  | (k', v') :: rest, k, v => if k' = k then (k, v) :: rest else (k', v') :: put rest k v

/-- The key set of a map. -/
def keys {α : Type} (m : List (String × α)) : List String := m.map Prod.fst

/-! ## Durable store -/

structure RoomRow where
  code : String
  content : String
  created_at : Time
deriving DecidableEq, Repr

structure DB where
  rooms : List RoomRow
  comments : List (String × Comment)
  media_files : List (String × MediaFile)
deriving DecidableEq, Repr

/-- The calls of the persistence functions at the end of `main.go`, and the
listing query of `deleteOldRooms`. -/
inductive DbOp where
  | saveRoomContent (code content : String)
  | getRoomContent (code : String)
  | deleteRoomContent (code : String)
  | saveComment (roomCode : String) (comment : Comment)
  | deleteComment (commentID : String)
  | getRoomComments (roomCode : String)
  | deleteRoomComments (roomCode : String)
  | getRoomMedia (roomCode : String)
  | deleteRoomMedia (roomCode : String)
  | saveMediaFile (roomCode : String) (media : MediaFile)
  | deleteMediaFile (mediaID : String)
  | listOldRooms (cutoff : Time)
deriving DecidableEq, Repr

structure Send where
  sid : String
  Conn : Nat
  msg : Message
  failed : Bool
deriving DecidableEq, Repr

/-- Everything a handler can read or change: the `rooms` table, the database,
the writes made so far, the transports closed so far, the gateway calls made so
far. -/
structure World where
  rooms : List (String × Room)
  db : DB
  out : List Send
  closed : List Nat
  calls : List DbOp
deriving DecidableEq, Repr

/-- What a run depends on besides the world: the clock, the random source
(`rand k` is the k-th draw of the run), the driver errors, the write errors and
the offset of the local time zone of the process (seconds east of UTC). -/
structure Env where
  now : Time
  rand : Nat → Nat
  dbErr : DbOp → Bool
  writeErr : Nat → Message → Bool
  zone : Int

def called (w : World) (op : DbOp) : World :=
  { w with calls := w.calls ++ [op] }

def saveRoomContent (e : Env) (w : World) (code content : String) : World × Bool :=
  let w := called w (.saveRoomContent code content)
  if e.dbErr (.saveRoomContent code content) then (w, true)
  else ({ w with db := { w.db with
      rooms := w.db.rooms.filter (fun r => decide (r.code ≠ code))
        ++ [{ code := code, content := content, created_at := e.now }] } }, false)

def getRoomContent (e : Env) (w : World) (code : String) : World × String × Bool :=
  let w := called w (.getRoomContent code)
  if e.dbErr (.getRoomContent code) then (w, "", true)
  else match w.db.rooms.find? (fun r => decide (r.code = code)) with
    | none => (w, "", false)
    | some r => (w, r.content, false)

def deleteRoomContent (e : Env) (w : World) (code : String) : World × Bool :=
  let w := called w (.deleteRoomContent code)
  if e.dbErr (.deleteRoomContent code) then (w, true)
  else ({ w with db := { w.db with
      rooms := w.db.rooms.filter (fun r => decide (r.code ≠ code)) } }, false)

def saveComment (e : Env) (w : World) (roomCode : String) (comment : Comment) : World × Bool :=
  let w := called w (.saveComment roomCode comment)
  if e.dbErr (.saveComment roomCode comment)
      || w.db.comments.any (fun r => decide (r.2.ID = comment.ID)) then (w, true)
  else ({ w with db := { w.db with comments := w.db.comments ++ [(roomCode, comment)] } }, false)

def deleteComment (e : Env) (w : World) (commentID : String) : World × Bool :=
  let w := called w (.deleteComment commentID)
  if e.dbErr (.deleteComment commentID) then (w, true)
  else ({ w with db := { w.db with
      comments := w.db.comments.filter (fun r => decide (r.2.ID ≠ commentID)) } }, false)

def getRoomComments (e : Env) (w : World) (roomCode : String) : World × List Comment × Bool :=
  let w := called w (.getRoomComments roomCode)
  if e.dbErr (.getRoomComments roomCode) then (w, [], true)
  else (w, List.insertionSort (fun a b => a.Timestamp ≤ b.Timestamp)
      ((w.db.comments.filter (fun r => decide (r.1 = roomCode))).map Prod.snd), false)

def deleteRoomComments (e : Env) (w : World) (roomCode : String) : World × Bool :=
  let w := called w (.deleteRoomComments roomCode)
  if e.dbErr (.deleteRoomComments roomCode) then (w, true)
  else ({ w with db := { w.db with
      comments := w.db.comments.filter (fun r => decide (r.1 ≠ roomCode)) } }, false)

def getRoomMedia (e : Env) (w : World) (roomCode : String) : World × List MediaFile × Bool :=
  let w := called w (.getRoomMedia roomCode)
  if e.dbErr (.getRoomMedia roomCode) then (w, [], true)
  else (w, List.insertionSort (fun a b => a.UploadedAt ≤ b.UploadedAt)
      ((w.db.media_files.filter (fun r => decide (r.1 = roomCode))).map Prod.snd), false)

def deleteRoomMedia (e : Env) (w : World) (roomCode : String) : World × Bool :=
  let w := called w (.deleteRoomMedia roomCode)
  if e.dbErr (.deleteRoomMedia roomCode) then (w, true)
  else ({ w with db := { w.db with
      media_files := w.db.media_files.filter (fun r => decide (r.1 ≠ roomCode)) } }, false)

def saveMediaFile (e : Env) (w : World) (roomCode : String) (media : MediaFile) : World × Bool :=
  let w := called w (.saveMediaFile roomCode media)
  if e.dbErr (.saveMediaFile roomCode media)
      || w.db.media_files.any (fun r => decide (r.2.ID = media.ID)) then (w, true)
  else ({ w with db := { w.db with
      media_files := w.db.media_files ++ [(roomCode, media)] } }, false)

def deleteMediaFile (e : Env) (w : World) (mediaID : String) : World × Bool :=
  let w := called w (.deleteMediaFile mediaID)
  if e.dbErr (.deleteMediaFile mediaID) then (w, true)
  else ({ w with db := { w.db with
      media_files := w.db.media_files.filter (fun r => decide (r.2.ID ≠ mediaID)) } }, false)

/-! ## Generators -/

def generateClientID (now : Time) (r : Nat) : String :=
  "client_" ++ toString now ++ "_" ++ toString (r % 10000)

def generateUserColor (r : Nat) : String :=
  ["#e74c3c", "#3498db", "#2ecc71", "#f39c12", "#9b59b6", "#1abc9c", "#e67e22", "#34495e"].getD
    (r % 8) ""

def generateUserName (r1 r2 : Nat) : String :=
  ["Red", "Blue", "Green", "Yellow", "Purple", "Orange", "Pink", "Brown"].getD (r1 % 8) ""
    ++ " " ++ ["Cat", "Dog", "Bird", "Fish", "Bear", "Lion", "Tiger", "Wolf"].getD (r2 % 8) ""

/-! ## Broadcast engine -/

/-- One `WriteJSON` on the transport `conn`, made for session `sid`. -/
def writeJSON (e : Env) (sid : String) (conn : Nat) (message : Message) (out : List Send) :
    List Send :=
  out ++ [{ sid := sid, Conn := conn, msg := message, failed := e.writeErr conn message }]

/-- The loop of `broadcastToRoom` over the client map. -/
def broadcastLoop (e : Env) (message : Message) (excludeClientID : String) :
    List (String × Client) → List Send → List Send
  | [], out => out
  | (clientID, client) :: rest, out =>
    if clientID ≠ excludeClientID then
      broadcastLoop e message excludeClientID rest (writeJSON e clientID client.Conn message out)
    else broadcastLoop e message excludeClientID rest out

def broadcastToRoom (e : Env) (room : Room) (message : Message) (excludeClientID : String)
    (out : List Send) : List Send :=
  broadcastLoop e message excludeClientID room.Clients out

/-! ## Leave handling -/

def userLeftMsg (roomCode : String) (user : User) : Message :=
  .user { base := { Type_ := UserLeft, Code := roomCode }, User := user }

def leaveRoom (e : Env) (roomCode clientID : String) (w : World) : World :=
  match lookup w.rooms roomCode with
  | none => w
  | some room =>
    let (room, w) :=
      match lookup room.Clients clientID with
      | some client =>
        let room := { room with Clients := erase room.Clients clientID }
        (room, { w with
          rooms := put w.rooms roomCode room
          out := broadcastToRoom e room (userLeftMsg roomCode client.User) "" w.out })
      | none => (room, w)
    let clientCount := room.Clients.length
    if clientCount = 0 ∧ e.now - room.CreatedAt > 24 * hour then
      let w := (deleteRoomContent e w roomCode).1
      let w := (deleteRoomComments e w roomCode).1
      let w := (deleteRoomMedia e w roomCode).1
      { w with rooms := erase w.rooms roomCode }
    else w

def handleClientDisconnection (e : Env) (currentRoom clientID : String) (w : World) : World :=
  if currentRoom ≠ "" ∧ clientID ≠ "" then leaveRoom e currentRoom clientID w else w

/-! ## Inbound frames -/

/-- An inbound text frame, given by what `json.Unmarshal` makes of it for each
target struct (`none`: the unmarshal returns an error). -/
structure RawMessage where
  base : Option BaseMessage
  joinRoom : Option JoinRoomMessage
  textUpdate : Option TextUpdateMessage
  comment : Option CommentMessage
  userActivity : Option UserActivityMessage
  media : Option MediaMessage
deriving DecidableEq, Repr

/-- The result of one `conn.ReadMessage()`. -/
inductive Frame where
  | readError
  | nonText
  | text (message : RawMessage)
deriving DecidableEq, Repr

/-- The two loop variables of `handleWebSocket`. -/
structure ConnState where
  currentRoom : String
  clientID : String
deriving DecidableEq, Repr

/-! ## Join -/

def userJoinedMsg (roomCode : String) (user : User) : Message :=
  .user { base := { Type_ := UserJoined, Code := roomCode }, User := user }

/-- The user of a joining session: the client-supplied one with the empty
fields filled in and `LastSeen` stamped. -/
def joinUser (e : Env) (clientID : String) (user : User) : User :=
  let user := if user.ID = "" then { user with ID := clientID } else user
  let named := decide (user.Name = "")
  let user := if named then { user with Name := generateUserName (e.rand 1) (e.rand 2) } else user
  let user :=
    if user.Color = "" then
      { user with Color := generateUserColor (e.rand (if named then 3 else 1)) }
    else user
  { user with LastSeen := e.now }

/-- The section of `handleJoinRoom` under `roomsMutex`: the room of the code,
created from the store when the registry has none. -/
def getOrCreate (e : Env) (code : String) (w : World) : World × Room :=
  match lookup w.rooms code with
  | some room => (w, room)
  | none =>
    let (w, content, _) := getRoomContent e w code
    let (w, comments, _) := getRoomComments e w code
    let (w, mediaFiles, _) := getRoomMedia e w code
    let room : Room :=
      { Content := content, Clients := [], Comments := comments, MediaFiles := mediaFiles,
        CreatedAt := e.now }
    ({ w with rooms := put w.rooms code room }, room)

/-- Returns the world, the new value of `*currentRoom` and the returned client id. -/
def handleJoinRoom (e : Env) (conn : Nat) (message : RawMessage) (currentRoom : String)
    (w : World) : World × String × String :=
  match message.joinRoom with
  | none => (w, currentRoom, "")
  | some joinMsg =>
    let w := if currentRoom ≠ "" then leaveRoom e currentRoom "" w else w
    let currentRoom := joinMsg.base.Code
    let clientID := generateClientID e.now (e.rand 0)
    let user := joinUser e clientID joinMsg.User
    let (w, room) := getOrCreate e currentRoom w
    let room :=
      { room with
        Clients := put room.Clients clientID ⟨conn, user, e.now⟩ }
    let w := { w with rooms := put w.rooms currentRoom room }
    let out := writeJSON e clientID conn
      (.initialContent { base := { Type_ := InitialContent, Code := currentRoom },
                         Content := room.Content }) w.out
    let out := writeJSON e clientID conn
      (.comments { base := { Type_ := CommentsSync, Code := currentRoom },
                   Comments := room.Comments }) out
    let out := writeJSON e clientID conn
      (.mediaSync { base := { Type_ := MediaSync, Code := currentRoom },
                    MediaFiles := room.MediaFiles }) out
    let out := writeJSON e clientID conn
      (.users { base := { Type_ := UsersSync, Code := currentRoom },
                Users := room.Clients.map (fun p => p.2.User) }) out
    let out := broadcastToRoom e room (userJoinedMsg currentRoom user) clientID out
    ({ w with out := out }, currentRoom, clientID)

/-! ## Message handlers -/

def handleTextUpdate (e : Env) (_conn : Nat) (message : RawMessage)
    (currentRoom clientID : String) (w : World) : World :=
  if currentRoom = "" ∨ clientID = "" then w
  else match message.textUpdate with
    | none => w
    | some updateMsg =>
      match lookup w.rooms currentRoom with
      | none => w
      | some room =>
        let room := { room with Content := updateMsg.Content }
        let w := { w with rooms := put w.rooms currentRoom room }
        let w := (saveRoomContent e w currentRoom room.Content).1
        { w with out := broadcastToRoom e room (.textUpdate updateMsg) clientID w.out }

def handlePing (e : Env) (conn : Nat) (_message : RawMessage)
    (currentRoom clientID : String) (w : World) : World :=
  if currentRoom = "" ∨ clientID = "" then w
  else match lookup w.rooms currentRoom with
    | none => w
    | some room =>
      let w :=
        match lookup room.Clients clientID with
        | some client =>
          let client :=
            { client with LastPing := e.now, User := { client.User with LastSeen := e.now } }
          let room := { room with Clients := put room.Clients clientID client }
          { w with rooms := put w.rooms currentRoom room }
        | none => w
      let pongMsg : PongMessage := { base := { Type_ := Pong, Code := currentRoom } }
      { w with out := writeJSON e clientID conn (.pong pongMsg) w.out }

/-- The comment as `handleCommentAdd` saves it: id and timestamp from the
clock, author from the sender's entry in the client map. -/
def stampComment (e : Env) (room : Room) (clientID : String) (comment : Comment) : Comment :=
  let comment := { comment with ID := "comment_" ++ toString e.now, Timestamp := e.now }
  match lookup room.Clients clientID with
  | some client => { comment with Author := client.User.Name, AuthorID := client.User.ID }
  | none => comment

def handleCommentAdd (e : Env) (_conn : Nat) (message : RawMessage)
    (currentRoom clientID : String) (w : World) : World :=
  if currentRoom = "" ∨ clientID = "" then w
  else match message.comment with
    | none => w
    | some commentMsg =>
      match lookup w.rooms currentRoom with
      | none => w
      | some room =>
        let commentMsg :=
          { commentMsg with Comment := stampComment e room clientID commentMsg.Comment }
        match saveComment e w currentRoom commentMsg.Comment with
        | (w, true) => w
        | (w, false) =>
          let room := { room with Comments := room.Comments ++ [commentMsg.Comment] }
          { w with
            rooms := put w.rooms currentRoom room
            out := broadcastToRoom e room (.comment commentMsg) "" w.out }

def handleCommentUpdate (_e : Env) (_conn : Nat) (_message : RawMessage)
    (_currentRoom _clientID : String) (w : World) : World :=
  w

def handleCommentDelete (e : Env) (_conn : Nat) (message : RawMessage)
    (currentRoom clientID : String) (w : World) : World :=
  if currentRoom = "" ∨ clientID = "" then w
  else match message.comment with
    | none => w
    | some commentMsg =>
      match lookup w.rooms currentRoom with
      | none => w
      | some room =>
        match deleteComment e w commentMsg.Comment.ID with
        | (w, true) => w
        | (w, false) =>
          let room :=
            { room with Comments :=
                room.Comments.eraseP (fun comment => decide (comment.ID = commentMsg.Comment.ID)) }
          { w with
            rooms := put w.rooms currentRoom room
            out := broadcastToRoom e room (.comment commentMsg) "" w.out }

def handleUserActivity (e : Env) (_conn : Nat) (message : RawMessage)
    (currentRoom clientID : String) (w : World) : World :=
  if currentRoom = "" ∨ clientID = "" then w
  else match message.userActivity with
    | none => w
    | some activityMsg =>
      match lookup w.rooms currentRoom with
      | none => w
      | some room =>
        let room :=
          match lookup room.Clients clientID with
          | some client =>
            let client := { client with User := { client.User with
                IsTyping := activityMsg.IsTyping
                CurrentLine := activityMsg.CurrentLine
                LastSeen := e.now } }
            { room with Clients := put room.Clients clientID client }
          | none => room
        { w with
          rooms := put w.rooms currentRoom room
          out := broadcastToRoom e room (.userActivity activityMsg) clientID w.out }

/-- The media record as `handleMediaUpload` saves it. -/
def stampMedia (e : Env) (room : Room) (clientID : String) (media : MediaFile) : MediaFile :=
  let media :=
    match lookup room.Clients clientID with
    | some client => { media with UploadedBy := client.User.Name }
    | none => media
  if media.ID = "" then { media with ID := "media_" ++ toString e.now } else media

def handleMediaUpload (e : Env) (_conn : Nat) (message : RawMessage)
    (currentRoom clientID : String) (w : World) : World :=
  if currentRoom = "" ∨ clientID = "" then w
  else match message.media with
    | none => w
    | some mediaMsg =>
      match lookup w.rooms currentRoom with
      | none => w
      | some room =>
        let mediaMsg := { mediaMsg with Media := stampMedia e room clientID mediaMsg.Media }
        match saveMediaFile e w currentRoom mediaMsg.Media with
        | (w, true) => w
        | (w, false) =>
          let room := { room with MediaFiles := room.MediaFiles ++ [mediaMsg.Media] }
          { w with
            rooms := put w.rooms currentRoom room
            out := broadcastToRoom e room (.media mediaMsg) "" w.out }

def handleMediaDelete (e : Env) (_conn : Nat) (message : RawMessage)
    (currentRoom clientID : String) (w : World) : World :=
  if currentRoom = "" ∨ clientID = "" then w
  else match message.media with
    | none => w
    | some mediaMsg =>
      match lookup w.rooms currentRoom with
      | none => w
      | some room =>
        match deleteMediaFile e w mediaMsg.Media.ID with
        | (w, true) => w
        | (w, false) =>
          let room :=
            { room with MediaFiles :=
                room.MediaFiles.eraseP (fun media => decide (media.ID = mediaMsg.Media.ID)) }
          { w with
            rooms := put w.rooms currentRoom room
            out := broadcastToRoom e room (.media mediaMsg) "" w.out }

/-! ## Liveness monitor -/

/-- The second loop of `checkClientPings` for one room. -/
def evictLoop (e : Env) (roomCode : String) :
    List String → Room → List Send → List Nat → Room × List Send × List Nat
  | [], room, out, closed => (room, out, closed)
  | clientID :: rest, room, out, closed =>
    match lookup room.Clients clientID with
    | some client =>
      let room := { room with Clients := erase room.Clients clientID }
      evictLoop e roomCode rest room
        (broadcastToRoom e room (userLeftMsg roomCode client.User) "" out)
        (closed ++ [client.Conn])
    | none => evictLoop e roomCode rest room out closed

/-- The ids collected by the first loop of `checkClientPings`. -/
def disconnectedClients (e : Env) (room : Room) : List String :=
  (room.Clients.filter (fun p => decide (e.now - p.2.LastPing > 60 * second))).map Prod.fst

/-- The loop of `checkClientPings` over the registry. -/
def pingLoop (e : Env) :
    List (String × Room) → List Send → List Nat → List (String × Room) × List Send × List Nat
  | [], out, closed => ([], out, closed)
  | (roomCode, room) :: rest, out, closed =>
    let (room, out, closed) := evictLoop e roomCode (disconnectedClients e room) room out closed
    let (rest, out, closed) := pingLoop e rest out closed
    ((roomCode, room) :: rest, out, closed)

def checkClientPings (e : Env) (w : World) : World :=
  let (rooms, out, closed) := pingLoop e w.rooms w.out w.closed
  { w with rooms := rooms, out := out, closed := closed }

/-! ## Read loop -/

/-- One iteration of the loop of `handleWebSocket`; the Boolean tells whether
the loop goes on. When it ends the deferred `conn.Close()` runs. -/
def handleFrame (e : Env) (conn : Nat) (st : ConnState) (w : World) :
    Frame → ConnState × World × Bool
  | .readError =>
    let w := handleClientDisconnection e st.currentRoom st.clientID w
    (st, { w with closed := w.closed ++ [conn] }, false)
  | .nonText => (st, w, true)
  | .text message =>
    match message.base with
    | none => (st, w, true)
    | some baseMsg =>
      if baseMsg.Type_ = JoinRoom then
        let (w, currentRoom, clientID) := handleJoinRoom e conn message st.currentRoom w
        ({ currentRoom := currentRoom, clientID := clientID }, w, true)
      else if baseMsg.Type_ = TextUpdate then
        (st, handleTextUpdate e conn message st.currentRoom st.clientID w, true)
      else if baseMsg.Type_ = Ping then
        (st, handlePing e conn message st.currentRoom st.clientID w, true)
      else if baseMsg.Type_ = CommentAdd then
        (st, handleCommentAdd e conn message st.currentRoom st.clientID w, true)
      else if baseMsg.Type_ = CommentUpdate then
        (st, handleCommentUpdate e conn message st.currentRoom st.clientID w, true)
      else if baseMsg.Type_ = CommentDelete then
        (st, handleCommentDelete e conn message st.currentRoom st.clientID w, true)
      else if baseMsg.Type_ = UserActivity then
        (st, handleUserActivity e conn message st.currentRoom st.clientID w, true)
      else if baseMsg.Type_ = MediaUpload then
        (st, handleMediaUpload e conn message st.currentRoom st.clientID w, true)
      else if baseMsg.Type_ = MediaDelete then
        (st, handleMediaDelete e conn message st.currentRoom st.clientID w, true)
      else (st, w, true)

/-- The loop of `handleWebSocket` on the frames read so far, each with the
environment of its iteration, starting from `currentRoom = ""`, `clientID = ""`. -/
def handleWebSocketFrom (conn : Nat) :
    List (Env × Frame) → ConnState → World → ConnState × World × Bool
  | [], st, w => (st, w, true)
  | (e, f) :: rest, st, w =>
    match handleFrame e conn st w f with
    | (st, w, true) => handleWebSocketFrom conn rest st w
    | (st, w, false) => (st, w, false)

def handleWebSocket (conn : Nat) (frames : List (Env × Frame)) (w : World) :
    ConnState × World × Bool :=
  handleWebSocketFrom conn frames { currentRoom := "", clientID := "" } w

/-! ## Well-formed states -/

/-- A client map as a Go map holds it: no key twice; session ids come from
`generateClientID`, so none is empty. -/
def ClientsWF (m : List (String × Client)) : Prop :=
  (keys m).Nodup ∧ "" ∉ keys m

/-- The registry as a Go map holds it, with well-formed client maps. -/
def WF (w : World) : Prop :=
  (keys w.rooms).Nodup ∧ ∀ p ∈ w.rooms, ClientsWF p.2.Clients

/-! ## Vocabulary of the statements -/

/-- The writes of one broadcast as a list: one write per entry of the client
map whose key differs from the excluded id, in map order, each on the
transport of that entry. -/
def fanOut (e : Env) (message : Message) (excludeClientID : String)
    (clients : List (String × Client)) : List Send :=
  (clients.filter (fun p => decide (p.1 ≠ excludeClientID))).map
    (fun p => { sid := p.1, Conn := p.2.Conn, msg := message,
                failed := e.writeErr p.2.Conn message })

/-- The loop variables `(currentRoom, clientID)` describe a joined session:
both are non-empty (what every handler tests first), the registry holds `room`
under `currentRoom` and its client map holds `client` under `clientID`. -/
def Joined (w : World) (currentRoom clientID : String) (room : Room) (client : Client) : Prop :=
  currentRoom ≠ "" ∧ clientID ≠ "" ∧ lookup w.rooms currentRoom = some room ∧
    lookup room.Clients clientID = some client

/-- The eager deletion at the end of `leaveRoom`: the three gateway deletes
(their errors are not looked at) and `delete(rooms, roomCode)`. -/
def dropRoom (e : Env) (roomCode : String) (w : World) : World :=
  let w := (deleteRoomContent e w roomCode).1
  let w := (deleteRoomComments e w roomCode).1
  let w := (deleteRoomMedia e w roomCode).1
  { w with rooms := erase w.rooms roomCode }

/-! ## Example states -/

/-- An environment where the gateway and the transports work; local time is UTC. -/
def exEnv (now : Time) : Env :=
  { now := now, rand := fun _ => 0, dbErr := fun _ => false, writeErr := fun _ _ => false,
    zone := 0 }

/-- An environment where every gateway call returns an error. -/
def exEnvDbDown (now : Time) : Env :=
  { now := now, rand := fun _ => 0, dbErr := fun _ => true, writeErr := fun _ _ => false,
    zone := 0 }

def exUser (id name : String) : User :=
  { ID := id, Name := name, Color := "#3498db", LastSeen := 0, IsTyping := false,
    CurrentLine := none }

/-- Session `a` last pinged at time 0, session `b` at 100 s. -/
def exClients : List (String × Client) :=
  [("a", { Conn := 1, User := exUser "ua" "Ann", LastPing := 0 }),
   ("b", { Conn := 2, User := exUser "ub" "Bob", LastPing := 100 * second })]

def exComment (id : String) : Comment :=
  { ID := id, LineNumber := some 3, LineRange := none, Author := "Eve", AuthorID := "ue",
    Content := "fix this", Timestamp := 7 }

def exRoom : Room :=
  { Content := "hi", Clients := exClients, Comments := [exComment "c1"], MediaFiles := [],
    CreatedAt := 0 }

def exDB : DB :=
  { rooms := [{ code := "R", content := "hi", created_at := 0 }],
    comments := [("R", exComment "c1")], media_files := [] }

/-- One room `R` with the sessions `a` and `b`. -/
def exWorld : World :=
  { rooms := [("R", exRoom)], db := exDB, out := [], closed := [], calls := [] }

/-- The registry holds `R` with no session left, created at time 0. -/
def exWorldEmptyRoom : World :=
  { exWorld with rooms := [("R", { exRoom with Clients := [] })] }

def exRaw : RawMessage :=
  { base := none, joinRoom := none, textUpdate := none, comment := none, userActivity := none,
    media := none }

/-- The record of one write: what `writeJSON` appends. -/
def mkSend (e : Env) (sid : String) (conn : Nat) (message : Message) : Send :=
  { sid := sid, Conn := conn, msg := message, failed := e.writeErr conn message }

/-- The four snapshot writes of `handleJoinRoom`, in the order of the source,
for the room as it is once the joining session is registered. -/
def joinSnapshots (e : Env) (clientID : String) (conn : Nat) (code : String) (room : Room) :
    List Send :=
  [mkSend e clientID conn
     (.initialContent { base := { Type_ := InitialContent, Code := code },
                        Content := room.Content }),
   mkSend e clientID conn
     (.comments { base := { Type_ := CommentsSync, Code := code }, Comments := room.Comments }),
   mkSend e clientID conn
     (.mediaSync { base := { Type_ := MediaSync, Code := code },
                   MediaFiles := room.MediaFiles }),
   mkSend e clientID conn
     (.users { base := { Type_ := UsersSync, Code := code },
               Users := room.Clients.map (fun p => p.2.User) })]

/-- The state at process start: no room, empty tables. -/
def emptyWorld : World :=
  { rooms := [], db := { rooms := [], comments := [], media_files := [] }, out := [],
    closed := [], calls := [] }

/-- A decodable join-room frame for `code` that leaves every user field to the server. -/
def exJoin (code : String) : RawMessage :=
  { exRaw with
    base := some { Type_ := JoinRoom, Code := code }
    joinRoom := some { base := { Type_ := JoinRoom, Code := code }, User := exUser "" "" } }

/-- A frame whose envelope decodes with type join-room while its payload does
not decode as a `JoinRoomMessage` (for instance `"user"` is a JSON string). -/
def exBadJoin (code : String) : RawMessage :=
  { exRaw with base := some { Type_ := JoinRoom, Code := code } }

def exTextUpdate : TextUpdateMessage :=
  { base := { Type_ := TextUpdate, Code := "R" }, Content := "hello" }

/-- A comment-add whose comment claims an id, an author and a timestamp. -/
def exCommentMsg : CommentMessage :=
  { base := { Type_ := CommentAdd, Code := "R" }, Comment := exComment "forged" }

def exMediaMsg : MediaMessage :=
  { base := { Type_ := MediaUpload, Code := "R" },
    Media := { ID := "m1", Name := "a.png", Type_ := "image/png", Size := 10, URL := "/files/R/a",
               UploadedAt := 0, UploadedBy := "Eve" } }

/-- The writes of the eviction loop for one room: for each collected id still
in the map, the user-left for its user to the sessions left after its removal. -/
def evictSends (e : Env) (roomCode : String) :
    List String → List (String × Client) → List Send
  | [], _ => []
  | clientID :: rest, clients =>
    match lookup clients clientID with
    | some client =>
      fanOut e (userLeftMsg roomCode client.User) "" (erase clients clientID)
        ++ evictSends e roomCode rest (erase clients clientID)
    | none => evictSends e roomCode rest clients

/-- The transports closed by the eviction loop for one room. -/
def evictConns : List String → List (String × Client) → List Nat
  | [], _ => []
  | clientID :: rest, clients =>
    match lookup clients clientID with
    | some client => client.Conn :: evictConns rest (erase clients clientID)
    | none => evictConns rest clients

/-- The writes of one pass of the liveness monitor, room after room. -/
def pingSends (e : Env) : List (String × Room) → List Send
  | [] => []
  | (roomCode, room) :: rest =>
    evictSends e roomCode (disconnectedClients e room) room.Clients ++ pingSends e rest

/-- The start state after connection 2 has joined room `A` at time 4. -/
def exPeerInA : World :=
  (handleWebSocket 2 [(exEnv 4, .text (exJoin "A"))] emptyWorld).2.1

/-- Connection 1 joins `A` at time 5 and `B` at time 6, from `exPeerInA`. -/
def exSwitched : ConnState × World × Bool :=
  handleWebSocket 1 [(exEnv 5, .text (exJoin "A")), (exEnv 6, .text (exJoin "B"))] exPeerInA

/-- Is the write a user-left event? -/
def isUserLeft (s : Send) : Bool :=
  match s.msg with
  | .user m => decide (m.base.Type_ = UserLeft)
  | _ => false

/-- The client entry after `handleUserActivity`: typing flag and current line
of the message, last-seen from the clock, everything else as before. -/
def withActivity (e : Env) (client : Client) (activityMsg : UserActivityMessage) : Client :=
  { client with User := { client.User with
      IsTyping := activityMsg.IsTyping
      CurrentLine := activityMsg.CurrentLine
      LastSeen := e.now } }

/-- Is the gateway call one of the three reads of a hydration? -/
def isRead : DbOp → Bool
  | .getRoomContent _ => true
  | .getRoomComments _ => true
  | .getRoomMedia _ => true
  | _ => false

/-- The room `handleJoinRoom` builds for a code the registry does not hold:
what the three gateway reads return for the code (empty on a read error), no
client, created now. -/
def hydrated (e : Env) (code : String) (w : World) : Room :=
  { Content := (getRoomContent e w code).2.1
    Clients := []
    Comments := (getRoomComments e w code).2.1
    MediaFiles := (getRoomMedia e w code).2.1
    CreatedAt := e.now }

/-- The world after the implicit leave at the head of `handleJoinRoom`. -/
def afterImplicitLeave (e : Env) (currentRoom : String) (w : World) : World :=
  if currentRoom ≠ "" then leaveRoom e currentRoom "" w else w

/-- The loop of `handleRoomPurge` over the client map: `client.Conn.Close()`
for every client (a registered transport is never nil). -/
def closeAll : List (String × Client) → List Nat → List Nat
  | [], closed => closed
  | (_, client) :: rest, closed => closeAll rest (closed ++ [client.Conn])

/-- The handler of `/o/purge/`, given the request method and what follows the
prefix in the path; returns the world and the HTTP status. The removal of the
room's upload directory, which the blob store owns, is not part of the world. -/
def handleRoomPurge (e : Env) (method path : String) (w : World) : World × Nat :=
  if method ≠ "DELETE" then (w, 405)
  else if path = "" then (w, 400)
  else
    let roomCode := path
    let w :=
      match lookup w.rooms roomCode with
      | some room =>
        { w with closed := closeAll room.Clients w.closed, rooms := erase w.rooms roomCode }
      | none => w
    match deleteRoomContent e w roomCode with
    | (w, true) => (w, 500)
    | (w, false) =>
      match deleteRoomComments e w roomCode with
      | (w, true) => (w, 500)
      | (w, false) =>
        match deleteRoomMedia e w roomCode with
        | (w, true) => (w, 500)
        | (w, false) => (w, 200)

/-- The tables hold no row for the room code. -/
def NoRows (code : String) (db : DB) : Prop :=
  (∀ r ∈ db.rooms, r.code ≠ code) ∧ (∀ r ∈ db.comments, r.1 ≠ code) ∧
    (∀ r ∈ db.media_files, r.1 ≠ code)

/-- The tables with every row of the room code removed. -/
def withoutRows (code : String) (db : DB) : DB :=
  { rooms := db.rooms.filter (fun r => decide (r.code ≠ code))
    comments := db.comments.filter (fun r => decide (r.1 ≠ code))
    media_files := db.media_files.filter (fun r => decide (r.1 ≠ code)) }

/-- The world with the room's transports closed and the room out of the
registry, as `handleRoomPurge` leaves it before the gateway calls. -/
def evicted (roomCode : String) (w : World) : World :=
  match lookup w.rooms roomCode with
  | some room =>
    { w with closed := w.closed ++ room.Clients.map (fun p => p.2.Conn),
             rooms := erase w.rooms roomCode }
  | none => w

/-- The decimal digits of `n`, padded with zeros on the left to `width`. -/
def zeroPad (width n : Nat) : String :=
  String.mk (List.replicate (width - (toString n).length) '0') ++ toString n

/-- Year, month and day of the day number `z` (days since 1970-01-01) in the
Gregorian calendar. -/
def civilDate (z : Int) : Int × Int × Int :=
  let z := z + 719468
  let era := z / 146097
  let doe := z - era * 146097
  let yoe := (doe - doe / 1460 + doe / 36524 - doe / 146096) / 365
  let doy := doe - (365 * yoe + yoe / 4 - yoe / 100)
  let mp := (5 * doy + 2) / 153
  let d := doy - (153 * mp + 2) / 5 + 1
  let m := if mp < 10 then mp + 3 else mp - 9
  (yoe + era * 400 + (if m ≤ 2 then 1 else 0), m, d)

/-- The text `YYYY-MM-DD HH:MM:SS` of a wall clock reading, given in seconds
since 1970-01-01 00:00:00 of that wall clock (for the years 0 to 9999). -/
def wallClock (secs : Int) : String :=
  let date := civilDate (secs / 86400)
  let s := secs % 86400
  zeroPad 4 date.1.toNat ++ "-" ++ zeroPad 2 date.2.1.toNat ++ "-" ++ zeroPad 2 date.2.2.toNat
    ++ " " ++ zeroPad 2 (s / 3600).toNat ++ ":" ++ zeroPad 2 (s % 3600 / 60).toNat ++ ":"
    ++ zeroPad 2 (s % 60).toNat

/-- The text SQLite stores in `created_at` for `DEFAULT CURRENT_TIMESTAMP` at
the instant `t`: the UTC wall clock in whole seconds. -/
def currentTimestamp (t : Time) : String :=
  wallClock (t / second)

/-- The fraction of a second in the layout `.999999999`: up to nine digits
without trailing zeros, nothing when the fraction is zero. -/
def fractionText (nanos : Nat) : String :=
  if nanos = 0 then ""
  else "." ++ String.mk
    (((zeroPad 9 nanos).toList.reverse.dropWhile (fun c => c == '0')).reverse)

/-- The zone offset in the layout `-07:00`. -/
def zoneText (zone : Int) : String :=
  (if zone < 0 then "-" else "+") ++ zeroPad 2 (zone.natAbs / 3600) ++ ":"
    ++ zeroPad 2 (zone.natAbs % 3600 / 60)

/-- The text the driver binds for a `time.Time` argument of a query: the
layout `2006-01-02 15:04:05.999999999-07:00` in the location of the value, which
for a value derived from `time.Now()` is the local zone. -/
def bindTime (zone : Int) (t : Time) : String :=
  wallClock (t / second + zone) ++ fractionText (t % second).toNat ++ zoneText zone

/-- The order in which SQLite compares two texts (collation `BINARY`): byte by
byte, a proper prefix first. -/
def textLt (a b : String) : Bool :=
  decide (a.toList < b.toList)

/-- Does the gateway call write to the database file? -/
def isWrite : DbOp → Bool
  | .saveRoomContent _ _ => true
  | .deleteRoomContent _ => true
  | .saveComment _ _ => true
  | .deleteComment _ => true
  | .deleteRoomComments _ => true
  | .deleteRoomMedia _ => true
  | .saveMediaFile _ _ => true
  | .deleteMediaFile _ => true
  | _ => false

/-- The driver errors for a statement issued between a `db.Query` and the
`rows.Close()` of its result, as in the loop of `deleteOldRooms`. The cursor
keeps its pool connection and a shared lock on `./rooms.db` (opened with the
default rollback journal); `db.Exec` runs on another connection, and a
statement that writes cannot commit under that lock: once the busy timeout has
run out it returns `database is locked` and the tables are as before. (A
`DELETE` that matches no row leaves the tables as before as well, whatever it
returns.) -/
def cursorOpen (e : Env) : Env :=
  { e with dbErr := fun op => isWrite op || e.dbErr op }

/-- The query of `deleteOldRooms`, `SELECT code FROM rooms WHERE created_at < ?`
with a `time.Time` argument: the codes of the rows whose stored `created_at`
text sorts before the text bound for the cutoff. The stored text is the UTC
wall clock of the insert, the bound text is the local wall clock of the cutoff
followed by the fraction and the zone offset. The rows are handed out one by
one by `rows.Next()`; no statement of the loop changes the table while the
cursor is open (`cursorOpen`), so the codes handed out are the ones selected
here. A code is a text key, so `rows.Scan` does not fail. -/
def listOldRooms (e : Env) (w : World) (cutoff : Time) : World × List String × Bool :=
  let w := called w (.listOldRooms cutoff)
  if e.dbErr (.listOldRooms cutoff) then (w, [], true)
  else (w, (w.db.rooms.filter
      (fun r => textLt (currentTimestamp r.created_at) (bindTime e.zone cutoff))).map
        RoomRow.code, false)

/-- The loop `for rows.Next()` of `deleteOldRooms` over the codes of the
listing. The three gateway deletes of the body run while the cursor of the
listing is open; their results are not looked at. -/
def sweepLoop (e : Env) : List String → World → World
  | [], w => w
  | roomCode :: rest, w =>
    let w := (deleteRoomContent (cursorOpen e) w roomCode).1
    let w := (deleteRoomComments (cursorOpen e) w roomCode).1
    let w := (deleteRoomMedia (cursorOpen e) w roomCode).1
    let w :=
      match lookup w.rooms roomCode with
      | some _ => { w with rooms := erase w.rooms roomCode }
      | none => w
    sweepLoop e rest w

def deleteOldRooms (e : Env) (w : World) : World :=
  match listOldRooms e w (e.now - 24 * hour) with
  | (w, _, true) => w
  | (w, codes, false) => sweepLoop e codes w

def exMedia (id : String) : MediaFile :=
  { ID := id, Name := "b.png", Type_ := "image/png", Size := 20, URL := "/files/B/b",
    UploadedAt := 3, UploadedBy := "Xi" }

/-- Room `B`, with one session, one comment `c2` and one media file `m2`. -/
def exRoomB : Room :=
  { Content := "", Clients := [("x", { Conn := 9, User := exUser "ux" "Xi", LastPing := 0 })],
    Comments := [exComment "c2"], MediaFiles := [exMedia "m2"], CreatedAt := 0 }

/-- Two rooms, `R` (sessions `a`, `b`) and `B`, with their rows in the tables. -/
def exTwoRooms : World :=
  { rooms := [("R", exRoom), ("B", exRoomB)]
    db := { rooms := [{ code := "R", content := "hi", created_at := 0 }]
            comments := [("R", exComment "c1"), ("B", exComment "c2")]
            media_files := [("B", exMedia "m2")] }
    out := [], closed := [], calls := [] }

/-- A comment-delete frame carrying the comment id `id`. -/
def exCommentDelete (id : String) : RawMessage :=
  { exRaw with
    base := some { Type_ := CommentDelete, Code := "R" }
    comment := some { base := { Type_ := CommentDelete, Code := "R" }, Comment := exComment id } }

/-- A media-delete frame carrying the media id `id`. -/
def exMediaDelete (id : String) : RawMessage :=
  { exRaw with
    base := some { Type_ := MediaDelete, Code := "R" }
    media := some { base := { Type_ := MediaDelete, Code := "R" }, Media := exMedia id } }

/-- Between `w` and `w'` only room `R` may differ in the registry, every write
added is made for a session of `room` on that session's transport, and no
transport is closed. -/
def OnlyRoom (R : String) (room : Room) (w w' : World) : Prop :=
  (∀ R', R' ≠ R → lookup w'.rooms R' = lookup w.rooms R') ∧
    (∃ L, w'.out = w.out ++ L ∧ ∀ s ∈ L, ∃ c, (s.sid, c) ∈ room.Clients ∧ s.Conn = c.Conn) ∧
    w'.closed = w.closed

/-- Every room code other than `R` has in `db'` exactly the rows it has in `db`. -/
def OtherRowsKept (R : String) (db db' : DB) : Prop :=
  ∀ R', R' ≠ R →
    db'.rooms.filter (fun r => decide (r.code = R'))
        = db.rooms.filter (fun r => decide (r.code = R')) ∧
      db'.comments.filter (fun r => decide (r.1 = R'))
        = db.comments.filter (fun r => decide (r.1 = R')) ∧
      db'.media_files.filter (fun r => decide (r.1 = R'))
        = db.media_files.filter (fun r => decide (r.1 = R'))

/-- The `type` field of a message. -/
def msgType : Message → MessageType
  | .initialContent m => m.base.Type_
  | .comments m => m.base.Type_
  | .mediaSync m => m.base.Type_
  | .users m => m.base.Type_
  | .user m => m.base.Type_
  | .pong m => m.base.Type_
  | .textUpdate m => m.base.Type_
  | .comment m => m.base.Type_
  | .userActivity m => m.base.Type_
  | .media m => m.base.Type_

/-- A write as seen on the wire: the session it is made for, the transport and
the type of the message. -/
def wire (s : Send) : String × Nat × MessageType :=
  (s.sid, s.Conn, msgType s.msg)

/-- A text-update frame for `code` with the content `content`. -/
def exTextFrame (code content : String) : RawMessage :=
  { exRaw with
    base := some { Type_ := TextUpdate, Code := code }
    textUpdate := some { base := { Type_ := TextUpdate, Code := code }, Content := content } }

/-- A comment-add frame for `code` whose comment claims the id `forged`, the
author `Eve` (`ue`) and a timestamp. -/
def exCommentAdd (code : String) : RawMessage :=
  { exRaw with
    base := some { Type_ := CommentAdd, Code := code }
    comment := some { base := { Type_ := CommentAdd, Code := code },
                      Comment := exComment "forged" } }

/-- Connection 1 joins `A` at time 5, from `exPeerInA`. -/
def exJoinedOnce : ConnState × World × Bool :=
  handleWebSocket 1 [(exEnv 5, .text (exJoin "A"))] exPeerInA

/-- Connection 1 joins `A` at time 5 and sends a second join-room for `A` at
time 6, from `exPeerInA`. -/
def exRejoined : ConnState × World × Bool :=
  handleWebSocket 1 [(exEnv 5, .text (exJoin "A")), (exEnv 6, .text (exJoin "A"))] exPeerInA

/-- Connection 1 joins `R` at 5 ns, sets the text to `hi`, adds a comment and
disconnects; the room stays in the registry, being younger than a day. -/
def exAbandoned : World :=
  (handleWebSocket 1
    [(exEnv 5, .text (exJoin "R")), (exEnv 6, .text (exTextFrame "R" "hi")),
     (exEnv 7, .text (exCommentAdd "R")), (exEnv 8, .readError)] emptyWorld).2.1

/-- Twenty-five hours later connection 2 joins `R`, from `exAbandoned`. -/
def exLateJoin : ConnState × World × Bool :=
  handleWebSocket 2 [(exEnv (25 * hour), .text (exJoin "R"))] exAbandoned

/-- One second after that join the retention sweeper makes a pass. -/
def exSwept : World :=
  deleteOldRooms (exEnv (25 * hour + second)) exLateJoin.2.1

/-- One more second later connection 3 joins `R`. -/
def exRecreated : ConnState × World × Bool :=
  handleWebSocket 3 [(exEnv (25 * hour + 2 * second), .text (exJoin "R"))] exSwept

/-- One more second later connection 2, which joined before the pass, sends a
comment-add that names `Eve` as author. -/
def exForged : ConnState × World × Bool :=
  handleFrame (exEnv (25 * hour + 3 * second)) 2 exLateJoin.1 exRecreated.2.1
    (.text (exCommentAdd "R"))

/-- A process whose local zone is two hours east of UTC. -/
def exEnvEast (now : Time) : Env :=
  { exEnv now with zone := 7200 }

/-! ## Association lists -/

theorem lookup_eq_none_iff {α : Type} (m : List (String × α)) (k : String) :
    lookup m k = none ↔ k ∉ keys m := by
  induction m with
  | nil => simp [lookup, keys]
  | cons p rest ih =>
    obtain ⟨k', v⟩ := p
    by_cases h : k' = k
    · simp [lookup, keys, h]
    · simp only [lookup, h, if_false, ih, keys, List.map_cons, List.mem_cons, not_or]
      constructor
      · intro h2; exact ⟨fun h3 => h h3.symm, h2⟩
      · intro h2; exact h2.2

theorem lookup_some_mem {α : Type} {m : List (String × α)} {k : String} {v : α}
    (h : lookup m k = some v) : (k, v) ∈ m := by
  induction m with
  | nil => simp [lookup] at h
  | cons p rest ih =>
    obtain ⟨k', v'⟩ := p
    by_cases hk : k' = k
    · simp [lookup, hk] at h; simp [hk, h]
    · simp [lookup, hk] at h; exact List.mem_cons_of_mem _ (ih h)

theorem mem_keys_of_lookup {α : Type} {m : List (String × α)} {k : String} {v : α}
    (h : lookup m k = some v) : k ∈ keys m :=
  List.mem_map.mpr ⟨(k, v), lookup_some_mem h, rfl⟩

theorem lookup_of_mem {α : Type} {m : List (String × α)} {k : String} {v : α}
    (hnd : (keys m).Nodup) (h : (k, v) ∈ m) : lookup m k = some v := by
  induction m with
  | nil => simp at h
  | cons p rest ih =>
    obtain ⟨k', v'⟩ := p
    simp only [keys, List.map_cons, List.nodup_cons] at hnd
    rcases List.mem_cons.mp h with h1 | h1
    · cases h1; simp [lookup]
    · have hk : k' ≠ k := by
        intro hk; subst hk
        exact hnd.1 (List.mem_map.mpr ⟨(k', v), h1, rfl⟩)
      simp only [lookup, hk, if_false]
      exact ih hnd.2 h1

theorem mem_erase {α : Type} (m : List (String × α)) (k : String) (p : String × α) :
    p ∈ erase m k ↔ p ∈ m ∧ p.1 ≠ k := by
  induction m with
  | nil => simp [erase]
  | cons q rest ih =>
    obtain ⟨a, b⟩ := q
    by_cases ha : a = k
    · simp only [erase, ha, if_true, ih, List.mem_cons]
      constructor
      · intro h; exact ⟨Or.inr h.1, h.2⟩
      · rintro ⟨h1 | h1, h2⟩
        · exact absurd (by rw [h1]) h2
        · exact ⟨h1, h2⟩
    · simp only [erase, ha, if_false, List.mem_cons, ih]
      constructor
      · rintro (h | h)
        · exact ⟨Or.inl h, by rw [h]; exact ha⟩
        · exact ⟨Or.inr h.1, h.2⟩
      · rintro ⟨h1 | h1, h2⟩
        · exact Or.inl h1
        · exact Or.inr ⟨h1, h2⟩

theorem erase_eq_filter {α : Type} (m : List (String × α)) (k : String) :
    erase m k = m.filter (fun p => decide (p.1 ≠ k)) := by
  induction m with
  | nil => rfl
  | cons q rest ih =>
    obtain ⟨a, b⟩ := q
    by_cases ha : a = k <;> simp [erase, List.filter_cons, ha, ih]

theorem mem_keys_erase {α : Type} (m : List (String × α)) (k x : String) :
    x ∈ keys (erase m k) ↔ x ∈ keys m ∧ x ≠ k := by
  simp only [keys, List.mem_map, mem_erase]
  constructor
  · rintro ⟨p, ⟨hp, hne⟩, rfl⟩; exact ⟨⟨p, hp, rfl⟩, hne⟩
  · rintro ⟨⟨p, hp, rfl⟩, hne⟩; exact ⟨p, ⟨hp, hne⟩, rfl⟩

theorem not_mem_keys_erase {α : Type} (m : List (String × α)) (k : String) :
    k ∉ keys (erase m k) := by
  simp [mem_keys_erase]

theorem lookup_erase_self {α : Type} (m : List (String × α)) (k : String) :
    lookup (erase m k) k = none :=
  (lookup_eq_none_iff _ _).mpr (not_mem_keys_erase m k)

theorem lookup_erase_of_ne {α : Type} (m : List (String × α)) {k k' : String} (h : k' ≠ k) :
    lookup (erase m k) k' = lookup m k' := by
  induction m with
  | nil => rfl
  | cons p rest ih =>
    obtain ⟨a, v⟩ := p
    by_cases ha : a = k
    · have h2 : ¬ a = k' := by rw [ha]; exact fun h2 => h h2.symm
      simp only [erase, ha, if_true, lookup, ih]
      rw [ha] at h2
      simp only [h2, if_false]
    · by_cases hb : a = k'
      · subst hb
        simp only [erase, ha, if_false, lookup, if_true]
      · simp only [erase, ha, if_false, lookup, hb, ih]

theorem nodup_keys_erase {α : Type} {m : List (String × α)} (k : String)
    (h : (keys m).Nodup) : (keys (erase m k)).Nodup := by
  induction m with
  | nil => simp [erase, keys]
  | cons p rest ih =>
    obtain ⟨a, v⟩ := p
    simp only [keys, List.map_cons, List.nodup_cons] at h
    by_cases ha : a = k
    · simp only [erase, ha, if_true]; exact ih h.2
    · simp only [erase, ha, if_false, keys, List.map_cons, List.nodup_cons]
      refine ⟨fun hmem => h.1 ?_, ih h.2⟩
      exact ((mem_keys_erase rest k a).mp hmem).1

theorem erase_of_not_mem {α : Type} {m : List (String × α)} {k : String}
    (h : k ∉ keys m) : erase m k = m := by
  induction m with
  | nil => rfl
  | cons p rest ih =>
    obtain ⟨a, v⟩ := p
    simp only [keys, List.map_cons, List.mem_cons, not_or] at h
    have ha : ¬ a = k := fun h2 => h.1 h2.symm
    simp only [erase, ha, if_false]
    rw [ih h.2]

theorem lookup_put_self {α : Type} (m : List (String × α)) (k : String) (v : α) :
    lookup (put m k v) k = some v := by
  induction m with
  | nil => simp [put, lookup]
  | cons p rest ih =>
    obtain ⟨a, b⟩ := p
    by_cases ha : a = k <;> simp [put, lookup, ha, ih]

theorem lookup_put_of_ne {α : Type} (m : List (String × α)) {k k' : String} (v : α)
    (h : k' ≠ k) : lookup (put m k v) k' = lookup m k' := by
  have h' : ¬ k = k' := fun h2 => h h2.symm
  induction m with
  | nil => simp only [put, lookup, h', if_false]
  | cons p rest ih =>
    obtain ⟨a, b⟩ := p
    by_cases ha : a = k
    · subst ha
      simp only [put, if_true, lookup, h', if_false]
    · by_cases hb : a = k'
      · subst hb
        simp only [put, ha, if_false, lookup, if_true]
      · simp only [put, ha, if_false, lookup, hb, ih]

theorem keys_put_of_mem {α : Type} {m : List (String × α)} {k : String} (v : α)
    (h : k ∈ keys m) : keys (put m k v) = keys m := by
  induction m with
  | nil => simp [keys] at h
  | cons p rest ih =>
    obtain ⟨a, b⟩ := p
    by_cases ha : a = k
    · simp [put, keys, ha]
    · have : k ∈ keys rest := by
        simp only [keys, List.map_cons, List.mem_cons] at h
        rcases h with h | h
        · exact absurd h.symm ha
        · exact h
      simp only [put, ha, if_false, keys, List.map_cons]
      simp only [keys] at ih
      rw [ih this]

theorem put_of_not_mem {α : Type} {m : List (String × α)} {k : String} (v : α)
    (h : k ∉ keys m) : put m k v = m ++ [(k, v)] := by
  induction m with
  | nil => rfl
  | cons p rest ih =>
    obtain ⟨a, b⟩ := p
    simp only [keys, List.map_cons, List.mem_cons, not_or] at h
    have ha : ¬ a = k := fun h2 => h.1 h2.symm
    simp only [put, ha, if_false, List.cons_append]
    rw [ih h.2]

theorem put_of_lookup {α : Type} {m : List (String × α)} {k : String} {v : α}
    (h : lookup m k = some v) : put m k v = m := by
  induction m with
  | nil => simp [lookup] at h
  | cons p rest ih =>
    obtain ⟨a, b⟩ := p
    by_cases ha : a = k
    · simp [lookup, ha] at h; simp [put, ha, h]
    · simp [lookup, ha] at h; simp [put, ha, ih h]

theorem nodup_keys_put {α : Type} {m : List (String × α)} (k : String) (v : α)
    (h : (keys m).Nodup) : (keys (put m k v)).Nodup := by
  by_cases hk : k ∈ keys m
  · rw [keys_put_of_mem v hk]; exact h
  · rw [put_of_not_mem v hk]
    simp only [keys, List.map_append, List.map_cons, List.map_nil]
    exact List.Nodup.append h (List.nodup_singleton _) (by simpa [keys] using hk)

theorem mem_keys_put {α : Type} (m : List (String × α)) (k : String) (v : α) (x : String) :
    x ∈ keys (put m k v) ↔ x = k ∨ x ∈ keys m := by
  by_cases hk : k ∈ keys m
  · rw [keys_put_of_mem v hk]
    constructor
    · exact Or.inr
    · rintro (h | h)
      · rw [h]; exact hk
      · exact h
  · rw [put_of_not_mem v hk]
    simp only [keys, List.map_append, List.map_cons, List.map_nil, List.mem_append,
      List.mem_singleton]
    tauto

theorem mem_put {α : Type} {m : List (String × α)} {k : String} {v : α} {p : String × α}
    (h : p ∈ put m k v) : p = (k, v) ∨ p ∈ m := by
  induction m with
  | nil => simp [put] at h; exact Or.inl h
  | cons q rest ih =>
    obtain ⟨a, b⟩ := q
    by_cases ha : a = k
    · simp only [put, ha, if_true, List.mem_cons] at h
      rcases h with h | h
      · exact Or.inl h
      · exact Or.inr (List.mem_cons_of_mem _ h)
    · simp only [put, ha, if_false, List.mem_cons] at h
      rcases h with h | h
      · exact Or.inr (by rw [h]; exact List.mem_cons_self _ _)
      · rcases ih h with h2 | h2
        · exact Or.inl h2
        · exact Or.inr (List.mem_cons_of_mem _ h2)

/-! ## Gateway calls leave the registry, the writes and the transports alone -/

@[simp] theorem saveRoomContent_rooms (e : Env) (w : World) (c x : String) :
    (saveRoomContent e w c x).1.rooms = w.rooms := by
  unfold saveRoomContent called; dsimp only; split <;> rfl

@[simp] theorem saveRoomContent_out (e : Env) (w : World) (c x : String) :
    (saveRoomContent e w c x).1.out = w.out := by
  unfold saveRoomContent called; dsimp only; split <;> rfl

@[simp] theorem saveRoomContent_closed (e : Env) (w : World) (c x : String) :
    (saveRoomContent e w c x).1.closed = w.closed := by
  unfold saveRoomContent called; dsimp only; split <;> rfl

@[simp] theorem saveRoomContent_calls (e : Env) (w : World) (c x : String) :
    (saveRoomContent e w c x).1.calls = w.calls ++ [.saveRoomContent c x] := by
  unfold saveRoomContent called; dsimp only; split <;> rfl

@[simp] theorem deleteRoomContent_rooms (e : Env) (w : World) (c : String) :
    (deleteRoomContent e w c).1.rooms = w.rooms := by
  unfold deleteRoomContent called; dsimp only; split <;> rfl

@[simp] theorem deleteRoomContent_out (e : Env) (w : World) (c : String) :
    (deleteRoomContent e w c).1.out = w.out := by
  unfold deleteRoomContent called; dsimp only; split <;> rfl

@[simp] theorem deleteRoomContent_closed (e : Env) (w : World) (c : String) :
    (deleteRoomContent e w c).1.closed = w.closed := by
  unfold deleteRoomContent called; dsimp only; split <;> rfl

@[simp] theorem deleteRoomContent_calls (e : Env) (w : World) (c : String) :
    (deleteRoomContent e w c).1.calls = w.calls ++ [.deleteRoomContent c] := by
  unfold deleteRoomContent called; dsimp only; split <;> rfl

@[simp] theorem deleteRoomComments_rooms (e : Env) (w : World) (c : String) :
    (deleteRoomComments e w c).1.rooms = w.rooms := by
  unfold deleteRoomComments called; dsimp only; split <;> rfl

@[simp] theorem deleteRoomComments_out (e : Env) (w : World) (c : String) :
    (deleteRoomComments e w c).1.out = w.out := by
  unfold deleteRoomComments called; dsimp only; split <;> rfl

@[simp] theorem deleteRoomComments_closed (e : Env) (w : World) (c : String) :
    (deleteRoomComments e w c).1.closed = w.closed := by
  unfold deleteRoomComments called; dsimp only; split <;> rfl

@[simp] theorem deleteRoomComments_calls (e : Env) (w : World) (c : String) :
    (deleteRoomComments e w c).1.calls = w.calls ++ [.deleteRoomComments c] := by
  unfold deleteRoomComments called; dsimp only; split <;> rfl

@[simp] theorem deleteRoomMedia_rooms (e : Env) (w : World) (c : String) :
    (deleteRoomMedia e w c).1.rooms = w.rooms := by
  unfold deleteRoomMedia called; dsimp only; split <;> rfl

@[simp] theorem deleteRoomMedia_out (e : Env) (w : World) (c : String) :
    (deleteRoomMedia e w c).1.out = w.out := by
  unfold deleteRoomMedia called; dsimp only; split <;> rfl

@[simp] theorem deleteRoomMedia_closed (e : Env) (w : World) (c : String) :
    (deleteRoomMedia e w c).1.closed = w.closed := by
  unfold deleteRoomMedia called; dsimp only; split <;> rfl

@[simp] theorem deleteRoomMedia_calls (e : Env) (w : World) (c : String) :
    (deleteRoomMedia e w c).1.calls = w.calls ++ [.deleteRoomMedia c] := by
  unfold deleteRoomMedia called; dsimp only; split <;> rfl

/-! ## Broadcast -/

theorem broadcastLoop_eq (e : Env) (message : Message) (ex : String)
    (clients : List (String × Client)) (out : List Send) :
    broadcastLoop e message ex clients out = out ++ fanOut e message ex clients := by
  induction clients generalizing out with
  | nil => simp [broadcastLoop, fanOut]
  | cons p rest ih =>
    obtain ⟨id, c⟩ := p
    by_cases h : id = ex
    · simp only [broadcastLoop, h, ne_eq, not_true_eq_false, if_false, ih]
      simp [fanOut, List.filter_cons]
    · simp only [broadcastLoop, ne_eq, h, not_false_eq_true, if_true, ih, writeJSON]
      simp [fanOut, List.filter_cons, h]

theorem broadcastToRoom_eq (e : Env) (room : Room) (message : Message) (ex : String)
    (out : List Send) :
    broadcastToRoom e room message ex out = out ++ fanOut e message ex room.Clients :=
  broadcastLoop_eq e message ex room.Clients out

theorem mem_fanOut (e : Env) (message : Message) (ex : String)
    (clients : List (String × Client)) (s : Send) :
    s ∈ fanOut e message ex clients ↔
      ∃ p ∈ clients, p.1 ≠ ex ∧
        s = { sid := p.1, Conn := p.2.Conn, msg := message,
              failed := e.writeErr p.2.Conn message } := by
  simp only [fanOut, List.mem_map, List.mem_filter, decide_eq_true_eq]
  constructor
  · rintro ⟨p, ⟨hp, hne⟩, rfl⟩; exact ⟨p, hp, hne, rfl⟩
  · rintro ⟨p, hp, hne, rfl⟩; exact ⟨p, ⟨hp, hne⟩, rfl⟩

/-- Text update, session by session. A well-formed text-update (content
`updateMsg.Content`) handled for a session `A` that is in the client map of its
room `R`, whatever the driver does on the save: the
room's content becomes that content and nothing else of the room changes; the
save of that content is the one gateway call; the writes made are exactly one
per session of the client map other than `A`, each carrying the update, and
none is made for `A`; when no other session of the room is bound to the
transport of `A`, nothing is written on that transport. -/
theorem handleTextUpdate_replaces_and_fans_out (e : Env) (conn : Nat) (message : RawMessage)
    (R A : String) (w : World) (room : Room) (client : Client) (updateMsg : TextUpdateMessage)
    (hj : Joined w R A room client) (hmsg : message.textUpdate = some updateMsg) :
    lookup (handleTextUpdate e conn message R A w).rooms R
        = some { room with Content := updateMsg.Content } ∧
      (handleTextUpdate e conn message R A w).calls
        = w.calls ++ [.saveRoomContent R updateMsg.Content] ∧
      (handleTextUpdate e conn message R A w).out
        = w.out ++ fanOut e (.textUpdate updateMsg) A room.Clients ∧
      (∀ id c, (id, c) ∈ room.Clients → id ≠ A →
        { sid := id, Conn := c.Conn, msg := .textUpdate updateMsg,
          failed := e.writeErr c.Conn (.textUpdate updateMsg) }
          ∈ fanOut e (.textUpdate updateMsg) A room.Clients) ∧
      (∀ s ∈ fanOut e (.textUpdate updateMsg) A room.Clients,
        s.sid ≠ A ∧ s.msg = .textUpdate updateMsg ∧
          ∃ c, (s.sid, c) ∈ room.Clients ∧ s.Conn = c.Conn) ∧
      ((∀ p ∈ room.Clients, p.1 ≠ A → p.2.Conn ≠ client.Conn) →
        ∀ s ∈ fanOut e (.textUpdate updateMsg) A room.Clients, s.Conn ≠ client.Conn) := by
  obtain ⟨hR, hA, hroom, hclient⟩ := hj
  refine ⟨?_, ?_, ?_, ?_, ?_, ?_⟩
  · simp [handleTextUpdate, hR, hA, hmsg, hroom, lookup_put_self]
  · simp [handleTextUpdate, hR, hA, hmsg, hroom]
  · simp [handleTextUpdate, hR, hA, hmsg, hroom, broadcastToRoom_eq]
  · intro id c hmem hne
    exact (mem_fanOut _ _ _ _ _).mpr ⟨(id, c), hmem, hne, rfl⟩
  · intro s hs
    obtain ⟨p, hp, hne, rfl⟩ := (mem_fanOut _ _ _ _ _).mp hs
    exact ⟨hne, rfl, p.2, hp, rfl⟩
  · intro huniq s hs
    obtain ⟨p, hp, hne, rfl⟩ := (mem_fanOut _ _ _ _ _).mp hs
    exact huniq p hp hne

@[simp] theorem saveComment_rooms (e : Env) (w : World) (r : String) (c : Comment) :
    (saveComment e w r c).1.rooms = w.rooms := by
  unfold saveComment called; dsimp only; split <;> rfl

@[simp] theorem saveComment_out (e : Env) (w : World) (r : String) (c : Comment) :
    (saveComment e w r c).1.out = w.out := by
  unfold saveComment called; dsimp only; split <;> rfl

@[simp] theorem saveComment_closed (e : Env) (w : World) (r : String) (c : Comment) :
    (saveComment e w r c).1.closed = w.closed := by
  unfold saveComment called; dsimp only; split <;> rfl

@[simp] theorem saveComment_calls (e : Env) (w : World) (r : String) (c : Comment) :
    (saveComment e w r c).1.calls = w.calls ++ [.saveComment r c] := by
  unfold saveComment called; dsimp only; split <;> rfl

theorem saveComment_db_of_ok {e : Env} {w : World} {r : String} {c : Comment}
    (h : (saveComment e w r c).2 = false) :
    (saveComment e w r c).1.db = { w.db with comments := w.db.comments ++ [(r, c)] } := by
  unfold saveComment called at h ⊢; dsimp only at h ⊢
  split at h
  · simp at h
  · rename_i hc; simp only [hc]; rfl

theorem saveComment_db_of_err {e : Env} {w : World} {r : String} {c : Comment}
    (h : (saveComment e w r c).2 = true) : (saveComment e w r c).1.db = w.db := by
  unfold saveComment called at h ⊢; dsimp only at h ⊢
  split at h
  · rename_i hc; simp only [hc]; rfl
  · simp at h

@[simp] theorem deleteComment_rooms (e : Env) (w : World) (c : String) :
    (deleteComment e w c).1.rooms = w.rooms := by
  unfold deleteComment called; dsimp only; split <;> rfl

@[simp] theorem deleteComment_out (e : Env) (w : World) (c : String) :
    (deleteComment e w c).1.out = w.out := by
  unfold deleteComment called; dsimp only; split <;> rfl

@[simp] theorem deleteComment_closed (e : Env) (w : World) (c : String) :
    (deleteComment e w c).1.closed = w.closed := by
  unfold deleteComment called; dsimp only; split <;> rfl

@[simp] theorem deleteComment_calls (e : Env) (w : World) (c : String) :
    (deleteComment e w c).1.calls = w.calls ++ [.deleteComment c] := by
  unfold deleteComment called; dsimp only; split <;> rfl

theorem deleteComment_db_of_err {e : Env} {w : World} {c : String}
    (h : (deleteComment e w c).2 = true) : (deleteComment e w c).1.db = w.db := by
  unfold deleteComment called at h ⊢; dsimp only at h ⊢
  split at h
  · rename_i hc; simp only [hc]; rfl
  · simp at h

@[simp] theorem saveMediaFile_rooms (e : Env) (w : World) (r : String) (m : MediaFile) :
    (saveMediaFile e w r m).1.rooms = w.rooms := by
  unfold saveMediaFile called; dsimp only; split <;> rfl

@[simp] theorem saveMediaFile_out (e : Env) (w : World) (r : String) (m : MediaFile) :
    (saveMediaFile e w r m).1.out = w.out := by
  unfold saveMediaFile called; dsimp only; split <;> rfl

@[simp] theorem saveMediaFile_closed (e : Env) (w : World) (r : String) (m : MediaFile) :
    (saveMediaFile e w r m).1.closed = w.closed := by
  unfold saveMediaFile called; dsimp only; split <;> rfl

@[simp] theorem saveMediaFile_calls (e : Env) (w : World) (r : String) (m : MediaFile) :
    (saveMediaFile e w r m).1.calls = w.calls ++ [.saveMediaFile r m] := by
  unfold saveMediaFile called; dsimp only; split <;> rfl

theorem saveMediaFile_db_of_err {e : Env} {w : World} {r : String} {m : MediaFile}
    (h : (saveMediaFile e w r m).2 = true) : (saveMediaFile e w r m).1.db = w.db := by
  unfold saveMediaFile called at h ⊢; dsimp only at h ⊢
  split at h
  · rename_i hc; simp only [hc]; rfl
  · simp at h

@[simp] theorem deleteMediaFile_rooms (e : Env) (w : World) (c : String) :
    (deleteMediaFile e w c).1.rooms = w.rooms := by
  unfold deleteMediaFile called; dsimp only; split <;> rfl

@[simp] theorem deleteMediaFile_out (e : Env) (w : World) (c : String) :
    (deleteMediaFile e w c).1.out = w.out := by
  unfold deleteMediaFile called; dsimp only; split <;> rfl

@[simp] theorem deleteMediaFile_closed (e : Env) (w : World) (c : String) :
    (deleteMediaFile e w c).1.closed = w.closed := by
  unfold deleteMediaFile called; dsimp only; split <;> rfl

@[simp] theorem deleteMediaFile_calls (e : Env) (w : World) (c : String) :
    (deleteMediaFile e w c).1.calls = w.calls ++ [.deleteMediaFile c] := by
  unfold deleteMediaFile called; dsimp only; split <;> rfl

theorem deleteMediaFile_db_of_err {e : Env} {w : World} {c : String}
    (h : (deleteMediaFile e w c).2 = true) : (deleteMediaFile e w c).1.db = w.db := by
  unfold deleteMediaFile called at h ⊢; dsimp only at h ⊢
  split at h
  · rename_i hc; simp only [hc]; rfl
  · simp at h

/-! ## Comment add -/

theorem handleCommentAdd_of_ok {e : Env} {conn : Nat} {message : RawMessage} {R A : String}
    {w : World} {room : Room} {commentMsg : CommentMessage}
    (hR : R ≠ "") (hA : A ≠ "") (hroom : lookup w.rooms R = some room)
    (hmsg : message.comment = some commentMsg)
    (hsave : (saveComment e w R (stampComment e room A commentMsg.Comment)).2 = false) :
    handleCommentAdd e conn message R A w =
      { (saveComment e w R (stampComment e room A commentMsg.Comment)).1 with
        rooms := put w.rooms R
          { room with Comments := room.Comments ++ [stampComment e room A commentMsg.Comment] }
        out := w.out ++ fanOut e
          (.comment { commentMsg with Comment := stampComment e room A commentMsg.Comment }) ""
          room.Clients } := by
  simp only [handleCommentAdd, hR, hA, or_self, if_false, hmsg, hroom]
  generalize hs : saveComment e w R (stampComment e room A commentMsg.Comment) = res at hsave ⊢
  obtain ⟨w1, b⟩ := res
  simp only at hsave
  subst hsave
  have h1 : w1.rooms = w.rooms := by
    have := saveComment_rooms e w R (stampComment e room A commentMsg.Comment)
    rw [hs] at this; exact this
  have h2 : w1.out = w.out := by
    have := saveComment_out e w R (stampComment e room A commentMsg.Comment)
    rw [hs] at this; exact this
  simp only [broadcastToRoom_eq, h1, h2]

theorem handleCommentAdd_of_err {e : Env} {conn : Nat} {message : RawMessage} {R A : String}
    {w : World} {room : Room} {commentMsg : CommentMessage}
    (hR : R ≠ "") (hA : A ≠ "") (hroom : lookup w.rooms R = some room)
    (hmsg : message.comment = some commentMsg)
    (hsave : (saveComment e w R (stampComment e room A commentMsg.Comment)).2 = true) :
    handleCommentAdd e conn message R A w =
      (saveComment e w R (stampComment e room A commentMsg.Comment)).1 := by
  simp only [handleCommentAdd, hR, hA, or_self, if_false, hmsg, hroom]
  generalize hs : saveComment e w R (stampComment e room A commentMsg.Comment) = res at hsave ⊢
  obtain ⟨w1, b⟩ := res
  simp only at hsave
  subst hsave
  rfl

/-- Comment add for a sender that is in the client map of its room. A
well-formed comment-add handled for such a session `A` of room `R`
whose save succeeds, whatever comment the client sent: the comment saved has
the id and timestamp made from the server clock and the name and id of the
sender's own user as author, and keeps the client's content and line anchors;
that comment is the row added to the comments table, it is appended as the last
element of the room's comments (nothing else of the room changes), and one
comment-add carrying it is written for every session of the client map, the
sender included. -/
theorem handleCommentAdd_stamps_appends_broadcasts (e : Env) (conn : Nat)
    (message : RawMessage) (R A : String) (w : World) (room : Room) (client : Client)
    (commentMsg : CommentMessage)
    (hj : Joined w R A room client) (hwf : ClientsWF room.Clients)
    (hmsg : message.comment = some commentMsg)
    (hsave : (saveComment e w R (stampComment e room A commentMsg.Comment)).2 = false) :
    stampComment e room A commentMsg.Comment =
        { ID := "comment_" ++ toString e.now, Timestamp := e.now,
          Author := client.User.Name, AuthorID := client.User.ID,
          Content := commentMsg.Comment.Content,
          LineNumber := commentMsg.Comment.LineNumber,
          LineRange := commentMsg.Comment.LineRange } ∧
      (handleCommentAdd e conn message R A w).db =
        { w.db with comments :=
            w.db.comments ++ [(R, stampComment e room A commentMsg.Comment)] } ∧
      lookup (handleCommentAdd e conn message R A w).rooms R =
        some { room with
          Comments := room.Comments ++ [stampComment e room A commentMsg.Comment] } ∧
      (handleCommentAdd e conn message R A w).out =
        w.out ++ fanOut e
          (.comment { commentMsg with Comment := stampComment e room A commentMsg.Comment }) ""
          room.Clients ∧
      (∀ id c, (id, c) ∈ room.Clients →
        { sid := id, Conn := c.Conn,
          msg := .comment { commentMsg with
            Comment := stampComment e room A commentMsg.Comment },
          failed := e.writeErr c.Conn (.comment { commentMsg with
            Comment := stampComment e room A commentMsg.Comment }) }
          ∈ fanOut e
            (.comment { commentMsg with Comment := stampComment e room A commentMsg.Comment })
            "" room.Clients) ∧
      (A, client) ∈ room.Clients := by
  obtain ⟨hR, hA, hroom, hclient⟩ := hj
  rw [handleCommentAdd_of_ok hR hA hroom hmsg hsave]
  refine ⟨?_, ?_, ?_, rfl, ?_, lookup_some_mem hclient⟩
  · simp [stampComment, hclient]
  · exact saveComment_db_of_ok hsave
  · exact lookup_put_self _ _ _
  · intro id c hmem
    refine (mem_fanOut _ _ _ _ _).mpr ⟨(id, c), hmem, ?_, rfl⟩
    intro hid
    exact hwf.2 (List.mem_map.mpr ⟨(id, c), hmem, hid⟩)

/-! ## Persistence errors -/

theorem handleCommentDelete_of_err {e : Env} {conn : Nat} {message : RawMessage} {R A : String}
    {w : World} {room : Room} {commentMsg : CommentMessage}
    (hR : R ≠ "") (hA : A ≠ "") (hroom : lookup w.rooms R = some room)
    (hmsg : message.comment = some commentMsg)
    (hdel : (deleteComment e w commentMsg.Comment.ID).2 = true) :
    handleCommentDelete e conn message R A w = (deleteComment e w commentMsg.Comment.ID).1 := by
  simp only [handleCommentDelete, hR, hA, or_self, if_false, hmsg, hroom]
  generalize deleteComment e w commentMsg.Comment.ID = res at hdel ⊢
  obtain ⟨w1, b⟩ := res
  simp only at hdel
  subst hdel
  rfl

theorem handleMediaUpload_of_err {e : Env} {conn : Nat} {message : RawMessage} {R A : String}
    {w : World} {room : Room} {mediaMsg : MediaMessage}
    (hR : R ≠ "") (hA : A ≠ "") (hroom : lookup w.rooms R = some room)
    (hmsg : message.media = some mediaMsg)
    (hsave : (saveMediaFile e w R (stampMedia e room A mediaMsg.Media)).2 = true) :
    handleMediaUpload e conn message R A w =
      (saveMediaFile e w R (stampMedia e room A mediaMsg.Media)).1 := by
  simp only [handleMediaUpload, hR, hA, or_self, if_false, hmsg, hroom]
  generalize saveMediaFile e w R (stampMedia e room A mediaMsg.Media) = res at hsave ⊢
  obtain ⟨w1, b⟩ := res
  simp only at hsave
  subst hsave
  rfl

theorem handleMediaDelete_of_err {e : Env} {conn : Nat} {message : RawMessage} {R A : String}
    {w : World} {room : Room} {mediaMsg : MediaMessage}
    (hR : R ≠ "") (hA : A ≠ "") (hroom : lookup w.rooms R = some room)
    (hmsg : message.media = some mediaMsg)
    (hdel : (deleteMediaFile e w mediaMsg.Media.ID).2 = true) :
    handleMediaDelete e conn message R A w = (deleteMediaFile e w mediaMsg.Media.ID).1 := by
  simp only [handleMediaDelete, hR, hA, or_self, if_false, hmsg, hroom]
  generalize deleteMediaFile e w mediaMsg.Media.ID = res at hdel ⊢
  obtain ⟨w1, b⟩ := res
  simp only at hdel
  subst hdel
  rfl

/-- C5. For a joined session of room `R`, in each of the four flows: when the
gateway operation of the flow (`saveComment` of the stamped comment,
`deleteComment`, `saveMediaFile` of the stamped record, `deleteMediaFile`)
returns an error, the handler stops there: the registry (so every room's
comments and media files) is as before, no write is made on any transport, and
the tables are as before. -/
theorem persistence_error_aborts (e : Env) (conn : Nat) (message : RawMessage)
    (R A : String) (w : World) (room : Room) (client : Client)
    (hj : Joined w R A room client) :
    (∀ m, message.comment = some m →
      (saveComment e w R (stampComment e room A m.Comment)).2 = true →
        (handleCommentAdd e conn message R A w).rooms = w.rooms ∧
        (handleCommentAdd e conn message R A w).out = w.out ∧
        (handleCommentAdd e conn message R A w).db = w.db) ∧
    (∀ m, message.comment = some m →
      (deleteComment e w m.Comment.ID).2 = true →
        (handleCommentDelete e conn message R A w).rooms = w.rooms ∧
        (handleCommentDelete e conn message R A w).out = w.out ∧
        (handleCommentDelete e conn message R A w).db = w.db) ∧
    (∀ m, message.media = some m →
      (saveMediaFile e w R (stampMedia e room A m.Media)).2 = true →
        (handleMediaUpload e conn message R A w).rooms = w.rooms ∧
        (handleMediaUpload e conn message R A w).out = w.out ∧
        (handleMediaUpload e conn message R A w).db = w.db) ∧
    (∀ m, message.media = some m →
      (deleteMediaFile e w m.Media.ID).2 = true →
        (handleMediaDelete e conn message R A w).rooms = w.rooms ∧
        (handleMediaDelete e conn message R A w).out = w.out ∧
        (handleMediaDelete e conn message R A w).db = w.db) := by
  obtain ⟨hR, hA, hroom, _⟩ := hj
  refine ⟨?_, ?_, ?_, ?_⟩
  · intro m hm herr
    rw [handleCommentAdd_of_err hR hA hroom hm herr]
    exact ⟨saveComment_rooms _ _ _ _, saveComment_out _ _ _ _, saveComment_db_of_err herr⟩
  · intro m hm herr
    rw [handleCommentDelete_of_err hR hA hroom hm herr]
    exact ⟨deleteComment_rooms _ _ _, deleteComment_out _ _ _, deleteComment_db_of_err herr⟩
  · intro m hm herr
    rw [handleMediaUpload_of_err hR hA hroom hm herr]
    exact ⟨saveMediaFile_rooms _ _ _ _, saveMediaFile_out _ _ _ _, saveMediaFile_db_of_err herr⟩
  · intro m hm herr
    rw [handleMediaDelete_of_err hR hA hroom hm herr]
    exact ⟨deleteMediaFile_rooms _ _ _, deleteMediaFile_out _ _ _, deleteMediaFile_db_of_err herr⟩

/-! ## Leave -/

theorem fanOut_nil (e : Env) (message : Message) (ex : String) :
    fanOut e message ex [] = [] := rfl

theorem fanOut_cons_excluded (e : Env) (message : Message) (ex : String) (c : Client)
    (rest : List (String × Client)) :
    fanOut e message ex ((ex, c) :: rest) = fanOut e message ex rest := by
  simp [fanOut, List.filter_cons]

theorem fanOut_cons_of_ne (e : Env) (message : Message) {ex id : String} (c : Client)
    (rest : List (String × Client)) (h : id ≠ ex) :
    fanOut e message ex ((id, c) :: rest) =
      { sid := id, Conn := c.Conn, msg := message, failed := e.writeErr c.Conn message }
        :: fanOut e message ex rest := by
  simp [fanOut, List.filter_cons, h]

theorem fanOut_sids (e : Env) (message : Message) (ex : String)
    (clients : List (String × Client)) :
    (fanOut e message ex clients).map Send.sid = keys (erase clients ex) := by
  induction clients with
  | nil => rfl
  | cons p rest ih =>
    obtain ⟨id, c⟩ := p
    by_cases h : id = ex
    · subst h
      rw [fanOut_cons_excluded, ih]
      simp [erase]
    · rw [fanOut_cons_of_ne e message c rest h]
      simp only [List.map_cons, ih, erase, h, if_false, keys]

theorem dropRoom_rooms (e : Env) (R : String) (w : World) :
    (dropRoom e R w).rooms = erase w.rooms R := by
  simp [dropRoom]

theorem dropRoom_out (e : Env) (R : String) (w : World) : (dropRoom e R w).out = w.out := by
  simp [dropRoom]

theorem dropRoom_closed (e : Env) (R : String) (w : World) :
    (dropRoom e R w).closed = w.closed := by
  simp [dropRoom]

theorem dropRoom_calls (e : Env) (R : String) (w : World) :
    (dropRoom e R w).calls =
      w.calls ++ [.deleteRoomContent R, .deleteRoomComments R, .deleteRoomMedia R] := by
  simp [dropRoom]

theorem dropRoom_db_rooms (e : Env) (R : String) (w : World) :
    (dropRoom e R w).db.rooms =
      if e.dbErr (.deleteRoomContent R) then w.db.rooms
      else w.db.rooms.filter (fun r => decide (r.code ≠ R)) := by
  unfold dropRoom deleteRoomMedia deleteRoomComments deleteRoomContent called
  dsimp only
  split <;> split <;> split <;> rfl

theorem dropRoom_db_comments (e : Env) (R : String) (w : World) :
    (dropRoom e R w).db.comments =
      if e.dbErr (.deleteRoomComments R) then w.db.comments
      else w.db.comments.filter (fun r => decide (r.1 ≠ R)) := by
  unfold dropRoom deleteRoomMedia deleteRoomComments deleteRoomContent called
  dsimp only
  split <;> split <;> split <;> rfl

theorem dropRoom_db_media (e : Env) (R : String) (w : World) :
    (dropRoom e R w).db.media_files =
      if e.dbErr (.deleteRoomMedia R) then w.db.media_files
      else w.db.media_files.filter (fun r => decide (r.1 ≠ R)) := by
  unfold dropRoom deleteRoomMedia deleteRoomComments deleteRoomContent called
  dsimp only
  split <;> split <;> split <;> rfl

theorem leaveRoom_of_absent_room {e : Env} {R s : String} {w : World}
    (h : lookup w.rooms R = none) : leaveRoom e R s w = w := by
  simp [leaveRoom, h]

theorem leaveRoom_of_absent_client {e : Env} {R s : String} {w : World} {room : Room}
    (hroom : lookup w.rooms R = some room) (hclient : lookup room.Clients s = none) :
    leaveRoom e R s w =
      if room.Clients = [] ∧ e.now - room.CreatedAt > 24 * hour then dropRoom e R w else w := by
  simp only [leaveRoom, hroom, hclient, List.length_eq_zero]
  rfl

theorem leaveRoom_of_present {e : Env} {R s : String} {w : World} {room : Room}
    {client : Client}
    (hroom : lookup w.rooms R = some room) (hclient : lookup room.Clients s = some client) :
    leaveRoom e R s w =
      if erase room.Clients s = [] ∧ e.now - room.CreatedAt > 24 * hour then
        dropRoom e R { w with
          rooms := put w.rooms R { room with Clients := erase room.Clients s }
          out := w.out ++ fanOut e (userLeftMsg R client.User) "" (erase room.Clients s) }
      else { w with
          rooms := put w.rooms R { room with Clients := erase room.Clients s }
          out := w.out ++ fanOut e (userLeftMsg R client.User) "" (erase room.Clients s) } := by
  simp only [leaveRoom, hroom, hclient, List.length_eq_zero, broadcastToRoom_eq]
  rfl

/-- C7, amended. `leaveRoom` for a room that is not in the registry, or for a
session id that is not a key of the room's client map, writes on no transport
and closes none; it returns the world unchanged unless the room is in the
registry with an empty client map and was created more than 24 hours ago, and
in that case it does what the eager deletion does: the three gateway deletes
for the code and the removal of the room from the registry. -/
theorem leaveRoom_absent_session (e : Env) (R s : String) (w : World)
    (h : ∀ room, lookup w.rooms R = some room → lookup room.Clients s = none) :
    (leaveRoom e R s w).out = w.out ∧
      (leaveRoom e R s w).closed = w.closed ∧
      ((∀ room, lookup w.rooms R = some room →
          ¬ (room.Clients = [] ∧ e.now - room.CreatedAt > 24 * hour)) →
        leaveRoom e R s w = w) ∧
      (∀ room, lookup w.rooms R = some room → room.Clients = [] →
          e.now - room.CreatedAt > 24 * hour →
        leaveRoom e R s w = dropRoom e R w ∧
        (dropRoom e R w).rooms = erase w.rooms R ∧
        (dropRoom e R w).calls =
          w.calls ++ [.deleteRoomContent R, .deleteRoomComments R, .deleteRoomMedia R]) := by
  cases hroom : lookup w.rooms R with
  | none =>
    rw [leaveRoom_of_absent_room hroom]
    exact ⟨rfl, rfl, fun _ => rfl, fun room hr => by simp at hr⟩
  | some room =>
    rw [leaveRoom_of_absent_client hroom (h room hroom)]
    refine ⟨?_, ?_, ?_, ?_⟩
    · split
      · exact dropRoom_out _ _ _
      · rfl
    · split
      · exact dropRoom_closed _ _ _
      · rfl
    · intro hno
      rw [if_neg (hno room rfl)]
    · intro room' hr hempty hold
      cases hr
      rw [if_pos ⟨hempty, hold⟩]
      exact ⟨rfl, dropRoom_rooms _ _ _, dropRoom_calls _ _ _⟩

/-- C7, as stated, fails: in `exWorldEmptyRoom` the session id `s` is not a
key of the client map of `R`, and 25 hours after the room's creation
`leaveRoom "R" "s"` removes `R` from the registry, deletes its rows and makes
three gateway calls. -/
theorem leaveRoom_absent_session_not_noop :
    lookup exWorldEmptyRoom.rooms "R" = some { exRoom with Clients := [] } ∧
      lookup ({ exRoom with Clients := [] } : Room).Clients "s" = none ∧
      (leaveRoom (exEnv (25 * hour)) "R" "s" exWorldEmptyRoom).rooms = [] ∧
      (leaveRoom (exEnv (25 * hour)) "R" "s" exWorldEmptyRoom).db =
        { rooms := [], comments := [], media_files := [] } ∧
      (leaveRoom (exEnv (25 * hour)) "R" "s" exWorldEmptyRoom).calls =
        [.deleteRoomContent "R", .deleteRoomComments "R", .deleteRoomMedia "R"] ∧
      leaveRoom (exEnv (25 * hour)) "R" "s" exWorldEmptyRoom ≠ exWorldEmptyRoom := by
  decide

theorem leaveRoom_absent_session_witness :
    (∀ room, lookup exWorld.rooms "R" = some room → lookup room.Clients "s" = none) ∧
      leaveRoom (exEnv (25 * hour)) "R" "s" exWorld = exWorld :=
  have h : ∀ room, lookup exWorld.rooms "R" = some room → lookup room.Clients "s" = none := by
    intro room hr
    have : room = exRoom := by
      have h2 : lookup exWorld.rooms "R" = some exRoom := by decide
      rw [h2] at hr; exact (Option.some.inj hr).symm
    subst this
    decide
  ⟨h, (leaveRoom_absent_session (exEnv (25 * hour)) "R" "s" exWorld h).2.2.1 (by
    intro room hr
    have : room = exRoom := by
      have h2 : lookup exWorld.rooms "R" = some exRoom := by decide
      rw [h2] at hr; exact (Option.some.inj hr).symm
    subst this
    decide)⟩

theorem mem_fanOut_of_mem {e : Env} {message : Message} {ex : String}
    {clients : List (String × Client)} {id : String} {c : Client}
    (hmem : (id, c) ∈ clients) (hne : id ≠ ex) :
    ({ sid := id, Conn := c.Conn, msg := message, failed := e.writeErr c.Conn message } : Send)
      ∈ fanOut e message ex clients :=
  (mem_fanOut _ _ _ _ _).mpr ⟨(id, c), hmem, hne, rfl⟩

theorem ClientsWF.erase {m : List (String × Client)} (h : ClientsWF m) (k : String) :
    ClientsWF (erase m k) :=
  ⟨nodup_keys_erase k h.1, fun hmem => h.2 ((mem_keys_erase m k "").mp hmem).1⟩

@[simp] theorem getRoomContent_out (e : Env) (w : World) (c : String) :
    (getRoomContent e w c).1.out = w.out := by
  unfold getRoomContent called; dsimp only; split
  · rfl
  · split <;> rfl

@[simp] theorem getRoomContent_rooms (e : Env) (w : World) (c : String) :
    (getRoomContent e w c).1.rooms = w.rooms := by
  unfold getRoomContent called; dsimp only; split
  · rfl
  · split <;> rfl

@[simp] theorem getRoomContent_closed (e : Env) (w : World) (c : String) :
    (getRoomContent e w c).1.closed = w.closed := by
  unfold getRoomContent called; dsimp only; split
  · rfl
  · split <;> rfl

@[simp] theorem getRoomContent_db (e : Env) (w : World) (c : String) :
    (getRoomContent e w c).1.db = w.db := by
  unfold getRoomContent called; dsimp only; split
  · rfl
  · split <;> rfl

@[simp] theorem getRoomContent_calls (e : Env) (w : World) (c : String) :
    (getRoomContent e w c).1.calls = w.calls ++ [.getRoomContent c] := by
  unfold getRoomContent called; dsimp only; split
  · rfl
  · split <;> rfl

@[simp] theorem getRoomComments_out (e : Env) (w : World) (c : String) :
    (getRoomComments e w c).1.out = w.out := by
  unfold getRoomComments called; dsimp only; split <;> rfl

@[simp] theorem getRoomComments_rooms (e : Env) (w : World) (c : String) :
    (getRoomComments e w c).1.rooms = w.rooms := by
  unfold getRoomComments called; dsimp only; split <;> rfl

@[simp] theorem getRoomComments_closed (e : Env) (w : World) (c : String) :
    (getRoomComments e w c).1.closed = w.closed := by
  unfold getRoomComments called; dsimp only; split <;> rfl

@[simp] theorem getRoomComments_db (e : Env) (w : World) (c : String) :
    (getRoomComments e w c).1.db = w.db := by
  unfold getRoomComments called; dsimp only; split <;> rfl

@[simp] theorem getRoomComments_calls (e : Env) (w : World) (c : String) :
    (getRoomComments e w c).1.calls = w.calls ++ [.getRoomComments c] := by
  unfold getRoomComments called; dsimp only; split <;> rfl

@[simp] theorem getRoomMedia_out (e : Env) (w : World) (c : String) :
    (getRoomMedia e w c).1.out = w.out := by
  unfold getRoomMedia called; dsimp only; split <;> rfl

@[simp] theorem getRoomMedia_rooms (e : Env) (w : World) (c : String) :
    (getRoomMedia e w c).1.rooms = w.rooms := by
  unfold getRoomMedia called; dsimp only; split <;> rfl

@[simp] theorem getRoomMedia_closed (e : Env) (w : World) (c : String) :
    (getRoomMedia e w c).1.closed = w.closed := by
  unfold getRoomMedia called; dsimp only; split <;> rfl

@[simp] theorem getRoomMedia_db (e : Env) (w : World) (c : String) :
    (getRoomMedia e w c).1.db = w.db := by
  unfold getRoomMedia called; dsimp only; split <;> rfl

@[simp] theorem getRoomMedia_calls (e : Env) (w : World) (c : String) :
    (getRoomMedia e w c).1.calls = w.calls ++ [.getRoomMedia c] := by
  unfold getRoomMedia called; dsimp only; split <;> rfl

theorem getOrCreate_of_present {e : Env} {code : String} {w : World} {room : Room}
    (h : lookup w.rooms code = some room) : getOrCreate e code w = (w, room) := by
  simp [getOrCreate, h]

theorem getOrCreate_out (e : Env) (code : String) (w : World) :
    (getOrCreate e code w).1.out = w.out := by
  unfold getOrCreate
  split
  · rfl
  · simp

theorem getOrCreate_closed (e : Env) (code : String) (w : World) :
    (getOrCreate e code w).1.closed = w.closed := by
  unfold getOrCreate
  split
  · rfl
  · simp

theorem getOrCreate_db (e : Env) (code : String) (w : World) :
    (getOrCreate e code w).1.db = w.db := by
  unfold getOrCreate
  split
  · rfl
  · simp

theorem getOrCreate_lookup (e : Env) (code : String) (w : World) :
    lookup (getOrCreate e code w).1.rooms code = some (getOrCreate e code w).2 := by
  unfold getOrCreate
  split
  · rename_i room h; exact h
  · simp [lookup_put_self]

theorem getOrCreate_lookup_of_ne (e : Env) {code code' : String} (w : World)
    (h : code' ≠ code) :
    lookup (getOrCreate e code w).1.rooms code' = lookup w.rooms code' := by
  unfold getOrCreate
  split
  · rfl
  · simp [lookup_put_of_ne _ _ h]

theorem handleJoinRoom_of_decoded {e : Env} {conn : Nat} {message : RawMessage}
    {currentRoom : String} {w : World} {joinMsg : JoinRoomMessage}
    (hmsg : message.joinRoom = some joinMsg) :
    handleJoinRoom e conn message currentRoom w =
      ({ (getOrCreate e joinMsg.base.Code
            (if currentRoom ≠ "" then leaveRoom e currentRoom "" w else w)).1 with
          rooms := put (getOrCreate e joinMsg.base.Code
              (if currentRoom ≠ "" then leaveRoom e currentRoom "" w else w)).1.rooms
            joinMsg.base.Code
            { (getOrCreate e joinMsg.base.Code
                (if currentRoom ≠ "" then leaveRoom e currentRoom "" w else w)).2 with
              Clients := put (getOrCreate e joinMsg.base.Code
                  (if currentRoom ≠ "" then leaveRoom e currentRoom "" w else w)).2.Clients
                (generateClientID e.now (e.rand 0))
                ⟨conn, joinUser e (generateClientID e.now (e.rand 0)) joinMsg.User, e.now⟩ }
          out := (if currentRoom ≠ "" then leaveRoom e currentRoom "" w else w).out
            ++ joinSnapshots e (generateClientID e.now (e.rand 0)) conn joinMsg.base.Code
              { (getOrCreate e joinMsg.base.Code
                  (if currentRoom ≠ "" then leaveRoom e currentRoom "" w else w)).2 with
                Clients := put (getOrCreate e joinMsg.base.Code
                    (if currentRoom ≠ "" then leaveRoom e currentRoom "" w else w)).2.Clients
                  (generateClientID e.now (e.rand 0))
                  ⟨conn, joinUser e (generateClientID e.now (e.rand 0)) joinMsg.User, e.now⟩ }
            ++ fanOut e
              (userJoinedMsg joinMsg.base.Code
                (joinUser e (generateClientID e.now (e.rand 0)) joinMsg.User))
              (generateClientID e.now (e.rand 0))
              (put (getOrCreate e joinMsg.base.Code
                  (if currentRoom ≠ "" then leaveRoom e currentRoom "" w else w)).2.Clients
                (generateClientID e.now (e.rand 0))
                ⟨conn, joinUser e (generateClientID e.now (e.rand 0)) joinMsg.User, e.now⟩) },
        joinMsg.base.Code, generateClientID e.now (e.rand 0)) := by
  simp only [handleJoinRoom, hmsg]
  generalize (if currentRoom ≠ "" then leaveRoom e currentRoom "" w else w) = w1
  have hout := getOrCreate_out e joinMsg.base.Code w1
  generalize getOrCreate e joinMsg.base.Code w1 = res at hout ⊢
  obtain ⟨w2, room0⟩ := res
  simp only at hout
  simp only [broadcastToRoom_eq, writeJSON, joinSnapshots, mkSend, hout, List.append_assoc,
    List.cons_append, List.nil_append]

theorem leaveRoom_out_of_absent {e : Env} {R s : String} {w : World}
    (h : ∀ room, lookup w.rooms R = some room → lookup room.Clients s = none) :
    (leaveRoom e R s w).out = w.out := by
  cases hroom : lookup w.rooms R with
  | none => rw [leaveRoom_of_absent_room hroom]
  | some room =>
    rw [leaveRoom_of_absent_client hroom (h room hroom)]
    split
    · exact dropRoom_out _ _ _
    · rfl

/-- The writes of a join. A well-formed join-room handled on connection `conn`,
whatever the connection's current room and whichever writes fail. Let `room`
be the target
room once the joining session `clientID` is registered in it (the room found or
created by `getOrCreate`, after the implicit leave). Then the handler returns
the target code and `clientID`, the registry holds `room` under the code, the
joining user is in the users snapshot, and the writes made after the implicit
leave are, in this order: initial-content with the room's content,
comments-sync, media-sync, users-sync, all four on `conn` and each recorded
with its own failure flag, followed by one user-joined for every session of
`room` other than `clientID` and none for `clientID`. The implicit leave
writes nothing when the old room has no session of empty id, and nothing but
the four snapshots is written on `conn` when no session already in the target
room is bound to `conn`. -/
theorem handleJoinRoom_snapshots_then_user_joined (e : Env) (conn : Nat)
    (message : RawMessage) (currentRoom : String) (w : World) (joinMsg : JoinRoomMessage)
    (hmsg : message.joinRoom = some joinMsg) :
    let code := joinMsg.base.Code
    let clientID := generateClientID e.now (e.rand 0)
    let user := joinUser e clientID joinMsg.User
    let w1 := if currentRoom ≠ "" then leaveRoom e currentRoom "" w else w
    let room0 := (getOrCreate e code w1).2
    let room : Room :=
      { room0 with Clients := put room0.Clients clientID ⟨conn, user, e.now⟩ }
    (handleJoinRoom e conn message currentRoom w).2 = (code, clientID) ∧
      lookup (handleJoinRoom e conn message currentRoom w).1.rooms code = some room ∧
      lookup room.Clients clientID = some ⟨conn, user, e.now⟩ ∧
      user ∈ room.Clients.map (fun p => p.2.User) ∧
      (handleJoinRoom e conn message currentRoom w).1.out =
        w1.out ++ joinSnapshots e clientID conn code room
          ++ fanOut e (userJoinedMsg code user) clientID room.Clients ∧
      (∀ s ∈ joinSnapshots e clientID conn code room, s.sid = clientID ∧ s.Conn = conn) ∧
      (∀ s ∈ fanOut e (userJoinedMsg code user) clientID room.Clients, s.sid ≠ clientID) ∧
      (∀ id c, (id, c) ∈ room.Clients → id ≠ clientID →
        mkSend e id c.Conn (userJoinedMsg code user)
          ∈ fanOut e (userJoinedMsg code user) clientID room.Clients) ∧
      ((∀ r, lookup w.rooms currentRoom = some r → lookup r.Clients "" = none) →
        w1.out = w.out) ∧
      ((∀ p ∈ room0.Clients, p.2.Conn ≠ conn) →
        ∀ s ∈ fanOut e (userJoinedMsg code user) clientID room.Clients, s.Conn ≠ conn) := by
  intro code clientID user w1 room0 room
  rw [handleJoinRoom_of_decoded hmsg]
  refine ⟨rfl, lookup_put_self _ _ _, lookup_put_self _ _ _, ?_, rfl, ?_, ?_, ?_, ?_, ?_⟩
  · exact List.mem_map.mpr ⟨(clientID, ⟨conn, user, e.now⟩),
      lookup_some_mem (lookup_put_self _ _ _), rfl⟩
  · intro s hs
    simp only [joinSnapshots, mkSend, List.mem_cons, List.mem_singleton, List.not_mem_nil,
      or_false] at hs
    rcases hs with h | h | h | h <;> subst h <;> exact ⟨rfl, rfl⟩
  · intro s hs
    obtain ⟨p, _, hne, rfl⟩ := (mem_fanOut _ _ _ _ _).mp hs
    exact hne
  · intro id c hmem hne
    exact mem_fanOut_of_mem hmem hne
  · intro hno
    show (if currentRoom ≠ "" then leaveRoom e currentRoom "" w else w).out = w.out
    split
    · exact leaveRoom_out_of_absent hno
    · rfl
  · intro halias s hs
    obtain ⟨p, hp, hne, rfl⟩ := (mem_fanOut _ _ _ _ _).mp hs
    rcases mem_put hp with h | h
    · exact absurd (by rw [h]) hne
    · exact halias p h

theorem handleJoinRoom_snapshots_then_user_joined_witness :
    ({ exRaw with joinRoom := some ⟨⟨JoinRoom, "R"⟩, exUser "uc" "Cy"⟩ } : RawMessage).joinRoom
        = some ⟨⟨JoinRoom, "R"⟩, exUser "uc" "Cy"⟩ ∧
      (handleJoinRoom (exEnv 5) 3
          { exRaw with joinRoom := some ⟨⟨JoinRoom, "R"⟩, exUser "uc" "Cy"⟩ } "" exWorld).1.out =
        [mkSend (exEnv 5) "client_5_0" 3 (.initialContent ⟨⟨InitialContent, "R"⟩, "hi"⟩),
         mkSend (exEnv 5) "client_5_0" 3 (.comments ⟨⟨CommentsSync, "R"⟩, [exComment "c1"]⟩),
         mkSend (exEnv 5) "client_5_0" 3 (.mediaSync ⟨⟨MediaSync, "R"⟩, []⟩),
         mkSend (exEnv 5) "client_5_0" 3
           (.users ⟨⟨UsersSync, "R"⟩,
             [exUser "ua" "Ann", exUser "ub" "Bob", { exUser "uc" "Cy" with LastSeen := 5 }]⟩),
         mkSend (exEnv 5) "a" 1 (userJoinedMsg "R" { exUser "uc" "Cy" with LastSeen := 5 }),
         mkSend (exEnv 5) "b" 2 (userJoinedMsg "R" { exUser "uc" "Cy" with LastSeen := 5 })] :=
  ⟨rfl, (handleJoinRoom_snapshots_then_user_joined (exEnv 5) 3
    { exRaw with joinRoom := some ⟨⟨JoinRoom, "R"⟩, exUser "uc" "Cy"⟩ } "" exWorld
    ⟨⟨JoinRoom, "R"⟩, exUser "uc" "Cy"⟩ rfl).2.2.2.2.1⟩

theorem handleTextUpdate_replaces_and_fans_out_witness :
    Joined exWorld "R" "a" exRoom { Conn := 1, User := exUser "ua" "Ann", LastPing := 0 } ∧
      lookup (handleTextUpdate (exEnvDbDown 5) 1 { exRaw with textUpdate := some exTextUpdate }
          "R" "a" exWorld).rooms "R" = some { exRoom with Content := "hello" } ∧
      (handleTextUpdate (exEnvDbDown 5) 1 { exRaw with textUpdate := some exTextUpdate }
          "R" "a" exWorld).out = [mkSend (exEnvDbDown 5) "b" 2 (.textUpdate exTextUpdate)] :=
  have hj : Joined exWorld "R" "a" exRoom
      { Conn := 1, User := exUser "ua" "Ann", LastPing := 0 } :=
    ⟨by decide, by decide, by decide, by decide⟩
  have h := handleTextUpdate_replaces_and_fans_out (exEnvDbDown 5) 1
    { exRaw with textUpdate := some exTextUpdate } "R" "a" exWorld exRoom
    { Conn := 1, User := exUser "ua" "Ann", LastPing := 0 } exTextUpdate hj rfl
  ⟨hj, h.1, h.2.2.1⟩

theorem handleCommentAdd_stamps_appends_broadcasts_witness :
    Joined exWorld "R" "a" exRoom { Conn := 1, User := exUser "ua" "Ann", LastPing := 0 } ∧
      ClientsWF exRoom.Clients ∧
      (saveComment (exEnv 5) exWorld "R" (stampComment (exEnv 5) exRoom "a" exCommentMsg.Comment)).2
        = false ∧
      stampComment (exEnv 5) exRoom "a" exCommentMsg.Comment =
        { ID := "comment_5", Timestamp := 5, Author := "Ann", AuthorID := "ua",
          Content := "fix this", LineNumber := some 3, LineRange := none } ∧
      (handleCommentAdd (exEnv 5) 1 { exRaw with comment := some exCommentMsg } "R" "a"
          exWorld).out.map Send.sid = ["a", "b"] :=
  have hj : Joined exWorld "R" "a" exRoom
      { Conn := 1, User := exUser "ua" "Ann", LastPing := 0 } :=
    ⟨by decide, by decide, by decide, by decide⟩
  have hwf : ClientsWF exRoom.Clients := ⟨by decide, by decide⟩
  have h := handleCommentAdd_stamps_appends_broadcasts (exEnv 5) 1
    { exRaw with comment := some exCommentMsg } "R" "a" exWorld exRoom
    { Conn := 1, User := exUser "ua" "Ann", LastPing := 0 } exCommentMsg hj hwf rfl
    (by decide)
  ⟨hj, hwf, by decide, h.1, by rw [h.2.2.2.1]; decide⟩

theorem persistence_error_aborts_witness :
    Joined exWorld "R" "a" exRoom { Conn := 1, User := exUser "ua" "Ann", LastPing := 0 } ∧
      (saveComment (exEnvDbDown 5) exWorld "R"
        (stampComment (exEnvDbDown 5) exRoom "a" exCommentMsg.Comment)).2 = true ∧
      (handleCommentAdd (exEnvDbDown 5) 1
          { exRaw with comment := some exCommentMsg, media := some exMediaMsg } "R" "a"
          exWorld).rooms = exWorld.rooms ∧
      (handleMediaDelete (exEnvDbDown 5) 1
          { exRaw with comment := some exCommentMsg, media := some exMediaMsg } "R" "a"
          exWorld).out = exWorld.out :=
  have hj : Joined exWorld "R" "a" exRoom
      { Conn := 1, User := exUser "ua" "Ann", LastPing := 0 } :=
    ⟨by decide, by decide, by decide, by decide⟩
  have h := persistence_error_aborts (exEnvDbDown 5) 1
    { exRaw with comment := some exCommentMsg, media := some exMediaMsg } "R" "a" exWorld exRoom
    { Conn := 1, User := exUser "ua" "Ann", LastPing := 0 } hj
  ⟨hj, by decide, (h.1 exCommentMsg rfl (by decide)).1,
    (h.2.2.2 exMediaMsg rfl (by decide)).2.1⟩

/-! ## Joining while joined -/

/-- C1 fails on the code. Connection 2 is in room `A` as `client_4_0`.
Connection 1 joins `A` (session `client_5_0`) and then handles a well-formed
join-room for `B`: its loop variables become `("B", "client_6_0")`, yet
`client_5_0` is still a key of the client map of `A`, bound to the same
transport 1 as the session in `B`; none of the writes made is a user-left, so
the peer in `A` was not told; and a later text-update of the peer in `A` is
written on transport 1. -/
theorem join_other_room_keeps_old_session :
    exSwitched.1 = { currentRoom := "B", clientID := "client_6_0" } ∧
      exSwitched.2.1.rooms.map (fun p => (p.1, p.2.Clients.map (fun q => (q.1, q.2.Conn))))
        = [("A", [("client_4_0", 2), ("client_5_0", 1)]), ("B", [("client_6_0", 1)])] ∧
      exSwitched.2.1.out.all (fun s => !isUserLeft s) = true ∧
      (handleTextUpdate (exEnv 7) 2 { exRaw with textUpdate := some exTextUpdate } "A"
          "client_4_0" exSwitched.2.1).out =
        exSwitched.2.1.out ++ [mkSend (exEnv 7) "client_5_0" 1 (.textUpdate exTextUpdate)] := by
  decide

/-! ## Malformed frames -/

/-- C6 fails on the code for a join-room whose payload does not decode. A
connection that joined room `A` as `client_5_0` and then reads such a frame
keeps `A` as current room but its client id becomes empty; nothing else
changes, and the loop goes on. When the transport later fails, the
disconnection cleanup leaves the session in the room's client map. -/
theorem undecodable_join_clears_client_id :
    handleFrame (exEnv 5) 1 { currentRoom := "", clientID := "" } emptyWorld
        (.text (exJoin "A")) =
      ({ currentRoom := "A", clientID := "client_5_0" },
        (handleJoinRoom (exEnv 5) 1 (exJoin "A") "" emptyWorld).1, true) ∧
      handleFrame (exEnv 6) 1 { currentRoom := "A", clientID := "client_5_0" }
          (handleJoinRoom (exEnv 5) 1 (exJoin "A") "" emptyWorld).1 (.text (exBadJoin "A")) =
        ({ currentRoom := "A", clientID := "" },
          (handleJoinRoom (exEnv 5) 1 (exJoin "A") "" emptyWorld).1, true) ∧
      (lookup (handleWebSocket 1
          [(exEnv 5, .text (exJoin "A")), (exEnv 6, .text (exBadJoin "A")),
           (exEnv 7, .readError)] emptyWorld).2.1.rooms "A").map (fun r => keys r.Clients)
        = some ["client_5_0"] := by
  decide

/-! ## Liveness monitor -/

theorem foldl_erase_eq_filter (ids : List String) (clients : List (String × Client)) :
    ids.foldl erase clients = clients.filter (fun p => decide (p.1 ∉ ids)) := by
  induction ids generalizing clients with
  | nil => simp
  | cons id rest ih =>
    simp only [List.foldl_cons, ih, erase_eq_filter, List.filter_filter]
    apply List.filter_congr
    intro p _
    simp only [List.mem_cons, not_or, ne_eq, Bool.decide_and, decide_not]
    rw [Bool.and_comm]

theorem evictLoop_eq (e : Env) (roomCode : String) (ids : List String) (room : Room)
    (out : List Send) (closed : List Nat) :
    evictLoop e roomCode ids room out closed =
      ({ room with Clients := ids.foldl erase room.Clients },
        out ++ evictSends e roomCode ids room.Clients,
        closed ++ evictConns ids room.Clients) := by
  induction ids generalizing room out closed with
  | nil => simp [evictLoop, evictSends, evictConns]
  | cons id rest ih =>
    cases h : lookup room.Clients id with
    | none =>
      simp only [evictLoop, h, ih, evictSends, evictConns, List.foldl_cons]
      rw [erase_of_not_mem ((lookup_eq_none_iff _ _).mp h)]
    | some client =>
      simp only [evictLoop, h, ih, evictSends, evictConns, List.foldl_cons, broadcastToRoom_eq,
        List.append_assoc, List.singleton_append]

theorem pingLoop_eq (e : Env) (l : List (String × Room)) (out : List Send)
    (closed : List Nat) :
    pingLoop e l out closed =
      (l.map (fun p =>
          (p.1, { p.2 with Clients := (disconnectedClients e p.2).foldl erase p.2.Clients })),
        out ++ pingSends e l,
        closed ++ l.flatMap
          (fun p => evictConns (disconnectedClients e p.2) p.2.Clients)) := by
  induction l generalizing out closed with
  | nil => simp [pingLoop, pingSends]
  | cons p rest ih =>
    obtain ⟨code, room⟩ := p
    simp only [pingLoop, evictLoop_eq, ih, pingSends, List.map_cons, List.flatMap_cons,
      List.append_assoc]

theorem checkClientPings_eq (e : Env) (w : World) :
    checkClientPings e w =
      { w with
        rooms := w.rooms.map (fun p =>
          (p.1, { p.2 with Clients := (disconnectedClients e p.2).foldl erase p.2.Clients }))
        out := w.out ++ pingSends e w.rooms
        closed := w.closed ++ w.rooms.flatMap
          (fun p => evictConns (disconnectedClients e p.2) p.2.Clients) } := by
  simp only [checkClientPings, pingLoop_eq]

theorem countP_key_eq_one {m : List (String × Client)} {k : String} {v : Client}
    (hnd : (keys m).Nodup) (h : lookup m k = some v) :
    m.countP (fun p => decide (p.1 = k)) = 1 := by
  induction m with
  | nil => simp [lookup] at h
  | cons q rest ih =>
    obtain ⟨a, b⟩ := q
    simp only [keys, List.map_cons, List.nodup_cons] at hnd
    by_cases ha : a = k
    · subst ha
      have hz : rest.countP (fun p => decide (p.1 = a)) = 0 := by
        simp only [List.countP_eq_zero, decide_eq_true_eq]
        intro p hp hpa
        exact hnd.1 (List.mem_map.mpr ⟨p, hp, hpa⟩)
      simp [List.countP_cons, hz]
    · simp only [lookup, ha, if_false] at h
      simp [List.countP_cons, ha, ih hnd.2 h]

theorem keys_map_val {α : Type} (l : List (String × α)) (g : String × α → α) :
    keys (l.map (fun p => (p.1, g p))) = keys l := by
  simp [keys, List.map_map, Function.comp_def]

theorem mem_of_lookup_of_nodup {α : Type} {l : List (String × α)} {q : String × α}
    (hnd : (keys l).Nodup) (hq : q ∈ l) : lookup l q.1 = some q.2 :=
  lookup_of_mem hnd hq

theorem handleCommentDelete_of_ok {e : Env} {conn : Nat} {message : RawMessage} {R A : String}
    {w : World} {room : Room} {commentMsg : CommentMessage}
    (hR : R ≠ "") (hA : A ≠ "") (hroom : lookup w.rooms R = some room)
    (hmsg : message.comment = some commentMsg)
    (hdel : (deleteComment e w commentMsg.Comment.ID).2 = false) :
    handleCommentDelete e conn message R A w =
      { (deleteComment e w commentMsg.Comment.ID).1 with
        rooms := put w.rooms R
          { room with Comments :=
              room.Comments.eraseP (fun comment => decide (comment.ID = commentMsg.Comment.ID)) }
        out := w.out ++ fanOut e (.comment commentMsg) "" room.Clients } := by
  simp only [handleCommentDelete, hR, hA, or_self, if_false, hmsg, hroom]
  generalize hs : deleteComment e w commentMsg.Comment.ID = res at hdel ⊢
  obtain ⟨w1, b⟩ := res
  simp only at hdel
  subst hdel
  have h1 : w1.rooms = w.rooms := by
    have := deleteComment_rooms e w commentMsg.Comment.ID
    rw [hs] at this; exact this
  have h2 : w1.out = w.out := by
    have := deleteComment_out e w commentMsg.Comment.ID
    rw [hs] at this; exact this
  simp only [broadcastToRoom_eq, h1, h2]

theorem handleMediaUpload_of_ok {e : Env} {conn : Nat} {message : RawMessage} {R A : String}
    {w : World} {room : Room} {mediaMsg : MediaMessage}
    (hR : R ≠ "") (hA : A ≠ "") (hroom : lookup w.rooms R = some room)
    (hmsg : message.media = some mediaMsg)
    (hsave : (saveMediaFile e w R (stampMedia e room A mediaMsg.Media)).2 = false) :
    handleMediaUpload e conn message R A w =
      { (saveMediaFile e w R (stampMedia e room A mediaMsg.Media)).1 with
        rooms := put w.rooms R
          { room with MediaFiles := room.MediaFiles ++ [stampMedia e room A mediaMsg.Media] }
        out := w.out ++ fanOut e
          (.media { mediaMsg with Media := stampMedia e room A mediaMsg.Media }) ""
          room.Clients } := by
  simp only [handleMediaUpload, hR, hA, or_self, if_false, hmsg, hroom]
  generalize hs : saveMediaFile e w R (stampMedia e room A mediaMsg.Media) = res at hsave ⊢
  obtain ⟨w1, b⟩ := res
  simp only at hsave
  subst hsave
  have h1 : w1.rooms = w.rooms := by
    have := saveMediaFile_rooms e w R (stampMedia e room A mediaMsg.Media)
    rw [hs] at this; exact this
  have h2 : w1.out = w.out := by
    have := saveMediaFile_out e w R (stampMedia e room A mediaMsg.Media)
    rw [hs] at this; exact this
  simp only [broadcastToRoom_eq, h1, h2]

theorem handleMediaDelete_of_ok {e : Env} {conn : Nat} {message : RawMessage} {R A : String}
    {w : World} {room : Room} {mediaMsg : MediaMessage}
    (hR : R ≠ "") (hA : A ≠ "") (hroom : lookup w.rooms R = some room)
    (hmsg : message.media = some mediaMsg)
    (hdel : (deleteMediaFile e w mediaMsg.Media.ID).2 = false) :
    handleMediaDelete e conn message R A w =
      { (deleteMediaFile e w mediaMsg.Media.ID).1 with
        rooms := put w.rooms R
          { room with MediaFiles :=
              room.MediaFiles.eraseP (fun media => decide (media.ID = mediaMsg.Media.ID)) }
        out := w.out ++ fanOut e (.media mediaMsg) "" room.Clients } := by
  simp only [handleMediaDelete, hR, hA, or_self, if_false, hmsg, hroom]
  generalize hs : deleteMediaFile e w mediaMsg.Media.ID = res at hdel ⊢
  obtain ⟨w1, b⟩ := res
  simp only at hdel
  subst hdel
  have h1 : w1.rooms = w.rooms := by
    have := deleteMediaFile_rooms e w mediaMsg.Media.ID
    rw [hs] at this; exact this
  have h2 : w1.out = w.out := by
    have := deleteMediaFile_out e w mediaMsg.Media.ID
    rw [hs] at this; exact this
  simp only [broadcastToRoom_eq, h1, h2]

/-! ## Well-formedness is an invariant -/

theorem generateClientID_ne_empty (now : Time) (r : Nat) : generateClientID now r ≠ "" := by
  intro h
  have := congrArg String.length h
  simp [generateClientID, String.length_append] at this
  exact absurd this.1.1.1 (by decide)

theorem ClientsWF.nil : ClientsWF [] := ⟨List.nodup_nil, by simp [keys]⟩

theorem ClientsWF.filter {m : List (String × Client)} (h : ClientsWF m)
    (f : String × Client → Bool) : ClientsWF (m.filter f) := by
  have hsub : List.Sublist (keys (m.filter f)) (keys m) :=
    List.Sublist.map _ (List.filter_sublist _)
  exact ⟨List.Nodup.sublist hsub h.1, fun hmem => h.2 (hsub.subset hmem)⟩

theorem ClientsWF.put {m : List (String × Client)} (h : ClientsWF m) {k : String}
    (hk : k ≠ "") (v : Client) : ClientsWF (put m k v) := by
  refine ⟨nodup_keys_put k v h.1, fun hmem => ?_⟩
  rcases (mem_keys_put m k v "").mp hmem with h1 | h1
  · exact hk h1.symm
  · exact h.2 h1

theorem WF.clients {w : World} (h : WF w) {R : String} {room : Room}
    (hroom : lookup w.rooms R = some room) : ClientsWF room.Clients :=
  h.2 _ (lookup_some_mem hroom)

theorem WF.of_rooms_eq {w w' : World} (h : WF w) (hr : w'.rooms = w.rooms) : WF w' := by
  unfold WF at h ⊢; rw [hr]; exact h

theorem WF.of_rooms_put {w w' : World} (h : WF w) (R : String) (room : Room)
    (hr : w'.rooms = put w.rooms R room) (hc : ClientsWF room.Clients) : WF w' := by
  unfold WF at h ⊢
  rw [hr]
  refine ⟨nodup_keys_put _ _ h.1, fun p hp => ?_⟩
  rcases mem_put hp with h1 | h1
  · rw [h1]; exact hc
  · exact h.2 p h1

theorem WF.of_rooms_erase {w w' : World} (h : WF w) {R : String}
    (hr : w'.rooms = erase w.rooms R) : WF w' := by
  unfold WF at h ⊢
  rw [hr]
  exact ⟨nodup_keys_erase _ h.1, fun p hp => h.2 p ((mem_erase _ _ _).mp hp).1⟩

theorem WF_emptyWorld : WF emptyWorld :=
  ⟨List.nodup_nil, fun p hp => by simp [emptyWorld] at hp⟩

theorem WF_leaveRoom (e : Env) (R s : String) {w : World} (h : WF w) :
    WF (leaveRoom e R s w) := by
  cases hroom : lookup w.rooms R with
  | none => rw [leaveRoom_of_absent_room hroom]; exact h
  | some room =>
    cases hclient : lookup room.Clients s with
    | none =>
      rw [leaveRoom_of_absent_client hroom hclient]
      split
      · exact h.of_rooms_erase (dropRoom_rooms _ _ _)
      · exact h
    | some client =>
      rw [leaveRoom_of_present hroom hclient]
      have h1 : WF { w with
          rooms := put w.rooms R { room with Clients := erase room.Clients s }
          out := w.out ++ fanOut e (userLeftMsg R client.User) "" (erase room.Clients s) } :=
        h.of_rooms_put R { room with Clients := erase room.Clients s } rfl
          ((h.clients hroom).erase s)
      split
      · exact h1.of_rooms_erase (dropRoom_rooms _ _ _)
      · exact h1

theorem WF_checkClientPings (e : Env) {w : World} (h : WF w) : WF (checkClientPings e w) := by
  rw [checkClientPings_eq]
  refine ⟨?_, ?_⟩
  · simp only
    rw [keys_map_val w.rooms
      (fun p => { p.2 with Clients := (disconnectedClients e p.2).foldl erase p.2.Clients })]
    exact h.1
  · intro p hp
    simp only [List.mem_map] at hp
    obtain ⟨q, hq, rfl⟩ := hp
    simp only [foldl_erase_eq_filter]
    exact (h.2 q hq).filter _

theorem WF_getOrCreate (e : Env) (code : String) {w : World} (h : WF w) :
    WF (getOrCreate e code w).1 ∧ ClientsWF (getOrCreate e code w).2.Clients := by
  cases hroom : lookup w.rooms code with
  | some room =>
    rw [getOrCreate_of_present hroom]
    exact ⟨h, h.clients hroom⟩
  | none =>
    have hc : (getOrCreate e code w).2.Clients = [] := by simp [getOrCreate, hroom]
    have hr : (getOrCreate e code w).1.rooms = put w.rooms code (getOrCreate e code w).2 := by
      simp [getOrCreate, hroom]
    rw [hc]
    exact ⟨h.of_rooms_put code _ hr (by rw [hc]; exact ClientsWF.nil), ClientsWF.nil⟩

theorem WF_handleJoinRoom (e : Env) (conn : Nat) (message : RawMessage) (currentRoom : String)
    {w : World} (h : WF w) : WF (handleJoinRoom e conn message currentRoom w).1 := by
  cases hmsg : message.joinRoom with
  | none => simp [handleJoinRoom, hmsg, h]
  | some joinMsg =>
    rw [handleJoinRoom_of_decoded hmsg]
    have h1 : WF (if currentRoom ≠ "" then leaveRoom e currentRoom "" w else w) := by
      split
      · exact WF_leaveRoom _ _ _ h
      · exact h
    obtain ⟨h2, h3⟩ := WF_getOrCreate e joinMsg.base.Code h1
    exact h2.of_rooms_put joinMsg.base.Code _ rfl
      (h3.put (generateClientID_ne_empty _ _) _)

theorem WF_handleTextUpdate (e : Env) (conn : Nat) (message : RawMessage) (R A : String)
    {w : World} (h : WF w) : WF (handleTextUpdate e conn message R A w) := by
  by_cases hg : R = "" ∨ A = ""
  · simp only [handleTextUpdate, hg, if_true]; exact h
  · cases hmsg : message.textUpdate with
    | none => simp only [handleTextUpdate, hg, if_false, hmsg]; exact h
    | some updateMsg =>
      cases hroom : lookup w.rooms R with
      | none => simp only [handleTextUpdate, hg, if_false, hmsg, hroom]; exact h
      | some room =>
        simp only [handleTextUpdate, hg, if_false, hmsg, hroom]
        exact h.of_rooms_put R { room with Content := updateMsg.Content } (by simp)
          (show ClientsWF room.Clients from h.clients hroom)

theorem WF_handlePing (e : Env) (conn : Nat) (message : RawMessage) (R A : String)
    {w : World} (h : WF w) : WF (handlePing e conn message R A w) := by
  by_cases hg : R = "" ∨ A = ""
  · simp only [handlePing, hg, if_true]; exact h
  · have hA : A ≠ "" := fun hA => hg (Or.inr hA)
    cases hroom : lookup w.rooms R with
    | none => simp only [handlePing, hg, if_false, hroom]; exact h
    | some room =>
      cases hclient : lookup room.Clients A with
      | none =>
        simp only [handlePing, hg, if_false, hroom, hclient]
        exact h.of_rooms_eq rfl
      | some client =>
        simp only [handlePing, hg, if_false, hroom, hclient]
        exact h.of_rooms_put R _ rfl ((h.clients hroom).put hA _)

theorem WF_handleCommentAdd (e : Env) (conn : Nat) (message : RawMessage) (R A : String)
    {w : World} (h : WF w) : WF (handleCommentAdd e conn message R A w) := by
  by_cases hg : R = "" ∨ A = ""
  · simp only [handleCommentAdd, hg, if_true]; exact h
  · have hR : R ≠ "" := fun hR => hg (Or.inl hR)
    have hA : A ≠ "" := fun hA => hg (Or.inr hA)
    cases hmsg : message.comment with
    | none => simp only [handleCommentAdd, hg, if_false, hmsg]; exact h
    | some commentMsg =>
      cases hroom : lookup w.rooms R with
      | none => simp only [handleCommentAdd, hg, if_false, hmsg, hroom]; exact h
      | some room =>
        cases hsave : (saveComment e w R (stampComment e room A commentMsg.Comment)).2 with
        | true =>
          rw [handleCommentAdd_of_err hR hA hroom hmsg hsave]
          exact h.of_rooms_eq (saveComment_rooms _ _ _ _)
        | false =>
          rw [handleCommentAdd_of_ok hR hA hroom hmsg hsave]
          exact h.of_rooms_put R _ rfl (show ClientsWF room.Clients from h.clients hroom)

theorem WF_handleCommentDelete (e : Env) (conn : Nat) (message : RawMessage) (R A : String)
    {w : World} (h : WF w) : WF (handleCommentDelete e conn message R A w) := by
  by_cases hg : R = "" ∨ A = ""
  · simp only [handleCommentDelete, hg, if_true]; exact h
  · have hR : R ≠ "" := fun hR => hg (Or.inl hR)
    have hA : A ≠ "" := fun hA => hg (Or.inr hA)
    cases hmsg : message.comment with
    | none => simp only [handleCommentDelete, hg, if_false, hmsg]; exact h
    | some commentMsg =>
      cases hroom : lookup w.rooms R with
      | none => simp only [handleCommentDelete, hg, if_false, hmsg, hroom]; exact h
      | some room =>
        cases hdel : (deleteComment e w commentMsg.Comment.ID).2 with
        | true =>
          rw [handleCommentDelete_of_err hR hA hroom hmsg hdel]
          exact h.of_rooms_eq (deleteComment_rooms _ _ _)
        | false =>
          rw [handleCommentDelete_of_ok hR hA hroom hmsg hdel]
          exact h.of_rooms_put R _ rfl (show ClientsWF room.Clients from h.clients hroom)

theorem WF_handleUserActivity (e : Env) (conn : Nat) (message : RawMessage) (R A : String)
    {w : World} (h : WF w) : WF (handleUserActivity e conn message R A w) := by
  by_cases hg : R = "" ∨ A = ""
  · simp only [handleUserActivity, hg, if_true]; exact h
  · have hA : A ≠ "" := fun hA => hg (Or.inr hA)
    cases hmsg : message.userActivity with
    | none => simp only [handleUserActivity, hg, if_false, hmsg]; exact h
    | some activityMsg =>
      cases hroom : lookup w.rooms R with
      | none => simp only [handleUserActivity, hg, if_false, hmsg, hroom]; exact h
      | some room =>
        cases hclient : lookup room.Clients A with
        | none =>
          simp only [handleUserActivity, hg, if_false, hmsg, hroom, hclient]
          exact h.of_rooms_put R _ rfl (show ClientsWF room.Clients from h.clients hroom)
        | some client =>
          simp only [handleUserActivity, hg, if_false, hmsg, hroom, hclient]
          exact h.of_rooms_put R _ rfl ((h.clients hroom).put hA _)

theorem WF_handleMediaUpload (e : Env) (conn : Nat) (message : RawMessage) (R A : String)
    {w : World} (h : WF w) : WF (handleMediaUpload e conn message R A w) := by
  by_cases hg : R = "" ∨ A = ""
  · simp only [handleMediaUpload, hg, if_true]; exact h
  · have hR : R ≠ "" := fun hR => hg (Or.inl hR)
    have hA : A ≠ "" := fun hA => hg (Or.inr hA)
    cases hmsg : message.media with
    | none => simp only [handleMediaUpload, hg, if_false, hmsg]; exact h
    | some mediaMsg =>
      cases hroom : lookup w.rooms R with
      | none => simp only [handleMediaUpload, hg, if_false, hmsg, hroom]; exact h
      | some room =>
        cases hsave : (saveMediaFile e w R (stampMedia e room A mediaMsg.Media)).2 with
        | true =>
          rw [handleMediaUpload_of_err hR hA hroom hmsg hsave]
          exact h.of_rooms_eq (saveMediaFile_rooms _ _ _ _)
        | false =>
          rw [handleMediaUpload_of_ok hR hA hroom hmsg hsave]
          exact h.of_rooms_put R _ rfl (show ClientsWF room.Clients from h.clients hroom)

theorem WF_handleMediaDelete (e : Env) (conn : Nat) (message : RawMessage) (R A : String)
    {w : World} (h : WF w) : WF (handleMediaDelete e conn message R A w) := by
  by_cases hg : R = "" ∨ A = ""
  · simp only [handleMediaDelete, hg, if_true]; exact h
  · have hR : R ≠ "" := fun hR => hg (Or.inl hR)
    have hA : A ≠ "" := fun hA => hg (Or.inr hA)
    cases hmsg : message.media with
    | none => simp only [handleMediaDelete, hg, if_false, hmsg]; exact h
    | some mediaMsg =>
      cases hroom : lookup w.rooms R with
      | none => simp only [handleMediaDelete, hg, if_false, hmsg, hroom]; exact h
      | some room =>
        cases hdel : (deleteMediaFile e w mediaMsg.Media.ID).2 with
        | true =>
          rw [handleMediaDelete_of_err hR hA hroom hmsg hdel]
          exact h.of_rooms_eq (deleteMediaFile_rooms _ _ _)
        | false =>
          rw [handleMediaDelete_of_ok hR hA hroom hmsg hdel]
          exact h.of_rooms_put R _ rfl (show ClientsWF room.Clients from h.clients hroom)

theorem WF_handleFrame (e : Env) (conn : Nat) (st : ConnState) (f : Frame) {w : World}
    (h : WF w) : WF (handleFrame e conn st w f).2.1 := by
  cases f with
  | readError =>
    simp only [handleFrame, handleClientDisconnection]
    split
    · exact (WF_leaveRoom e _ _ h).of_rooms_eq rfl
    · exact h.of_rooms_eq rfl
  | nonText => exact h
  | text message =>
    simp only [handleFrame]
    split
    · exact h
    · split
      · exact WF_handleJoinRoom e conn message st.currentRoom h
      · split
        · exact WF_handleTextUpdate e conn message _ _ h
        · split
          · exact WF_handlePing e conn message _ _ h
          · split
            · exact WF_handleCommentAdd e conn message _ _ h
            · split
              · exact h
              · split
                · exact WF_handleCommentDelete e conn message _ _ h
                · split
                  · exact WF_handleUserActivity e conn message _ _ h
                  · split
                    · exact WF_handleMediaUpload e conn message _ _ h
                    · split
                      · exact WF_handleMediaDelete e conn message _ _ h
                      · exact h

theorem WF_handleWebSocketFrom (conn : Nat) (frames : List (Env × Frame)) (st : ConnState)
    {w : World} (h : WF w) : WF (handleWebSocketFrom conn frames st w).2.1 := by
  induction frames generalizing st w with
  | nil => exact h
  | cons ef rest ih =>
    obtain ⟨e, f⟩ := ef
    have hstep := WF_handleFrame e conn st f h
    simp only [handleWebSocketFrom]
    generalize handleFrame e conn st w f = res at hstep ⊢
    obtain ⟨st1, w1, b⟩ := res
    cases b with
    | true => exact ih st1 hstep
    | false => exact hstep

/-- Every state a connection's read loop reaches from a well-formed state is
well-formed; in particular from the start state. -/
theorem WF_handleWebSocket (conn : Nat) (frames : List (Env × Frame)) {w : World} (h : WF w) :
    WF (handleWebSocket conn frames w).2.1 :=
  WF_handleWebSocketFrom conn frames _ h

/-! ## Frames that are dropped -/

/-- What the read loop does with a text frame that is malformed or of unknown
type: when the envelope does not decode, when the type is none of the nine
handled ones, and when the payload of a text-update, comment-add,
comment-delete, user-activity, media-upload or media-delete does not decode,
the loop variables and the world are unchanged and the loop goes on. When the
payload of a join-room does not decode the same holds except that the client
id is set to the empty string. -/
theorem handleFrame_malformed (e : Env) (conn : Nat) (st : ConnState) (w : World)
    (message : RawMessage) :
    (message.base = none → handleFrame e conn st w (.text message) = (st, w, true)) ∧
    (∀ b, message.base = some b →
      b.Type_ ∉ [JoinRoom, TextUpdate, Ping, CommentAdd, CommentUpdate, CommentDelete,
        UserActivity, MediaUpload, MediaDelete] →
      handleFrame e conn st w (.text message) = (st, w, true)) ∧
    (∀ b, message.base = some b → b.Type_ = TextUpdate → message.textUpdate = none →
      handleFrame e conn st w (.text message) = (st, w, true)) ∧
    (∀ b, message.base = some b → b.Type_ = CommentAdd ∨ b.Type_ = CommentDelete →
      message.comment = none → handleFrame e conn st w (.text message) = (st, w, true)) ∧
    (∀ b, message.base = some b → b.Type_ = UserActivity → message.userActivity = none →
      handleFrame e conn st w (.text message) = (st, w, true)) ∧
    (∀ b, message.base = some b → b.Type_ = MediaUpload ∨ b.Type_ = MediaDelete →
      message.media = none → handleFrame e conn st w (.text message) = (st, w, true)) ∧
    (∀ b, message.base = some b → b.Type_ = JoinRoom → message.joinRoom = none →
      handleFrame e conn st w (.text message) =
        ({ currentRoom := st.currentRoom, clientID := "" }, w, true)) := by
  refine ⟨?_, ?_, ?_, ?_, ?_, ?_, ?_⟩
  · intro hb; simp [handleFrame, hb]
  · intro b hb ht
    simp only [List.mem_cons, List.mem_singleton, List.not_mem_nil, or_false, not_or] at ht
    obtain ⟨h1, h2, h3, h4, h5, h6, h7, h8, h9⟩ := ht
    simp [handleFrame, hb, h1, h2, h3, h4, h5, h6, h7, h8, h9]
  · intro b hb ht hm
    have : TextUpdate ≠ JoinRoom := by decide
    simp [handleFrame, hb, ht, this, handleTextUpdate, hm]
  · intro b hb ht hm
    rcases ht with ht | ht
    · have h1 : CommentAdd ≠ JoinRoom := by decide
      have h2 : CommentAdd ≠ TextUpdate := by decide
      have h3 : CommentAdd ≠ Ping := by decide
      simp [handleFrame, hb, ht, h1, h2, h3, handleCommentAdd, hm]
    · have h1 : CommentDelete ≠ JoinRoom := by decide
      have h2 : CommentDelete ≠ TextUpdate := by decide
      have h3 : CommentDelete ≠ Ping := by decide
      have h4 : CommentDelete ≠ CommentAdd := by decide
      have h5 : CommentDelete ≠ CommentUpdate := by decide
      simp [handleFrame, hb, ht, h1, h2, h3, h4, h5, handleCommentDelete, hm]
  · intro b hb ht hm
    have h1 : UserActivity ≠ JoinRoom := by decide
    have h2 : UserActivity ≠ TextUpdate := by decide
    have h3 : UserActivity ≠ Ping := by decide
    have h4 : UserActivity ≠ CommentAdd := by decide
    have h5 : UserActivity ≠ CommentUpdate := by decide
    have h6 : UserActivity ≠ CommentDelete := by decide
    simp [handleFrame, hb, ht, h1, h2, h3, h4, h5, h6, handleUserActivity, hm]
  · intro b hb ht hm
    rcases ht with ht | ht
    · have h1 : MediaUpload ≠ JoinRoom := by decide
      have h2 : MediaUpload ≠ TextUpdate := by decide
      have h3 : MediaUpload ≠ Ping := by decide
      have h4 : MediaUpload ≠ CommentAdd := by decide
      have h5 : MediaUpload ≠ CommentUpdate := by decide
      have h6 : MediaUpload ≠ CommentDelete := by decide
      have h7 : MediaUpload ≠ UserActivity := by decide
      simp [handleFrame, hb, ht, h1, h2, h3, h4, h5, h6, h7, handleMediaUpload, hm]
    · have h1 : MediaDelete ≠ JoinRoom := by decide
      have h2 : MediaDelete ≠ TextUpdate := by decide
      have h3 : MediaDelete ≠ Ping := by decide
      have h4 : MediaDelete ≠ CommentAdd := by decide
      have h5 : MediaDelete ≠ CommentUpdate := by decide
      have h6 : MediaDelete ≠ CommentDelete := by decide
      have h7 : MediaDelete ≠ UserActivity := by decide
      have h8 : MediaDelete ≠ MediaUpload := by decide
      simp [handleFrame, hb, ht, h1, h2, h3, h4, h5, h6, h7, h8, handleMediaDelete, hm]
  · intro b hb ht hm
    simp [handleFrame, hb, ht, handleJoinRoom, hm]

/-! ## The broadcast engine on its own -/

theorem countP_key_of_nodup {m : List (String × Client)} (hnd : (keys m).Nodup) (k : String) :
    m.countP (fun p => decide (p.1 = k)) = if k ∈ keys m then 1 else 0 := by
  by_cases hk : k ∈ keys m
  · rw [if_pos hk]
    cases hl : lookup m k with
    | none => exact absurd hk ((lookup_eq_none_iff m k).mp hl)
    | some v => exact countP_key_eq_one hnd hl
  · rw [if_neg hk]
    simp only [List.countP_eq_zero, decide_eq_true_eq]
    intro p hp hpk
    exact hk (List.mem_map.mpr ⟨p, hp, hpk⟩)

theorem countP_sid_fanOut (e : Env) (message : Message) (ex id : String)
    (m : List (String × Client)) :
    (fanOut e message ex m).countP (fun s => decide (s.sid = id)) =
      (erase m ex).countP (fun p => decide (p.1 = id)) := by
  induction m with
  | nil => rfl
  | cons q rest ih =>
    obtain ⟨a, b⟩ := q
    by_cases ha : a = ex
    · subst ha
      rw [fanOut_cons_excluded, ih]
      simp [erase]
    · rw [fanOut_cons_of_ne e message b rest ha]
      simp only [erase, ha, if_false, List.countP_cons, ih]

theorem fanOut_attempts_eq (e e' : Env) (message : Message) (ex : String)
    (m : List (String × Client)) :
    (fanOut e message ex m).map (fun s => (s.sid, s.Conn, s.msg)) =
      (fanOut e' message ex m).map (fun s => (s.sid, s.Conn, s.msg)) := by
  simp [fanOut, List.map_map, Function.comp_def]

/-- C11. `broadcastToRoom` on a room, a message and an exclude id, whatever
writes fail: the writes appended are one per entry of the client map whose key
differs from the exclude id, in map order, each carrying the message on the
transport of its entry with the failure flag of that write; so a session id
gets exactly one write when it is a key of the map other than the exclude id
and none otherwise, in particular none for the excluded id, and with the empty
exclude id every session of a map without the empty key gets one. The writes
attempted (session, transport, message) are the same under any two patterns of
write failures. The function returns the writes only: the room it is given,
client map included, is not among its outputs. -/
theorem broadcastToRoom_one_attempt_each (e : Env) (room : Room) (message : Message)
    (ex : String) (out : List Send) (hnd : (keys room.Clients).Nodup) :
    broadcastToRoom e room message ex out = out ++ fanOut e message ex room.Clients ∧
      (∀ id, (fanOut e message ex room.Clients).countP (fun s => decide (s.sid = id)) =
        if id ∈ keys room.Clients ∧ id ≠ ex then 1 else 0) ∧
      (fanOut e message ex room.Clients).countP (fun s => decide (s.sid = ex)) = 0 ∧
      (fanOut e message ex room.Clients).map Send.sid = keys (erase room.Clients ex) ∧
      (ex = "" → "" ∉ keys room.Clients →
        (fanOut e message ex room.Clients).map Send.sid = keys room.Clients) ∧
      (∀ s ∈ fanOut e message ex room.Clients, s.msg = message ∧
        ∃ c, (s.sid, c) ∈ room.Clients ∧ s.Conn = c.Conn ∧
          s.failed = e.writeErr c.Conn message) ∧
      (∀ e' : Env, (broadcastToRoom e' room message ex out).map
          (fun s => (s.sid, s.Conn, s.msg)) =
        (broadcastToRoom e room message ex out).map (fun s => (s.sid, s.Conn, s.msg))) := by
  have hcount : ∀ id, (fanOut e message ex room.Clients).countP
      (fun s => decide (s.sid = id)) =
        if id ∈ keys room.Clients ∧ id ≠ ex then 1 else 0 := by
    intro id
    rw [countP_sid_fanOut, countP_key_of_nodup (nodup_keys_erase ex hnd)]
    simp only [mem_keys_erase]
  refine ⟨broadcastToRoom_eq _ _ _ _ _, hcount, ?_, fanOut_sids _ _ _ _, ?_, ?_, ?_⟩
  · rw [hcount ex]; simp
  · intro hex hno
    rw [fanOut_sids, hex, erase_of_not_mem hno]
  · intro s hs
    obtain ⟨p, hp, _, rfl⟩ := (mem_fanOut _ _ _ _ _).mp hs
    exact ⟨rfl, p.2, hp, rfl, rfl⟩
  · intro e'
    rw [broadcastToRoom_eq, broadcastToRoom_eq, List.map_append, List.map_append,
      fanOut_attempts_eq e' e]

theorem broadcastToRoom_one_attempt_each_witness :
    (keys exRoom.Clients).Nodup ∧
      broadcastToRoom (exEnv 5) exRoom (.textUpdate exTextUpdate) "a" [] =
        [mkSend (exEnv 5) "b" 2 (.textUpdate exTextUpdate)] ∧
      (broadcastToRoom { exEnv 5 with writeErr := fun _ _ => true } exRoom
          (.textUpdate exTextUpdate) "" []).map (fun s => (s.sid, s.failed)) =
        [("a", true), ("b", true)] :=
  ⟨by decide,
    (broadcastToRoom_one_attempt_each (exEnv 5) exRoom (.textUpdate exTextUpdate) "a" []
      (by decide)).1,
    by decide⟩

/-! ## Comment delete -/

theorem filter_eraseP_of_not {α : Type} (l : List α) (p q : α → Bool)
    (h : ∀ a, p a = true → q a = false) : (l.eraseP p).filter q = l.filter q := by
  induction l with
  | nil => rfl
  | cons a rest ih =>
    by_cases hp : p a = true
    · simp [List.eraseP_cons, hp, List.filter_cons, h a hp]
    · have hp' : p a = false := by simpa using hp
      simp only [List.eraseP_cons, hp', cond_false, List.filter_cons, ih]

theorem eraseP_eq_filter_of_nodup (l : List Comment) (i : String)
    (hnd : (l.map Comment.ID).Nodup) :
    l.eraseP (fun c => decide (c.ID = i)) = l.filter (fun c => decide (c.ID ≠ i)) := by
  induction l with
  | nil => rfl
  | cons a rest ih =>
    simp only [List.map_cons, List.nodup_cons] at hnd
    by_cases ha : a.ID = i
    · have hrest : rest.filter (fun c => decide (c.ID ≠ i)) = rest := by
        rw [List.filter_eq_self]
        intro c hc
        simp only [ne_eq, decide_not, Bool.not_eq_eq_eq_not, Bool.not_true, decide_eq_false_iff_not]
        intro hci
        exact hnd.1 (List.mem_map.mpr ⟨c, hc, by rw [hci, ha]⟩)
      have h1 : decide (a.ID = i) = true := by simpa using ha
      have h2 : decide (a.ID ≠ i) = false := by simpa using ha
      simp only [List.eraseP_cons, h1, cond_true, List.filter_cons, h2, Bool.false_eq_true,
        if_false, hrest]
    · have h1 : decide (a.ID = i) = false := by simpa using ha
      have h2 : decide (a.ID ≠ i) = true := by simpa using ha
      simp only [List.eraseP_cons, h1, cond_false, List.filter_cons, h2, if_true, ih hnd.2]

theorem handleFrame_commentDelete (e : Env) (conn : Nat) (st : ConnState) (w : World)
    (message : RawMessage) (b : BaseMessage) (hb : message.base = some b)
    (ht : b.Type_ = CommentDelete) :
    handleFrame e conn st w (.text message) =
      (st, handleCommentDelete e conn message st.currentRoom st.clientID w, true) := by
  have h1 : CommentDelete ≠ JoinRoom := by decide
  have h2 : CommentDelete ≠ TextUpdate := by decide
  have h3 : CommentDelete ≠ Ping := by decide
  have h4 : CommentDelete ≠ CommentAdd := by decide
  have h5 : CommentDelete ≠ CommentUpdate := by decide
  simp [handleFrame, hb, ht, h1, h2, h3, h4, h5]

theorem deleteComment_db_of_ok {e : Env} {w : World} {c : String}
    (h : (deleteComment e w c).2 = false) :
    (deleteComment e w c).1.db =
      { w.db with comments := w.db.comments.filter (fun r => decide (r.2.ID ≠ c)) } := by
  unfold deleteComment called at h ⊢; dsimp only at h ⊢
  split at h
  · simp at h
  · rename_i hc; simp only [hc]; rfl

/-- C15. A well-formed comment-delete carrying the comment id `i`, handled
for a joined session of room `R`, whose durable delete succeeds: the room keeps
content, client map, media files and creation time, and its comments become the
old list with the first comment of id `i` erased. So every comment with a
different id stays, in the same relative order; when the comment ids of the
room are pairwise distinct, no comment with id `i` is left; when no comment of
the room has id `i`, the list (and the room) is unchanged. No transport is
closed, the read loop keeps its loop variables and goes on, and the delete
message is written for every session of the room. -/
theorem handleCommentDelete_erases_by_id (e : Env) (conn : Nat) (message : RawMessage)
    (R A : String) (w : World) (room : Room) (client : Client) (commentMsg : CommentMessage)
    (hj : Joined w R A room client) (hmsg : message.comment = some commentMsg)
    (hdel : (deleteComment e w commentMsg.Comment.ID).2 = false) :
    lookup (handleCommentDelete e conn message R A w).rooms R =
        some { room with Comments :=
          room.Comments.eraseP (fun c => decide (c.ID = commentMsg.Comment.ID)) } ∧
      (room.Comments.eraseP (fun c => decide (c.ID = commentMsg.Comment.ID))).filter
          (fun c => decide (c.ID ≠ commentMsg.Comment.ID)) =
        room.Comments.filter (fun c => decide (c.ID ≠ commentMsg.Comment.ID)) ∧
      ((room.Comments.map Comment.ID).Nodup →
        room.Comments.eraseP (fun c => decide (c.ID = commentMsg.Comment.ID)) =
            room.Comments.filter (fun c => decide (c.ID ≠ commentMsg.Comment.ID)) ∧
          ∀ c ∈ room.Comments.eraseP (fun c => decide (c.ID = commentMsg.Comment.ID)),
            c.ID ≠ commentMsg.Comment.ID) ∧
      ((∀ c ∈ room.Comments, c.ID ≠ commentMsg.Comment.ID) →
        room.Comments.eraseP (fun c => decide (c.ID = commentMsg.Comment.ID)) = room.Comments ∧
          lookup (handleCommentDelete e conn message R A w).rooms R = some room) ∧
      (handleCommentDelete e conn message R A w).closed = w.closed ∧
      (∀ b, message.base = some b → b.Type_ = CommentDelete →
        handleFrame e conn { currentRoom := R, clientID := A } w (.text message) =
          ({ currentRoom := R, clientID := A },
            handleCommentDelete e conn message R A w, true)) ∧
      (handleCommentDelete e conn message R A w).db =
        { w.db with comments :=
            w.db.comments.filter (fun r => decide (r.2.ID ≠ commentMsg.Comment.ID)) } ∧
      (handleCommentDelete e conn message R A w).out =
        w.out ++ fanOut e (.comment commentMsg) "" room.Clients := by
  obtain ⟨hR, hA, hroom, hclient⟩ := hj
  have hfilter := filter_eraseP_of_not room.Comments
    (fun c => decide (c.ID = commentMsg.Comment.ID))
    (fun c => decide (c.ID ≠ commentMsg.Comment.ID)) (by intro a ha; simpa using ha)
  have hnoop : (∀ c ∈ room.Comments, c.ID ≠ commentMsg.Comment.ID) →
      room.Comments.eraseP (fun c => decide (c.ID = commentMsg.Comment.ID)) = room.Comments := by
    intro hno
    apply List.eraseP_of_forall_not
    intro c hc
    simpa using hno c hc
  refine ⟨?_, hfilter, ?_, ?_, ?_, ?_, ?_, ?_⟩
  · rw [handleCommentDelete_of_ok hR hA hroom hmsg hdel]
    exact lookup_put_self _ _ _
  · intro hnd
    have heq := eraseP_eq_filter_of_nodup room.Comments commentMsg.Comment.ID hnd
    refine ⟨heq, ?_⟩
    intro c hc
    rw [heq] at hc
    simpa using (List.mem_filter.mp hc).2
  · intro hno
    refine ⟨hnoop hno, ?_⟩
    rw [handleCommentDelete_of_ok hR hA hroom hmsg hdel]
    simp only
    rw [lookup_put_self, hnoop hno]
  · rw [handleCommentDelete_of_ok hR hA hroom hmsg hdel]
    exact deleteComment_closed _ _ _
  · intro b hb ht
    exact handleFrame_commentDelete e conn _ w message b hb ht
  · rw [handleCommentDelete_of_ok hR hA hroom hmsg hdel]
    exact deleteComment_db_of_ok hdel
  · rw [handleCommentDelete_of_ok hR hA hroom hmsg hdel]

theorem handleCommentDelete_erases_by_id_witness :
    Joined exWorld "R" "a" exRoom { Conn := 1, User := exUser "ua" "Ann", LastPing := 0 } ∧
      (deleteComment (exEnv 5) exWorld "nope").2 = false ∧
      lookup (handleCommentDelete (exEnv 5) 1
          { exRaw with comment := some { exCommentMsg with Comment := exComment "nope" } }
          "R" "a" exWorld).rooms "R" = some exRoom ∧
      lookup (handleCommentDelete (exEnv 5) 1
          { exRaw with comment := some { exCommentMsg with Comment := exComment "c1" } }
          "R" "a" exWorld).rooms "R" = some { exRoom with Comments := [] } :=
  have hj : Joined exWorld "R" "a" exRoom
      { Conn := 1, User := exUser "ua" "Ann", LastPing := 0 } :=
    ⟨by decide, by decide, by decide, by decide⟩
  ⟨hj, by decide,
    ((handleCommentDelete_erases_by_id (exEnv 5) 1
      { exRaw with comment := some { exCommentMsg with Comment := exComment "nope" } }
      "R" "a" exWorld exRoom _ { exCommentMsg with Comment := exComment "nope" } hj rfl
      (by decide)).2.2.2.1 (by decide)).2,
    (handleCommentDelete_erases_by_id (exEnv 5) 1
      { exRaw with comment := some { exCommentMsg with Comment := exComment "c1" } }
      "R" "a" exWorld exRoom _ { exCommentMsg with Comment := exComment "c1" } hj rfl
      (by decide)).1⟩

/-! ## User activity -/

theorem erase_put_self {α : Type} (m : List (String × α)) (k : String) (v : α) :
    erase (put m k v) k = erase m k := by
  induction m with
  | nil => simp [put, erase]
  | cons q rest ih =>
    obtain ⟨a, b⟩ := q
    by_cases ha : a = k
    · subst ha; simp [put, erase]
    · simp [put, erase, ha, ih]

theorem fanOut_eq_of_erase (e : Env) (message : Message) (ex : String)
    (m : List (String × Client)) : fanOut e message ex m = fanOut e message ex (erase m ex) := by
  induction m with
  | nil => rfl
  | cons q rest ih =>
    obtain ⟨a, b⟩ := q
    by_cases ha : a = ex
    · subst ha
      rw [fanOut_cons_excluded, ih]
      simp [erase]
    · rw [fanOut_cons_of_ne e message b rest ha]
      simp only [erase, ha, if_false]
      rw [fanOut_cons_of_ne e message b _ ha, ← ih]

theorem fanOut_put_excluded (e : Env) (message : Message) (ex : String)
    (m : List (String × Client)) (v : Client) :
    fanOut e message ex (put m ex v) = fanOut e message ex m := by
  rw [fanOut_eq_of_erase e message ex (put m ex v), erase_put_self, ← fanOut_eq_of_erase]

theorem handleUserActivity_of_joined {e : Env} {conn : Nat} {message : RawMessage}
    {R A : String} {w : World} {room : Room} {client : Client}
    {activityMsg : UserActivityMessage}
    (hj : Joined w R A room client) (hmsg : message.userActivity = some activityMsg) :
    handleUserActivity e conn message R A w =
      { w with
        rooms := put w.rooms R
          { room with Clients := put room.Clients A (withActivity e client activityMsg) }
        out := w.out ++ fanOut e (.userActivity activityMsg) A room.Clients } := by
  obtain ⟨hR, hA, hroom, hclient⟩ := hj
  simp only [handleUserActivity, hR, hA, or_self, if_false, hmsg, hroom, hclient,
    broadcastToRoom_eq, fanOut_put_excluded, withActivity]

theorem getRoomContent_result_congr (e : Env) (w w' : World) (code : String)
    (h : w'.db = w.db) : (getRoomContent e w' code).2 = (getRoomContent e w code).2 := by
  unfold getRoomContent called; dsimp only; rw [h]
  split
  · rfl
  · split <;> rfl

theorem getRoomComments_result_congr (e : Env) (w w' : World) (code : String)
    (h : w'.db = w.db) : (getRoomComments e w' code).2 = (getRoomComments e w code).2 := by
  unfold getRoomComments called; dsimp only; rw [h]
  split <;> rfl

theorem getRoomMedia_result_congr (e : Env) (w w' : World) (code : String)
    (h : w'.db = w.db) : (getRoomMedia e w' code).2 = (getRoomMedia e w code).2 := by
  unfold getRoomMedia called; dsimp only; rw [h]
  split <;> rfl

theorem getOrCreate_of_absent {e : Env} {code : String} {w : World}
    (h : lookup w.rooms code = none) :
    (getOrCreate e code w).2 = hydrated e code w ∧
      (getOrCreate e code w).1.rooms = put w.rooms code (hydrated e code w) ∧
      (getOrCreate e code w).1.calls =
        w.calls ++ [.getRoomContent code, .getRoomComments code, .getRoomMedia code] ∧
      (getOrCreate e code w).1.db = w.db ∧
      (getOrCreate e code w).1.out = w.out ∧
      (getOrCreate e code w).1.closed = w.closed := by
  have h1 := getRoomComments_result_congr e w (getRoomContent e w code).1 code (by simp)
  have h2 := getRoomMedia_result_congr e w
    (getRoomComments e (getRoomContent e w code).1 code).1 code (by simp)
  have hroom : (getOrCreate e code w).2 = hydrated e code w := by
    simp only [getOrCreate, h, hydrated]
    rw [show (getRoomComments e (getRoomContent e w code).1 code).2.1
          = (getRoomComments e w code).2.1 from congrArg Prod.fst h1,
      show (getRoomMedia e (getRoomComments e (getRoomContent e w code).1 code).1 code).2.1
          = (getRoomMedia e w code).2.1 from congrArg Prod.fst h2]
  refine ⟨hroom, ?_, ?_, ?_, ?_, ?_⟩
  · have : (getOrCreate e code w).1.rooms = put w.rooms code (getOrCreate e code w).2 := by
      simp [getOrCreate, h]
    rw [this, hroom]
  · simp [getOrCreate, h]
  · simp [getOrCreate, h]
  · simp [getOrCreate, h]
  · simp [getOrCreate, h]

theorem leaveRoom_lookup_of_ne (e : Env) {R R' : String} (s : String) (w : World)
    (hne : R' ≠ R) : lookup (leaveRoom e R s w).rooms R' = lookup w.rooms R' := by
  cases hroom : lookup w.rooms R with
  | none => rw [leaveRoom_of_absent_room hroom]
  | some room =>
    cases hclient : lookup room.Clients s with
    | none =>
      rw [leaveRoom_of_absent_client hroom hclient]
      split
      · rw [dropRoom_rooms, lookup_erase_of_ne _ hne]
      · rfl
    | some client =>
      rw [leaveRoom_of_present hroom hclient]
      split
      · rw [dropRoom_rooms]
        simp only
        rw [lookup_erase_of_ne _ hne, lookup_put_of_ne _ _ hne]
      · simp only
        rw [lookup_put_of_ne _ _ hne]

theorem leaveRoom_calls (e : Env) (R s : String) (w : World) :
    (leaveRoom e R s w).calls = w.calls ∨
      (leaveRoom e R s w).calls =
        w.calls ++ [.deleteRoomContent R, .deleteRoomComments R, .deleteRoomMedia R] := by
  cases hroom : lookup w.rooms R with
  | none => rw [leaveRoom_of_absent_room hroom]; exact Or.inl rfl
  | some room =>
    cases hclient : lookup room.Clients s with
    | none =>
      rw [leaveRoom_of_absent_client hroom hclient]
      split
      · exact Or.inr (dropRoom_calls _ _ _)
      · exact Or.inl rfl
    | some client =>
      rw [leaveRoom_of_present hroom hclient]
      split
      · exact Or.inr (dropRoom_calls _ _ _)
      · exact Or.inl rfl

theorem afterImplicitLeave_reads (e : Env) (cur : String) (w : World) :
    ∃ L, (afterImplicitLeave e cur w).calls = w.calls ++ L ∧ L.filter isRead = [] := by
  unfold afterImplicitLeave
  split
  · rcases leaveRoom_calls e cur "" w with h | h
    · exact ⟨[], by rw [h, List.append_nil], rfl⟩
    · exact ⟨_, h, rfl⟩
  · exact ⟨[], by rw [List.append_nil], rfl⟩

theorem afterImplicitLeave_lookup_of_absent (e : Env) (cur : String) {code : String}
    {w : World} (h : lookup w.rooms code = none) :
    lookup (afterImplicitLeave e cur w).rooms code = none := by
  unfold afterImplicitLeave
  split
  · by_cases hc : code = cur
    · subst hc; rw [leaveRoom_of_absent_room h]; exact h
    · rw [leaveRoom_lookup_of_ne e "" w hc]; exact h
  · exact h

theorem afterImplicitLeave_lookup_of_occupied (e : Env) (cur : String) {code : String}
    {w : World} {room : Room} (h : lookup w.rooms code = some room)
    (hne : room.Clients ≠ []) (hno : lookup room.Clients "" = none) :
    lookup (afterImplicitLeave e cur w).rooms code = some room := by
  unfold afterImplicitLeave
  split
  · by_cases hc : code = cur
    · subst hc
      rw [leaveRoom_of_absent_client h hno, if_neg (fun hh => hne hh.1)]
      exact h
    · rw [leaveRoom_lookup_of_ne e "" w hc]; exact h
  · exact h

theorem handleJoinRoom_eq (e : Env) (conn : Nat) {message : RawMessage}
    (currentRoom : String) (w : World) {joinMsg : JoinRoomMessage}
    (hmsg : message.joinRoom = some joinMsg) :
    (handleJoinRoom e conn message currentRoom w).1.rooms =
        put (getOrCreate e joinMsg.base.Code (afterImplicitLeave e currentRoom w)).1.rooms
          joinMsg.base.Code
          { (getOrCreate e joinMsg.base.Code (afterImplicitLeave e currentRoom w)).2 with
            Clients := put
              (getOrCreate e joinMsg.base.Code (afterImplicitLeave e currentRoom w)).2.Clients
              (generateClientID e.now (e.rand 0))
              ⟨conn, joinUser e (generateClientID e.now (e.rand 0)) joinMsg.User, e.now⟩ } ∧
      (handleJoinRoom e conn message currentRoom w).1.calls =
        (getOrCreate e joinMsg.base.Code (afterImplicitLeave e currentRoom w)).1.calls ∧
      (handleJoinRoom e conn message currentRoom w).1.db =
        (getOrCreate e joinMsg.base.Code (afterImplicitLeave e currentRoom w)).1.db ∧
      (handleJoinRoom e conn message currentRoom w).1.closed =
        (getOrCreate e joinMsg.base.Code (afterImplicitLeave e currentRoom w)).1.closed := by
  rw [handleJoinRoom_of_decoded hmsg]
  exact ⟨rfl, rfl, rfl, rfl⟩

/-- C14. The registry of a well-formed state holds no room for `code`. Two
well-formed join-rooms for `code` are handled one after the other (whichever
connection comes first plays the part of index 1), each from any current room;
the two generated client ids differ. Then the first join makes the three
gateway reads for the code, once each, and inserts the hydrated room with its
own session as only client; the second join finds that room, makes no gateway
read and keeps the room's content, comments, media files and creation time,
adding its session; afterwards the registry has exactly one entry for `code`,
and its client map holds both sessions. -/
theorem two_first_joins_share_one_room (e1 e2 : Env) (conn1 conn2 : Nat)
    (m1 m2 : RawMessage) (cur1 cur2 code : String) (w : World) (j1 j2 : JoinRoomMessage)
    (hwf : WF w) (habs : lookup w.rooms code = none)
    (hm1 : m1.joinRoom = some j1) (hc1 : j1.base.Code = code)
    (hm2 : m2.joinRoom = some j2) (hc2 : j2.base.Code = code)
    (hid : generateClientID e1.now (e1.rand 0) ≠ generateClientID e2.now (e2.rand 0)) :
    let id1 := generateClientID e1.now (e1.rand 0)
    let id2 := generateClientID e2.now (e2.rand 0)
    let c1 : Client := ⟨conn1, joinUser e1 id1 j1.User, e1.now⟩
    let c2 : Client := ⟨conn2, joinUser e2 id2 j2.User, e2.now⟩
    let w1 := afterImplicitLeave e1 cur1 w
    let r1 := (handleJoinRoom e1 conn1 m1 cur1 w).1
    let w2 := afterImplicitLeave e2 cur2 r1
    let r2 := (handleJoinRoom e2 conn2 m2 cur2 r1).1
    lookup r1.rooms code = some { hydrated e1 code w1 with Clients := [(id1, c1)] } ∧
      getOrCreate e2 code w2 = (w2, { hydrated e1 code w1 with Clients := [(id1, c1)] }) ∧
      lookup r2.rooms code =
        some { hydrated e1 code w1 with Clients := [(id1, c1), (id2, c2)] } ∧
      (keys r2.rooms).count code = 1 ∧
      ∃ L1 L2, r1.calls = w.calls ++ L1 ∧
        L1.filter isRead =
          [.getRoomContent code, .getRoomComments code, .getRoomMedia code] ∧
        r2.calls = r1.calls ++ L2 ∧ L2.filter isRead = [] := by
  intro id1 id2 c1 c2 w1 r1 w2 r2
  subst hc1
  have habs1 : lookup w1.rooms j1.base.Code = none :=
    afterImplicitLeave_lookup_of_absent e1 cur1 habs
  obtain ⟨hg2, hgrooms, hgcalls, _, _, _⟩ := getOrCreate_of_absent (e := e1) habs1
  obtain ⟨hr1rooms, hr1calls, _, _⟩ := handleJoinRoom_eq e1 conn1 cur1 w hm1
  have hroom1 : lookup r1.rooms j1.base.Code =
      some { hydrated e1 j1.base.Code w1 with Clients := [(id1, c1)] } := by
    show lookup (handleJoinRoom e1 conn1 m1 cur1 w).1.rooms j1.base.Code = _
    rw [hr1rooms, lookup_put_self]
    show some { (getOrCreate e1 j1.base.Code w1).2 with
      Clients := put (getOrCreate e1 j1.base.Code w1).2.Clients id1 c1 } = _
    rw [hg2]
    rfl
  have hid1 : id1 ≠ "" := generateClientID_ne_empty _ _
  have hroom2 : lookup w2.rooms j1.base.Code =
      some { hydrated e1 j1.base.Code w1 with Clients := [(id1, c1)] } := by
    refine afterImplicitLeave_lookup_of_occupied e2 cur2 hroom1 (by simp) ?_
    show lookup [(id1, c1)] "" = none
    simp [lookup, hid1]
  have hget2 := getOrCreate_of_present (e := e2) hroom2
  obtain ⟨hr2rooms, hr2calls, _, _⟩ := handleJoinRoom_eq e2 conn2 cur2 r1 hm2
  rw [hc2] at hr2rooms hr2calls
  have hfinal : lookup r2.rooms j1.base.Code =
      some { hydrated e1 j1.base.Code w1 with Clients := [(id1, c1), (id2, c2)] } := by
    show lookup (handleJoinRoom e2 conn2 m2 cur2 r1).1.rooms j1.base.Code = _
    rw [hr2rooms, lookup_put_self]
    show some { (getOrCreate e2 j1.base.Code w2).2 with
      Clients := put (getOrCreate e2 j1.base.Code w2).2.Clients id2 c2 } = _
    rw [hget2]
    simp only [put, hid, if_false]
  have hwf2 : WF r2 :=
    WF_handleJoinRoom e2 conn2 m2 cur2 (WF_handleJoinRoom e1 conn1 m1 cur1 hwf)
  refine ⟨hroom1, hget2, hfinal, ?_, ?_⟩
  · exact List.count_eq_one_of_mem hwf2.1 (mem_keys_of_lookup hfinal)
  · obtain ⟨La, hLa, hLaR⟩ := afterImplicitLeave_reads e1 cur1 w
    obtain ⟨Lb, hLb, hLbR⟩ := afterImplicitLeave_reads e2 cur2 r1
    refine ⟨La ++ [.getRoomContent j1.base.Code, .getRoomComments j1.base.Code,
      .getRoomMedia j1.base.Code], Lb, ?_, ?_, ?_, hLbR⟩
    · show (handleJoinRoom e1 conn1 m1 cur1 w).1.calls = _
      rw [hr1calls, hgcalls, hLa, List.append_assoc]
    · rw [List.filter_append, hLaR]
      rfl
    · show (handleJoinRoom e2 conn2 m2 cur2 r1).1.calls = _
      rw [hr2calls, hget2]
      exact hLb

theorem two_first_joins_share_one_room_witness :
    WF emptyWorld ∧ lookup emptyWorld.rooms "A" = none ∧
      generateClientID (exEnv 5).now ((exEnv 5).rand 0)
        ≠ generateClientID (exEnv 6).now ((exEnv 6).rand 0) ∧
      ((handleJoinRoom (exEnv 6) 2 (exJoin "A") ""
          (handleJoinRoom (exEnv 5) 1 (exJoin "A") "" emptyWorld).1).1.rooms.map
            (fun p => (p.1, p.2.CreatedAt, keys p.2.Clients)))
        = [("A", 5, ["client_5_0", "client_6_0"])] ∧
      (handleJoinRoom (exEnv 6) 2 (exJoin "A") ""
          (handleJoinRoom (exEnv 5) 1 (exJoin "A") "" emptyWorld).1).1.calls =
        [.getRoomContent "A", .getRoomComments "A", .getRoomMedia "A"] ∧
      (keys (handleJoinRoom (exEnv 6) 2 (exJoin "A") ""
          (handleJoinRoom (exEnv 5) 1 (exJoin "A") "" emptyWorld).1).1.rooms).count "A" = 1 :=
  have h := two_first_joins_share_one_room (exEnv 5) (exEnv 6) 1 2 (exJoin "A") (exJoin "A")
    "" "" "A" emptyWorld _ _ WF_emptyWorld (by decide) rfl rfl rfl rfl (by decide)
  ⟨WF_emptyWorld, by decide, by decide, by decide, by decide, h.2.2.2.1⟩

/-! ## Purge -/

theorem closeAll_eq (m : List (String × Client)) (closed : List Nat) :
    closeAll m closed = closed ++ m.map (fun p => p.2.Conn) := by
  induction m generalizing closed with
  | nil => simp [closeAll]
  | cons q rest ih =>
    obtain ⟨a, b⟩ := q
    simp [closeAll, ih]

theorem NoRows_withoutRows (code : String) (db : DB) : NoRows code (withoutRows code db) := by
  refine ⟨?_, ?_, ?_⟩ <;>
  · intro r hr
    simp only [withoutRows, List.mem_filter, decide_eq_true_eq] at hr
    exact hr.2

theorem deleteRoomContent_db (e : Env) (w : World) (c : String) :
    (deleteRoomContent e w c).1.db =
      if (deleteRoomContent e w c).2 then w.db
      else { w.db with rooms := w.db.rooms.filter (fun r => decide (r.code ≠ c)) } := by
  unfold deleteRoomContent called; dsimp only; split <;> rfl

theorem deleteRoomComments_db (e : Env) (w : World) (c : String) :
    (deleteRoomComments e w c).1.db =
      if (deleteRoomComments e w c).2 then w.db
      else { w.db with comments := w.db.comments.filter (fun r => decide (r.1 ≠ c)) } := by
  unfold deleteRoomComments called; dsimp only; split <;> rfl

theorem deleteRoomMedia_db (e : Env) (w : World) (c : String) :
    (deleteRoomMedia e w c).1.db =
      if (deleteRoomMedia e w c).2 then w.db
      else { w.db with
        media_files := w.db.media_files.filter (fun r => decide (r.1 ≠ c)) } := by
  unfold deleteRoomMedia called; dsimp only; split <;> rfl

theorem deleteRoomContent_err (e : Env) (w : World) (c : String) :
    (deleteRoomContent e w c).2 = e.dbErr (.deleteRoomContent c) := by
  unfold deleteRoomContent; dsimp only; split <;> simp_all

theorem deleteRoomComments_err (e : Env) (w : World) (c : String) :
    (deleteRoomComments e w c).2 = e.dbErr (.deleteRoomComments c) := by
  unfold deleteRoomComments; dsimp only; split <;> simp_all

theorem deleteRoomMedia_err (e : Env) (w : World) (c : String) :
    (deleteRoomMedia e w c).2 = e.dbErr (.deleteRoomMedia c) := by
  unfold deleteRoomMedia; dsimp only; split <;> simp_all

theorem evicted_lookup_self (code : String) (w : World) :
    lookup (evicted code w).rooms code = none := by
  unfold evicted
  split
  · exact lookup_erase_self _ _
  · rename_i h; exact h

theorem evicted_lookup_of_ne {code R' : String} (w : World) (h : R' ≠ code) :
    lookup (evicted code w).rooms R' = lookup w.rooms R' := by
  unfold evicted
  split
  · exact lookup_erase_of_ne _ h
  · rfl

theorem handleRoomPurge_eq (e : Env) {code : String} (w : World) (hcode : code ≠ "") :
    handleRoomPurge e "DELETE" code w =
      if e.dbErr (.deleteRoomContent code) then
        ((deleteRoomContent e (evicted code w) code).1, 500)
      else if e.dbErr (.deleteRoomComments code) then
        ((deleteRoomComments e (deleteRoomContent e (evicted code w) code).1 code).1, 500)
      else if e.dbErr (.deleteRoomMedia code) then
        ((deleteRoomMedia e (deleteRoomComments e
          (deleteRoomContent e (evicted code w) code).1 code).1 code).1, 500)
      else
        ((deleteRoomMedia e (deleteRoomComments e
          (deleteRoomContent e (evicted code w) code).1 code).1 code).1, 200) := by
  have hev : (match lookup w.rooms code with
      | some room =>
        { w with closed := closeAll room.Clients w.closed, rooms := erase w.rooms code }
      | none => w) = evicted code w := by
    unfold evicted
    split <;> simp [closeAll_eq]
  simp only [handleRoomPurge, ne_eq, not_true_eq_false, if_false, hcode, hev]
  have h1 := deleteRoomContent_err e (evicted code w) code
  generalize deleteRoomContent e (evicted code w) code = r1 at h1 ⊢
  obtain ⟨w1, b1⟩ := r1
  simp only at h1
  subst h1
  cases hb1 : e.dbErr (.deleteRoomContent code) with
  | true => simp
  | false =>
    simp only [Bool.false_eq_true, if_false]
    have h2 := deleteRoomComments_err e w1 code
    generalize deleteRoomComments e w1 code = r2 at h2 ⊢
    obtain ⟨w2, b2⟩ := r2
    simp only at h2
    subst h2
    cases hb2 : e.dbErr (.deleteRoomComments code) with
    | true => simp
    | false =>
      simp only [Bool.false_eq_true, if_false]
      have h3 := deleteRoomMedia_err e w2 code
      generalize deleteRoomMedia e w2 code = r3 at h3 ⊢
      obtain ⟨w3, b3⟩ := r3
      simp only at h3
      subst h3
      cases hb3 : e.dbErr (.deleteRoomMedia code) with
      | true => simp
      | false => simp

theorem evicted_out (code : String) (w : World) : (evicted code w).out = w.out := by
  unfold evicted; split <;> rfl

theorem evicted_db (code : String) (w : World) : (evicted code w).db = w.db := by
  unfold evicted; split <;> rfl

theorem evicted_calls (code : String) (w : World) : (evicted code w).calls = w.calls := by
  unfold evicted; split <;> rfl

theorem hydrated_of_NoRows (e : Env) {code : String} {w : World} (h : NoRows code w.db) :
    hydrated e code w =
      { Content := "", Clients := [], Comments := [], MediaFiles := [], CreatedAt := e.now } := by
  obtain ⟨h1, h2, h3⟩ := h
  have hc : (getRoomContent e w code).2.1 = "" := by
    unfold getRoomContent called; dsimp only
    split
    · rfl
    · have : w.db.rooms.find? (fun r => decide (r.code = code)) = none := by
        rw [List.find?_eq_none]
        intro r hr
        simpa using h1 r hr
      rw [this]
  have hm : (getRoomComments e w code).2.1 = [] := by
    unfold getRoomComments called; dsimp only
    split
    · rfl
    · have : w.db.comments.filter (fun r => decide (r.1 = code)) = [] := by
        rw [List.filter_eq_nil_iff]
        intro r hr
        simpa using h2 r hr
      simp [this]
  have hf : (getRoomMedia e w code).2.1 = [] := by
    unfold getRoomMedia called; dsimp only
    split
    · rfl
    · have : w.db.media_files.filter (fun r => decide (r.1 = code)) = [] := by
        rw [List.filter_eq_nil_iff]
        intro r hr
        simpa using h3 r hr
      simp [this]
  simp only [hydrated, hc, hm, hf]

theorem NoRows_dropRoom (e : Env) (R : String) {code : String} {w : World}
    (h : NoRows code w.db) : NoRows code (dropRoom e R w).db := by
  obtain ⟨h1, h2, h3⟩ := h
  refine ⟨?_, ?_, ?_⟩
  · intro r hr
    rw [dropRoom_db_rooms] at hr
    split at hr
    · exact h1 r hr
    · exact h1 r (List.mem_filter.mp hr).1
  · intro r hr
    rw [dropRoom_db_comments] at hr
    split at hr
    · exact h2 r hr
    · exact h2 r (List.mem_filter.mp hr).1
  · intro r hr
    rw [dropRoom_db_media] at hr
    split at hr
    · exact h3 r hr
    · exact h3 r (List.mem_filter.mp hr).1

theorem NoRows_leaveRoom (e : Env) (R s : String) {code : String} {w : World}
    (h : NoRows code w.db) : NoRows code (leaveRoom e R s w).db := by
  cases hroom : lookup w.rooms R with
  | none => rw [leaveRoom_of_absent_room hroom]; exact h
  | some room =>
    cases hclient : lookup room.Clients s with
    | none =>
      rw [leaveRoom_of_absent_client hroom hclient]
      split
      · exact NoRows_dropRoom e R h
      · exact h
    | some client =>
      rw [leaveRoom_of_present hroom hclient]
      split
      · exact NoRows_dropRoom e R (w := { w with
          rooms := put w.rooms R { room with Clients := erase room.Clients s }
          out := w.out ++ fanOut e (userLeftMsg R client.User) "" (erase room.Clients s) }) h
      · exact h

theorem NoRows_afterImplicitLeave (e : Env) (cur : String) {code : String} {w : World}
    (h : NoRows code w.db) : NoRows code (afterImplicitLeave e cur w).db := by
  unfold afterImplicitLeave
  split
  · exact NoRows_leaveRoom e cur "" h
  · exact h

theorem join_creates_fresh_room {e : Env} {conn : Nat} {message : RawMessage} {cur code : String}
    {w : World} {joinMsg : JoinRoomMessage}
    (habs : lookup w.rooms code = none) (hrows : NoRows code w.db)
    (hmsg : message.joinRoom = some joinMsg) (hc : joinMsg.base.Code = code) :
    lookup (handleJoinRoom e conn message cur w).1.rooms code =
      some { Content := "", Comments := [], MediaFiles := [], CreatedAt := e.now,
             Clients := [(generateClientID e.now (e.rand 0),
               ⟨conn, joinUser e (generateClientID e.now (e.rand 0)) joinMsg.User, e.now⟩)] } := by
  subst hc
  have habs1 := afterImplicitLeave_lookup_of_absent e cur habs
  obtain ⟨hg2, _⟩ := getOrCreate_of_absent (e := e) habs1
  obtain ⟨hrooms, _⟩ := handleJoinRoom_eq e conn cur w hmsg
  rw [hrooms, lookup_put_self, hg2, hydrated_of_NoRows e (NoRows_afterImplicitLeave e cur hrows)]
  rfl

/-- C12. A DELETE on `/o/purge/<code>` with a non-empty code: every transport
of the room's client map is closed (in map order), the registry no longer has
the code, the other rooms are untouched and nothing is written. The answer is
200 exactly when none of the three gateway deletes fails, and then the three
deletes were called in order and the tables are the old ones without any row
of the code, the rows of other codes kept. After such a purge a well-formed
join-room for the code, from any connection, leaves in the registry a room
with empty content, no comment, no media file, created at the time of the
join, whose client map holds the joining session alone. -/
theorem handleRoomPurge_clears_room (e : Env) (code : String) (w : World)
    (hcode : code ≠ "") :
    (handleRoomPurge e "DELETE" code w).1.closed =
        w.closed ++ (match lookup w.rooms code with
          | some room => room.Clients.map (fun p => p.2.Conn)
          | none => []) ∧
      lookup (handleRoomPurge e "DELETE" code w).1.rooms code = none ∧
      (∀ R', R' ≠ code →
        lookup (handleRoomPurge e "DELETE" code w).1.rooms R' = lookup w.rooms R') ∧
      (handleRoomPurge e "DELETE" code w).1.out = w.out ∧
      ((handleRoomPurge e "DELETE" code w).2 = 200 ↔
        e.dbErr (.deleteRoomContent code) = false ∧
          e.dbErr (.deleteRoomComments code) = false ∧
          e.dbErr (.deleteRoomMedia code) = false) ∧
      ((handleRoomPurge e "DELETE" code w).2 = 200 →
        (handleRoomPurge e "DELETE" code w).1.calls =
            w.calls ++ [.deleteRoomContent code, .deleteRoomComments code,
              .deleteRoomMedia code] ∧
          (handleRoomPurge e "DELETE" code w).1.db = withoutRows code w.db ∧
          NoRows code (handleRoomPurge e "DELETE" code w).1.db ∧
          ∀ (e2 : Env) (conn : Nat) (message : RawMessage) (cur : String)
            (joinMsg : JoinRoomMessage),
            message.joinRoom = some joinMsg → joinMsg.base.Code = code →
            lookup (handleJoinRoom e2 conn message cur
                (handleRoomPurge e "DELETE" code w).1).1.rooms code =
              some { Content := "", Comments := [], MediaFiles := [], CreatedAt := e2.now,
                     Clients := [(generateClientID e2.now (e2.rand 0),
                       ⟨conn, joinUser e2 (generateClientID e2.now (e2.rand 0)) joinMsg.User,
                         e2.now⟩)] }) := by
  have hclosed : (evicted code w).closed =
      w.closed ++ (match lookup w.rooms code with
        | some room => room.Clients.map (fun p => p.2.Conn)
        | none => []) := by
    unfold evicted
    split <;> simp
  rw [handleRoomPurge_eq e w hcode]
  cases h1 : e.dbErr (.deleteRoomContent code) with
  | true =>
    simp only [if_true]
    refine ⟨by simp [hclosed], by simp [evicted_lookup_self], ?_, by simp [evicted_out],
      by simp, by simp⟩
    intro R' hne
    simp [evicted_lookup_of_ne w hne]
  | false =>
    cases h2 : e.dbErr (.deleteRoomComments code) with
    | true =>
      simp only [Bool.false_eq_true, if_false, if_true]
      refine ⟨by simp [hclosed], by simp [evicted_lookup_self], ?_, by simp [evicted_out],
        by simp, by simp⟩
      intro R' hne
      simp [evicted_lookup_of_ne w hne]
    | false =>
      cases h3 : e.dbErr (.deleteRoomMedia code) with
      | true =>
        simp only [Bool.false_eq_true, if_false, if_true]
        refine ⟨by simp [hclosed], by simp [evicted_lookup_self], ?_, by simp [evicted_out],
          by simp, by simp⟩
        intro R' hne
        simp [evicted_lookup_of_ne w hne]
      | false =>
        simp only [Bool.false_eq_true, if_false]
        have hdb : (deleteRoomMedia e (deleteRoomComments e
            (deleteRoomContent e (evicted code w) code).1 code).1 code).1.db
              = withoutRows code w.db := by
          rw [deleteRoomMedia_db, deleteRoomMedia_err, h3, deleteRoomComments_db,
            deleteRoomComments_err, h2, deleteRoomContent_db, deleteRoomContent_err, h1,
            evicted_db]
          rfl
        have habs : lookup (deleteRoomMedia e (deleteRoomComments e
            (deleteRoomContent e (evicted code w) code).1 code).1 code).1.rooms code = none := by
          simp [evicted_lookup_self]
        refine ⟨by simp [hclosed], habs, ?_, by simp [evicted_out], by simp, ?_⟩
        · intro R' hne
          simp [evicted_lookup_of_ne w hne]
        · intro _
          refine ⟨by simp [evicted_calls], hdb, by rw [hdb]; exact NoRows_withoutRows _ _, ?_⟩
          intro e2 conn message cur joinMsg hmsg hc
          exact join_creates_fresh_room habs (by rw [hdb]; exact NoRows_withoutRows _ _) hmsg hc

theorem handleRoomPurge_clears_room_witness :
    ("R" : String) ≠ "" ∧
      handleRoomPurge (exEnv 5) "DELETE" "R" exWorld =
        ({ rooms := [], db := { rooms := [], comments := [], media_files := [] }, out := [],
           closed := [1, 2],
           calls := [.deleteRoomContent "R", .deleteRoomComments "R", .deleteRoomMedia "R"] },
          200) ∧
      lookup (handleRoomPurge (exEnv 5) "DELETE" "R" exWorld).1.rooms "R" = none ∧
      (lookup (handleJoinRoom (exEnv 6) 3 (exJoin "R") ""
          (handleRoomPurge (exEnv 5) "DELETE" "R" exWorld).1).1.rooms "R").map
            (fun r => (r.Content, r.Comments, r.MediaFiles, keys r.Clients))
        = some ("", [], [], ["client_6_0"]) :=
  ⟨by decide, by decide,
    (handleRoomPurge_clears_room (exEnv 5) "R" exWorld (by decide)).2.1, by decide⟩

/-! ## Retention sweeper -/

theorem cursorOpen_dbErr (e : Env) (op : DbOp) :
    (cursorOpen e).dbErr op = (isWrite op || e.dbErr op) := rfl

theorem dropRoom_cursorOpen_db (e : Env) (R : String) (w : World) :
    (dropRoom (cursorOpen e) R w).db = w.db := by
  have h1 := dropRoom_db_rooms (cursorOpen e) R w
  have h2 := dropRoom_db_comments (cursorOpen e) R w
  have h3 := dropRoom_db_media (cursorOpen e) R w
  simp only [cursorOpen_dbErr, isWrite, Bool.true_or, if_true] at h1 h2 h3
  cases hd : (dropRoom (cursorOpen e) R w).db
  cases hw : w.db
  simp only [hd, hw] at h1 h2 h3
  simp [h1, h2, h3]

theorem sweepLoop_cons (e : Env) (code : String) (rest : List String) (w : World) :
    sweepLoop e (code :: rest) w = sweepLoop e rest (dropRoom (cursorOpen e) code w) := by
  simp only [sweepLoop, dropRoom]
  congr 1
  split
  · rfl
  · rename_i h
    rw [erase_of_not_mem ((lookup_eq_none_iff _ _).mp h)]

theorem sweepLoop_out (e : Env) (codes : List String) (w : World) :
    (sweepLoop e codes w).out = w.out := by
  induction codes generalizing w with
  | nil => rfl
  | cons c rest ih => rw [sweepLoop_cons, ih, dropRoom_out]

theorem sweepLoop_closed (e : Env) (codes : List String) (w : World) :
    (sweepLoop e codes w).closed = w.closed := by
  induction codes generalizing w with
  | nil => rfl
  | cons c rest ih => rw [sweepLoop_cons, ih, dropRoom_closed]

theorem sweepLoop_lookup (e : Env) (codes : List String) (w : World) (c : String) :
    lookup (sweepLoop e codes w).rooms c = if c ∈ codes then none else lookup w.rooms c := by
  induction codes generalizing w with
  | nil => simp [sweepLoop]
  | cons h rest ih =>
    rw [sweepLoop_cons, ih, dropRoom_rooms]
    by_cases hr : c ∈ rest
    · simp [hr]
    · by_cases hc : c = h
      · subst hc; simp [hr, lookup_erase_self]
      · simp [hr, hc, lookup_erase_of_ne _ hc]

/-- The loop of the sweeper leaves every table as it was. -/
theorem sweepLoop_db (e : Env) (codes : List String) (w : World) :
    (sweepLoop e codes w).db = w.db := by
  induction codes generalizing w with
  | nil => rfl
  | cons c rest ih => rw [sweepLoop_cons, ih, dropRoom_cursorOpen_db]

/-- The gateway calls of the loop: the three deletes for every listed code. -/
theorem sweepLoop_calls (e : Env) (codes : List String) (w : World) :
    (sweepLoop e codes w).calls =
      w.calls ++ codes.flatMap
        (fun c => [.deleteRoomContent c, .deleteRoomComments c, .deleteRoomMedia c]) := by
  induction codes generalizing w with
  | nil => simp [sweepLoop]
  | cons c rest ih => rw [sweepLoop_cons, ih, dropRoom_calls]; simp

theorem deleteOldRooms_of_listing_err {e : Env} {w : World}
    (h : e.dbErr (.listOldRooms (e.now - 24 * hour)) = true) :
    deleteOldRooms e w = called w (.listOldRooms (e.now - 24 * hour)) := by
  simp [deleteOldRooms, listOldRooms, h]

theorem deleteOldRooms_of_listing_ok {e : Env} {w : World}
    (h : e.dbErr (.listOldRooms (e.now - 24 * hour)) = false) :
    deleteOldRooms e w =
      sweepLoop e (listOldRooms e w (e.now - 24 * hour)).2.1
        (called w (.listOldRooms (e.now - 24 * hour))) := by
  simp [deleteOldRooms, listOldRooms, h, called]

/-- One pass of the retention sweeper deletes no row: the tables are the same
before and after, whatever the listing returns. -/
theorem deleteOldRooms_db (e : Env) (w : World) : (deleteOldRooms e w).db = w.db := by
  cases h : e.dbErr (.listOldRooms (e.now - 24 * hour)) with
  | true => rw [deleteOldRooms_of_listing_err h]; rfl
  | false => rw [deleteOldRooms_of_listing_ok h, sweepLoop_db]; rfl

/-- What one pass of the retention sweeper does to the registry: if the listing
fails nothing changes; otherwise exactly the listed codes leave the registry,
whatever sessions their rooms hold. Nothing is written and no transport is
closed. -/
theorem deleteOldRooms_registry (e : Env) (w : World) :
    (e.dbErr (.listOldRooms (e.now - 24 * hour)) = true →
        (deleteOldRooms e w).rooms = w.rooms) ∧
      (e.dbErr (.listOldRooms (e.now - 24 * hour)) = false →
        ∀ c, lookup (deleteOldRooms e w).rooms c =
          if c ∈ (listOldRooms e w (e.now - 24 * hour)).2.1 then none else lookup w.rooms c) ∧
      (deleteOldRooms e w).out = w.out ∧ (deleteOldRooms e w).closed = w.closed := by
  cases h : e.dbErr (.listOldRooms (e.now - 24 * hour)) with
  | true =>
    rw [deleteOldRooms_of_listing_err h]
    exact ⟨fun _ => rfl, fun hc => absurd hc (by decide), rfl, rfl⟩
  | false =>
    rw [deleteOldRooms_of_listing_ok h]
    refine ⟨fun hc => absurd hc (by decide), fun _ c => ?_, ?_, ?_⟩
    · rw [sweepLoop_lookup]; rfl
    · rw [sweepLoop_out]; rfl
    · rw [sweepLoop_closed]; rfl

theorem WF_sweepLoop (e : Env) (codes : List String) {w : World} (h : WF w) :
    WF (sweepLoop e codes w) := by
  induction codes generalizing w with
  | nil => exact h
  | cons c rest ih =>
    rw [sweepLoop_cons]
    exact ih (h.of_rooms_erase (dropRoom_rooms _ _ _))

theorem WF_deleteOldRooms (e : Env) {w : World} (h : WF w) : WF (deleteOldRooms e w) := by
  cases hl : e.dbErr (.listOldRooms (e.now - 24 * hour)) with
  | true => rw [deleteOldRooms_of_listing_err hl]; exact h.of_rooms_eq rfl
  | false => rw [deleteOldRooms_of_listing_ok hl]; exact WF_sweepLoop e _ (h.of_rooms_eq rfl)

/-- C13 fails on the code. Room `R` has a row in `rooms` written at 6 ns and a
comment row; 25 hours later connection 2 has joined it. A pass of the sweeper
one second after that lists `R` and removes it from the registry with the
session attached, but every table is as before the pass: the three deletes of
the loop are issued while the cursor of the listing is open and none of them
commits. The same three deletes issued with no cursor open, as the eager
deletion of `leaveRoom` does, empty the tables. The next join of `R` gets the
old text and the old comment back from the store. -/
theorem deleteOldRooms_keeps_durable_rows :
    (listOldRooms (exEnv (25 * hour + second)) exLateJoin.2.1
        ((exEnv (25 * hour + second)).now - 24 * hour)).2 = (["R"], false) ∧
      (lookup exLateJoin.2.1.rooms "R").map (fun r => keys r.Clients)
        = some ["client_90000000000000_0"] ∧
      lookup exSwept.rooms "R" = none ∧
      exSwept.db = exLateJoin.2.1.db ∧
      exSwept.db.rooms = [{ code := "R", content := "hi", created_at := 6 }] ∧
      exSwept.db.comments.map (fun p => (p.1, p.2.ID)) = [("R", "comment_7")] ∧
      exSwept.calls = exLateJoin.2.1.calls ++
        [.listOldRooms (hour + second), .deleteRoomContent "R", .deleteRoomComments "R",
         .deleteRoomMedia "R"] ∧
      (dropRoom (exEnv (25 * hour + second)) "R" exLateJoin.2.1).db =
        { rooms := [], comments := [], media_files := [] } ∧
      (lookup exRecreated.2.1.rooms "R").map (fun r => (r.Content, r.Comments.map Comment.ID))
        = some ("hi", ["comment_7"]) := by
  decide

/-- The listing compares texts, not instants: in a process two hours east of
UTC a row written 22 and a half hours before the pass is listed, and in a
process on UTC it is not. -/
theorem listOldRooms_compares_texts :
    (listOldRooms (exEnvEast (33 * hour))
        { emptyWorld with
          db := { rooms := [{ code := "R", content := "", created_at := 21 * hour / 2 }],
                  comments := [], media_files := [] } }
        ((exEnvEast (33 * hour)).now - 24 * hour)).2.1 = ["R"] ∧
      (listOldRooms (exEnv (33 * hour))
        { emptyWorld with
          db := { rooms := [{ code := "R", content := "", created_at := 21 * hour / 2 }],
                  comments := [], media_files := [] } }
        ((exEnv (33 * hour)).now - 24 * hour)).2.1 = [] ∧
      currentTimestamp (21 * hour / 2) = "1970-01-01 10:30:00" ∧
      bindTime 7200 (9 * hour) = "1970-01-01 11:00:00+02:00" ∧
      bindTime 0 (9 * hour) = "1970-01-01 09:00:00+00:00" := by
  decide

/-! ## Room isolation -/

/-- C17 fails on the code for comment-delete and media-delete. Session `a`
is joined to room `R`; the comment `c2` and the media file `m2` belong to room
`B`, in memory and in the tables. A comment-delete from `a` carrying the id
`c2` deletes the row of `B` from the comments table, and a media-delete
carrying `m2` deletes the row of `B` from the media table, while the in-memory
room `B` keeps both; the delete messages are written for the sessions of `R`. -/
theorem delete_by_id_reaches_other_rooms :
    Joined exTwoRooms "R" "a" exRoom { Conn := 1, User := exUser "ua" "Ann", LastPing := 0 } ∧
      exTwoRooms.db.comments = [("R", exComment "c1"), ("B", exComment "c2")] ∧
      (handleFrame (exEnv 5) 1 { currentRoom := "R", clientID := "a" } exTwoRooms
          (.text (exCommentDelete "c2"))).2.1.db.comments = [("R", exComment "c1")] ∧
      lookup (handleFrame (exEnv 5) 1 { currentRoom := "R", clientID := "a" } exTwoRooms
          (.text (exCommentDelete "c2"))).2.1.rooms "B" = some exRoomB ∧
      (handleFrame (exEnv 5) 1 { currentRoom := "R", clientID := "a" } exTwoRooms
          (.text (exCommentDelete "c2"))).2.1.out.map Send.sid = ["a", "b"] ∧
      exTwoRooms.db.media_files = [("B", exMedia "m2")] ∧
      (handleFrame (exEnv 5) 1 { currentRoom := "R", clientID := "a" } exTwoRooms
          (.text (exMediaDelete "m2"))).2.1.db.media_files = [] ∧
      lookup (handleFrame (exEnv 5) 1 { currentRoom := "R", clientID := "a" } exTwoRooms
          (.text (exMediaDelete "m2"))).2.1.rooms "B" = some exRoomB := by
  refine ⟨⟨by decide, by decide, by decide, by decide⟩, ?_⟩
  decide

theorem OnlyRoom.of_same {R : String} {room : Room} {w w' : World}
    (h1 : w'.rooms = w.rooms) (h2 : w'.out = w.out) (h3 : w'.closed = w.closed) :
    OnlyRoom R room w w' :=
  ⟨fun _ _ => by rw [h1], ⟨[], by rw [h2, List.append_nil], fun s hs => by simp at hs⟩, h3⟩

theorem OnlyRoom.of_put {R : String} {room : Room} {w w' : World} (room' : Room) (e : Env)
    (message : Message) (ex : String)
    (h1 : w'.rooms = put w.rooms R room')
    (h2 : w'.out = w.out ++ fanOut e message ex room.Clients) (h3 : w'.closed = w.closed) :
    OnlyRoom R room w w' := by
  refine ⟨fun R' hne => by rw [h1, lookup_put_of_ne _ _ hne], ⟨_, h2, ?_⟩, h3⟩
  intro s hs
  obtain ⟨p, hp, _, rfl⟩ := (mem_fanOut _ _ _ _ _).mp hs
  exact ⟨p.2, hp, rfl⟩

theorem OtherRowsKept.refl (R : String) (db : DB) : OtherRowsKept R db db :=
  fun _ _ => ⟨rfl, rfl, rfl⟩

theorem saveRoomContent_db (e : Env) (w : World) (c x : String) :
    (saveRoomContent e w c x).1.db =
      if e.dbErr (.saveRoomContent c x) then w.db
      else { w.db with
        rooms := w.db.rooms.filter (fun r => decide (r.code ≠ c))
          ++ [{ code := c, content := x, created_at := e.now }] } := by
  unfold saveRoomContent called; dsimp only; split <;> rfl

theorem saveRoomContent_keeps_others (e : Env) (w : World) (R x : String) :
    OtherRowsKept R w.db (saveRoomContent e w R x).1.db := by
  intro R' hne
  rw [saveRoomContent_db]
  split
  · exact ⟨rfl, rfl, rfl⟩
  · refine ⟨?_, rfl, rfl⟩
    simp only [List.filter_append, List.filter_filter]
    have h1 : List.filter (fun r : RoomRow => decide (r.code = R'))
        [{ code := R, content := x, created_at := e.now }] = [] := by
      have hne' : ¬ R = R' := fun h => hne h.symm
      simp [List.filter_cons, hne']
    rw [h1, List.append_nil]
    apply List.filter_congr
    intro r _
    by_cases hr : r.code = R'
    · simp [hr, hne]
    · simp [hr]

theorem saveComment_keeps_others (e : Env) (w : World) (R : String) (c : Comment) :
    OtherRowsKept R w.db (saveComment e w R c).1.db := by
  intro R' hne
  cases h : (saveComment e w R c).2 with
  | true => rw [saveComment_db_of_err h]; exact ⟨rfl, rfl, rfl⟩
  | false =>
    rw [saveComment_db_of_ok h]
    refine ⟨rfl, ?_, rfl⟩
    have hne' : ¬ R = R' := fun h => hne h.symm
    simp [List.filter_append, List.filter_cons, hne']

theorem saveMediaFile_db_of_ok {e : Env} {w : World} {r : String} {m : MediaFile}
    (h : (saveMediaFile e w r m).2 = false) :
    (saveMediaFile e w r m).1.db =
      { w.db with media_files := w.db.media_files ++ [(r, m)] } := by
  unfold saveMediaFile called at h ⊢; dsimp only at h ⊢
  split at h
  · simp at h
  · rename_i hc; simp only [hc]; rfl

theorem saveMediaFile_keeps_others (e : Env) (w : World) (R : String) (m : MediaFile) :
    OtherRowsKept R w.db (saveMediaFile e w R m).1.db := by
  intro R' hne
  cases h : (saveMediaFile e w R m).2 with
  | true => rw [saveMediaFile_db_of_err h]; exact ⟨rfl, rfl, rfl⟩
  | false =>
    rw [saveMediaFile_db_of_ok h]
    refine ⟨rfl, rfl, ?_⟩
    have hne' : ¬ R = R' := fun h => hne h.symm
    simp [List.filter_append, List.filter_cons, hne']

theorem handleTextUpdate_of_joined (e : Env) (conn : Nat) {message : RawMessage}
    {R A : String} {w : World} {room : Room} {client : Client} {updateMsg : TextUpdateMessage}
    (hj : Joined w R A room client) (hmsg : message.textUpdate = some updateMsg) :
    (handleTextUpdate e conn message R A w).rooms
        = put w.rooms R { room with Content := updateMsg.Content } ∧
      (handleTextUpdate e conn message R A w).out
        = w.out ++ fanOut e (.textUpdate updateMsg) A room.Clients ∧
      (handleTextUpdate e conn message R A w).closed = w.closed ∧
      (handleTextUpdate e conn message R A w).db
        = (saveRoomContent e w R updateMsg.Content).1.db := by
  obtain ⟨hR, hA, hroom, _⟩ := hj
  refine ⟨?_, ?_, ?_, ?_⟩
  · simp [handleTextUpdate, hR, hA, hmsg, hroom]
  · simp [handleTextUpdate, hR, hA, hmsg, hroom, broadcastToRoom_eq]
  · simp [handleTextUpdate, hR, hA, hmsg, hroom]
  · simp only [handleTextUpdate, hR, hA, or_self, if_false, hmsg, hroom]
    rw [saveRoomContent_db, saveRoomContent_db]

theorem handleTextUpdate_isolated (e : Env) (conn : Nat) (message : RawMessage) (R A : String)
    (w : World) (room : Room) (client : Client) (hj : Joined w R A room client) :
    OnlyRoom R room w (handleTextUpdate e conn message R A w) ∧
      OtherRowsKept R w.db (handleTextUpdate e conn message R A w).db := by
  cases hmsg : message.textUpdate with
  | none =>
    have : handleTextUpdate e conn message R A w = w := by
      simp only [handleTextUpdate, hmsg]; split <;> rfl
    rw [this]
    exact ⟨OnlyRoom.of_same rfl rfl rfl, OtherRowsKept.refl _ _⟩
  | some updateMsg =>
    obtain ⟨h1, h2, h3, h4⟩ := handleTextUpdate_of_joined e conn hj hmsg
    refine ⟨OnlyRoom.of_put _ e _ A h1 h2 h3, ?_⟩
    rw [h4]
    exact saveRoomContent_keeps_others e w R _

theorem handleCommentAdd_isolated (e : Env) (conn : Nat) (message : RawMessage) (R A : String)
    (w : World) (room : Room) (client : Client) (hj : Joined w R A room client) :
    OnlyRoom R room w (handleCommentAdd e conn message R A w) ∧
      OtherRowsKept R w.db (handleCommentAdd e conn message R A w).db := by
  obtain ⟨hR, hA, hroom, _⟩ := hj
  cases hmsg : message.comment with
  | none =>
    have : handleCommentAdd e conn message R A w = w := by
      simp only [handleCommentAdd, hmsg]; split <;> rfl
    rw [this]
    exact ⟨OnlyRoom.of_same rfl rfl rfl, OtherRowsKept.refl _ _⟩
  | some commentMsg =>
    cases hsave : (saveComment e w R (stampComment e room A commentMsg.Comment)).2 with
    | true =>
      rw [handleCommentAdd_of_err hR hA hroom hmsg hsave]
      exact ⟨OnlyRoom.of_same (saveComment_rooms _ _ _ _) (saveComment_out _ _ _ _)
        (saveComment_closed _ _ _ _), saveComment_keeps_others e w R _⟩
    | false =>
      rw [handleCommentAdd_of_ok hR hA hroom hmsg hsave]
      exact ⟨OnlyRoom.of_put _ e _ "" rfl rfl (saveComment_closed _ _ _ _),
        saveComment_keeps_others e w R _⟩

theorem handleMediaUpload_isolated (e : Env) (conn : Nat) (message : RawMessage) (R A : String)
    (w : World) (room : Room) (client : Client) (hj : Joined w R A room client) :
    OnlyRoom R room w (handleMediaUpload e conn message R A w) ∧
      OtherRowsKept R w.db (handleMediaUpload e conn message R A w).db := by
  obtain ⟨hR, hA, hroom, _⟩ := hj
  cases hmsg : message.media with
  | none =>
    have : handleMediaUpload e conn message R A w = w := by
      simp only [handleMediaUpload, hmsg]; split <;> rfl
    rw [this]
    exact ⟨OnlyRoom.of_same rfl rfl rfl, OtherRowsKept.refl _ _⟩
  | some mediaMsg =>
    cases hsave : (saveMediaFile e w R (stampMedia e room A mediaMsg.Media)).2 with
    | true =>
      rw [handleMediaUpload_of_err hR hA hroom hmsg hsave]
      exact ⟨OnlyRoom.of_same (saveMediaFile_rooms _ _ _ _) (saveMediaFile_out _ _ _ _)
        (saveMediaFile_closed _ _ _ _), saveMediaFile_keeps_others e w R _⟩
    | false =>
      rw [handleMediaUpload_of_ok hR hA hroom hmsg hsave]
      exact ⟨OnlyRoom.of_put _ e _ "" rfl rfl (saveMediaFile_closed _ _ _ _),
        saveMediaFile_keeps_others e w R _⟩

theorem handleCommentDelete_isolated (e : Env) (conn : Nat) (message : RawMessage)
    (R A : String) (w : World) (room : Room) (client : Client)
    (hj : Joined w R A room client) :
    OnlyRoom R room w (handleCommentDelete e conn message R A w) ∧
      (handleCommentDelete e conn message R A w).db.rooms = w.db.rooms ∧
      (handleCommentDelete e conn message R A w).db.media_files = w.db.media_files := by
  obtain ⟨hR, hA, hroom, _⟩ := hj
  cases hmsg : message.comment with
  | none =>
    have : handleCommentDelete e conn message R A w = w := by
      simp only [handleCommentDelete, hmsg]; split <;> rfl
    rw [this]
    exact ⟨OnlyRoom.of_same rfl rfl rfl, rfl, rfl⟩
  | some commentMsg =>
    cases hdel : (deleteComment e w commentMsg.Comment.ID).2 with
    | true =>
      rw [handleCommentDelete_of_err hR hA hroom hmsg hdel, deleteComment_db_of_err hdel]
      exact ⟨OnlyRoom.of_same (deleteComment_rooms _ _ _) (deleteComment_out _ _ _)
        (deleteComment_closed _ _ _), rfl, rfl⟩
    | false =>
      rw [handleCommentDelete_of_ok hR hA hroom hmsg hdel]
      simp only
      rw [deleteComment_db_of_ok hdel]
      exact ⟨OnlyRoom.of_put _ e _ "" rfl rfl (deleteComment_closed _ _ _), rfl, rfl⟩

theorem deleteMediaFile_db_of_ok {e : Env} {w : World} {c : String}
    (h : (deleteMediaFile e w c).2 = false) :
    (deleteMediaFile e w c).1.db =
      { w.db with media_files := w.db.media_files.filter (fun r => decide (r.2.ID ≠ c)) } := by
  unfold deleteMediaFile called at h ⊢; dsimp only at h ⊢
  split at h
  · simp at h
  · rename_i hc; simp only [hc]; rfl

theorem handleMediaDelete_isolated (e : Env) (conn : Nat) (message : RawMessage)
    (R A : String) (w : World) (room : Room) (client : Client)
    (hj : Joined w R A room client) :
    OnlyRoom R room w (handleMediaDelete e conn message R A w) ∧
      (handleMediaDelete e conn message R A w).db.rooms = w.db.rooms ∧
      (handleMediaDelete e conn message R A w).db.comments = w.db.comments := by
  obtain ⟨hR, hA, hroom, _⟩ := hj
  cases hmsg : message.media with
  | none =>
    have : handleMediaDelete e conn message R A w = w := by
      simp only [handleMediaDelete, hmsg]; split <;> rfl
    rw [this]
    exact ⟨OnlyRoom.of_same rfl rfl rfl, rfl, rfl⟩
  | some mediaMsg =>
    cases hdel : (deleteMediaFile e w mediaMsg.Media.ID).2 with
    | true =>
      rw [handleMediaDelete_of_err hR hA hroom hmsg hdel, deleteMediaFile_db_of_err hdel]
      exact ⟨OnlyRoom.of_same (deleteMediaFile_rooms _ _ _) (deleteMediaFile_out _ _ _)
        (deleteMediaFile_closed _ _ _), rfl, rfl⟩
    | false =>
      rw [handleMediaDelete_of_ok hR hA hroom hmsg hdel]
      simp only
      rw [deleteMediaFile_db_of_ok hdel]
      exact ⟨OnlyRoom.of_put _ e _ "" rfl rfl (deleteMediaFile_closed _ _ _), rfl, rfl⟩

theorem handleUserActivity_isolated (e : Env) (conn : Nat) (message : RawMessage)
    (R A : String) (w : World) (room : Room) (client : Client)
    (hj : Joined w R A room client) :
    OnlyRoom R room w (handleUserActivity e conn message R A w) ∧
      (handleUserActivity e conn message R A w).db = w.db := by
  cases hmsg : message.userActivity with
  | none =>
    have : handleUserActivity e conn message R A w = w := by
      simp only [handleUserActivity, hmsg]; split <;> rfl
    rw [this]
    exact ⟨OnlyRoom.of_same rfl rfl rfl, rfl⟩
  | some activityMsg =>
    rw [handleUserActivity_of_joined hj hmsg]
    exact ⟨OnlyRoom.of_put _ e _ A rfl rfl rfl, rfl⟩

/-! ## A second join of the same room -/

/-- C2 fails on the code. Connection 2 is in room `A` as `client_4_0`.
Connection 1 joins `A` (session `client_5_0`) and sends a second well-formed
join-room for `A`: the implicit leave is made with the empty id and removes
nothing, so the connection is now the session `client_6_0` while `client_5_0`
stays in the client map, bound to the same transport 1; the registry is
well-formed. Its next text-update is then written for `client_4_0` on
transport 2 and for `client_5_0` on transport 1: a send of the update is
attempted to the sender's own connection. -/
theorem text_update_written_on_own_transport :
    exRejoined.1 = { currentRoom := "A", clientID := "client_6_0" } ∧
      (lookup exRejoined.2.1.rooms "A").map (fun r => r.Clients.map (fun q => (q.1, q.2.Conn)))
        = some [("client_4_0", 2), ("client_5_0", 1), ("client_6_0", 1)] ∧
      WF exRejoined.2.1 ∧
      (handleWebSocket 1
          [(exEnv 5, .text (exJoin "A")), (exEnv 6, .text (exJoin "A")),
           (exEnv 7, .text (exTextFrame "A" "hello"))] exPeerInA).2.1.out =
        exRejoined.2.1.out ++
          [mkSend (exEnv 7) "client_4_0" 2 (.textUpdate ⟨⟨TextUpdate, "A"⟩, "hello"⟩),
           mkSend (exEnv 7) "client_5_0" 1 (.textUpdate ⟨⟨TextUpdate, "A"⟩, "hello"⟩)] := by
  refine ⟨by decide, by decide, ?_, by decide⟩
  exact WF_handleWebSocket 1 _ (WF_handleWebSocket 2 _ WF_emptyWorld)

/-- C3 fails on the code. Connection 2 is in room `A` as `client_4_0`;
connection 1 joins `A` as `client_5_0` and then handles a second well-formed
join-room for `A`, which makes it the session `client_6_0` and leaves
`client_5_0` in the client map on the same transport. The writes of that second
join are the four snapshots on transport 1 followed by a user-joined for
`client_4_0` on transport 2 and a user-joined for `client_5_0` on transport 1:
five messages are written on the joining connection, the last of them the
user-joined of the join itself. -/
theorem second_join_writes_user_joined_on_own_transport :
    exJoinedOnce.1 = { currentRoom := "A", clientID := "client_5_0" } ∧
      exRejoined.1 = { currentRoom := "A", clientID := "client_6_0" } ∧
      WF exRejoined.2.1 ∧
      exRejoined.2.1.out.take exJoinedOnce.2.1.out.length = exJoinedOnce.2.1.out ∧
      (exRejoined.2.1.out.drop exJoinedOnce.2.1.out.length).map wire =
        [("client_6_0", 1, InitialContent), ("client_6_0", 1, CommentsSync),
         ("client_6_0", 1, MediaSync), ("client_6_0", 1, UsersSync),
         ("client_4_0", 2, UserJoined), ("client_5_0", 1, UserJoined)] ∧
      ((exRejoined.2.1.out.drop exJoinedOnce.2.1.out.length).filter
        (fun s => decide (s.Conn = 1))).map (fun s => msgType s.msg) =
        [InitialContent, CommentsSync, MediaSync, UsersSync, UserJoined] := by
  refine ⟨by decide, by decide, ?_, by decide, by decide, by decide⟩
  exact WF_handleWebSocket 1 _ (WF_handleWebSocket 2 _ WF_emptyWorld)

/-! ## A session whose room was swept -/

/-- C4 fails on the code. Connection 2 joined room `R` as
`client_90000000000000_0` (user `Red Cat`); a pass of the retention sweeper
then removed `R` from the registry with that session attached, and connection 3
joined `R`, which re-created the room with its own session only; the registry
is well-formed. Connection 2,
whose loop variables still name `R` and its session id, now sends a
comment-add that names `Eve` (`ue`) as author: the save succeeds, and the
comment stored, appended to the room and broadcast carries the author `Eve`
and the author id `ue` of the client, not the name and id of the sender; the
one write of the broadcast goes to connection 3, none to the sender. -/
theorem comment_add_after_sweep_keeps_client_author :
    exLateJoin.1 = { currentRoom := "R", clientID := "client_90000000000000_0" } ∧
      (lookup exLateJoin.2.1.rooms "R").map
          (fun r => r.Clients.map (fun q => (q.1, q.2.Conn, q.2.User.Name, q.2.User.ID)))
        = some [("client_90000000000000_0", 2, "Red Cat", "client_90000000000000_0")] ∧
      lookup exSwept.rooms "R" = none ∧
      (lookup exRecreated.2.1.rooms "R").map (fun r => r.Clients.map (fun q => (q.1, q.2.Conn)))
        = some [("client_90002000000000_0", 3)] ∧
      WF exRecreated.2.1 ∧
      exForged.1 = exLateJoin.1 ∧ exForged.2.2 = true ∧
      exForged.2.1.calls = exRecreated.2.1.calls ++
        [.saveComment "R"
          { exComment "forged" with
            ID := "comment_90003000000000", Timestamp := 25 * hour + 3 * second }] ∧
      exForged.2.1.db.comments.map (fun p => (p.1, p.2.ID, p.2.Author, p.2.AuthorID)) =
        [("R", "comment_7", "Red Cat", "client_5_0"),
         ("R", "comment_90003000000000", "Eve", "ue")] ∧
      (lookup exForged.2.1.rooms "R").map
          (fun r => r.Comments.map (fun c => (c.ID, c.Author, c.AuthorID))) =
        some [("comment_7", "Red Cat", "client_5_0"),
              ("comment_90003000000000", "Eve", "ue")] ∧
      exForged.2.1.out = exRecreated.2.1.out ++
        [mkSend (exEnv (25 * hour + 3 * second)) "client_90002000000000_0" 3
          (.comment ⟨⟨CommentAdd, "R"⟩,
            { exComment "forged" with
              ID := "comment_90003000000000", Timestamp := 25 * hour + 3 * second }⟩)] := by
  refine ⟨by decide, by decide, by decide, by decide, ?_, by decide, by decide, by decide,
    by decide, by decide, by decide⟩
  exact WF_handleWebSocket 3 _
    (WF_deleteOldRooms _ (WF_handleWebSocket 2 _ (WF_handleWebSocket 1 _ WF_emptyWorld)))

end Osborne
